import Mathlib

/-!
# kubescaler: the scaling control loop

A shallow embedding of `scaler.go`, `node.go` and the sorting helpers of
`kubernetes.go`.

* Go `int` / `int64` values are integers wrapped into the 64-bit two's-complement
  range after every arithmetic operation (`wrap64`).
* A Go `error` result is an `Option Error` (`none` is `nil`); a run-time panic
  is the outcome `Outcome.panic`.
* The orchestrator (`Kubernetes` interface), the node-pool provider
  (`nodepoolmanager.Provider` interface) and the wall clock are an environment
  `Env σ` acting on an arbitrary state `σ`; every call made to them is recorded
  in order in `Sys.calls`.
* What the Go runtime and standard library leave open (the order produced by
  `sort.Slice` among equal elements, the order of `range` over a map, the text
  form of a `time.Time`, a float conversion outside the exactly representable
  range) is a field of `Platform`.
-/

namespace Kubescaler

/-! ## Machine integers -/

/-- Two's-complement wrap of an integer into the `int64` range. -/
def wrap64 (x : Int) : Int := (x + 9223372036854775808) % 18446744073709551616 - 9223372036854775808

/-- Bound below which every `int64` is exactly a `float64`: 2^53. -/
def f64Exact : Int := 9007199254740992

/-! ## Errors and outcomes -/

/-- Go `error` values seen by the scaler: the sentinel `ErrNotEnoughResources`
(or an error wrapping it, which `errors.Is` cannot tell apart) and any other error. -/
inductive Error where
  | notEnoughResources
  | other (msg : String)
  deriving DecidableEq, Repr

/-- `ErrNotEnoughResources = errors.New("not enough resources")`. -/
def ErrNotEnoughResources : Error := Error.notEnoughResources

/-- `errors.Is(err, ErrNotEnoughResources)`. -/
def Error.isNotEnoughResources : Error → Bool
  | Error.notEnoughResources => true
  | Error.other _ => false

/-- Result of running a Go function: it returns a value or panics. -/
inductive Outcome (α : Type) where
  | ret (a : α)
  | panic
  deriving DecidableEq, Repr

/-! ## Data model (`node.go`) -/

abbrev ResourceName := String

/-- `v1.ResourceCPU`. -/
def ResourceCPU : ResourceName := "cpu"

/-- The annotation key written on every cordon and uncordon, `kubescaler/timestamp`. -/
def timestampAnnotation : String := "kubescaler/timestamp"

/-- Read of a Go map: the value stored under the key, if any. -/
def mapGet {β : Type} (m : List (String × β)) (k : String) : Option β :=
  match m with
  | [] => none
  | (k1, v) :: rest => if k1 = k then some v else mapGet rest k

/-- Write to a Go map: the key is bound to the new value, other keys are kept. -/
def mapSet {β : Type} (m : List (String × β)) (k : String) (v : β) : List (String × β) :=
  match m with
  | [] => [(k, v)]
  | (k1, v1) :: rest => if k1 = k then (k, v) :: rest else (k1, v1) :: mapSet rest k v

/-- A container: `Resources.Limits`, each quantity as its `MilliValue()`. -/
structure Container where
  Limits : List (ResourceName × Int)
  deriving DecidableEq, Repr

/-- The fields of `v1.Pod` the scaler reads. -/
structure Pod where
  Labels : List (String × String)
  Containers : List Container
  deriving DecidableEq, Repr

/-- A `v1.NodeCondition`: its type and status. -/
structure NodeCondition where
  CType : String
  Status : String
  deriving DecidableEq, Repr

/-- `Node`: the fields of the orchestrator record `N` the scaler reads or
writes, and the pods scheduled on the node. `Annotations = none` is a nil map. -/
structure Node where
  Name : String
  Unschedulable : Bool
  Annotations : Option (List (String × String))
  Conditions : List NodeCondition
  Capacity : List (ResourceName × Int)
  Pods : List Pod
  deriving DecidableEq, Repr

/-- `NodeList`. -/
structure NodeList where
  Nodes : List Node
  deriving DecidableEq, Repr

/-- `Resource`. -/
structure Resource where
  Name : ResourceName
  Value : Int
  deriving DecidableEq, Repr

/-- `Node.IsReady`. -/
def Node.IsReady (n : Node) : Bool :=
  n.Conditions.any (fun c => decide (c.CType = "Ready") && decide (c.Status = "True"))

/-- `Node.IsSchedulable`. -/
def Node.IsSchedulable (n : Node) : Bool := !n.Unschedulable

/-- `Node.ResourceCapacity`: a missing key reads as the zero quantity. -/
def Node.ResourceCapacity (n : Node) (resource : ResourceName) : Int :=
  (mapGet n.Capacity resource).getD 0

/-- `Node.UsingResources`: the limits of every container of every pod, added up in `int64`. -/
def Node.UsingResources (n : Node) (resource : ResourceName) : Int :=
  n.Pods.foldl (fun total pod =>
    pod.Containers.foldl (fun t c => wrap64 (t + (mapGet c.Limits resource).getD 0)) total) 0

/-- `Node.AvailableResource`. -/
def Node.AvailableResource (n : Node) (resource : ResourceName) : Int :=
  wrap64 (n.ResourceCapacity resource - n.UsingResources resource)

/-- `NodeList.AvailableNodes`. -/
def NodeList.AvailableNodes (n : NodeList) : List Node :=
  n.Nodes.filter (fun node => node.IsReady && node.IsSchedulable)

/-- `NodeList.UnschedulableNodes`. -/
def NodeList.UnschedulableNodes (n : NodeList) : List Node :=
  n.Nodes.filter (fun node => !node.IsSchedulable)

/-- `NodeList.SchedulableNodes`. -/
def NodeList.SchedulableNodes (n : NodeList) : List Node :=
  n.Nodes.filter (fun node => node.IsSchedulable)

/-- `NodeList.AvailableResource`. -/
def NodeList.AvailableResource (n : NodeList) (resource : ResourceName) : Int :=
  n.AvailableNodes.foldl (fun a node => wrap64 (a + node.AvailableResource resource)) 0

/-- `NodeList.AvailableSlot`: Go integer division truncates toward zero and
panics (`none`) on a zero divisor. -/
def NodeList.AvailableSlot (n : NodeList) (need : Resource) : Option Int :=
  if need.Value = 0 then none
  else some (wrap64 (Int.tdiv (n.AvailableResource need.Name) need.Value))

/-! ## Sorting helpers (`kubernetes.go`) and the Go runtime -/

/-- What `sort.Slice` asks of its `less` function: a strict weak ordering. -/
def IsOrdering (less : Node → Node → Bool) : Prop :=
  (∀ a, less a a = false) ∧
  (∀ a b c, less a b = true → less b c = true → less a c = true) ∧
  (∀ a b c, less a b = false → less b c = false → less a c = false)

/-- Behaviour of the Go runtime and standard library that the source relies on
but does not fix.

* `sortSlice less xs` is `sort.Slice`: a permutation of `xs` ordered by `less`;
  the order among elements that `less` does not separate is not fixed.
* `rangeOrder m` is the order in which `range` visits the entries of a map.
* `f64Ceil v c` and `f64Floor v c` stand for `int(math.Ceil(float64(v) / float64(c)))`
  and `int64(math.Floor(float64(v) / float64(c)))` where the float computation is
  not the exact quotient (`c = 0`, or an operand of magnitude 2^53 or more).
* `marshalText` and `unmarshalText` are `time.Time.MarshalText` and
  `time.Time.UnmarshalText`; an instant is a number of nanoseconds. -/
structure Platform where
  sortSlice : (Node → Node → Bool) → List Node → List Node
  sortSlice_perm : ∀ less xs, (sortSlice less xs).Perm xs
  sortSlice_sorted : ∀ less xs, IsOrdering less →
    List.Pairwise (fun a b => less b a = false) (sortSlice less xs)
  rangeOrder : List (ResourceName × Int) → List (ResourceName × Int)
  rangeOrder_perm : ∀ m, (rangeOrder m).Perm m
  f64Ceil : Int → Int → Int
  f64Floor : Int → Int → Int
  marshalText : Int → Except Error String
  unmarshalText : String → Except Error Int

/-- `int(math.Ceil(float64(v) / float64(c)))`. For a non-zero divisor and
operands below 2^53 in magnitude the conversions are exact and the rounded
quotient has the ceiling of the exact one. -/
def ceilDiv (P : Platform) (v c : Int) : Int :=
  if c ≠ 0 ∧ |v| < f64Exact ∧ |c| < f64Exact then -(Int.fdiv (-v) c) else P.f64Ceil v c

/-- `int64(math.Floor(float64(v) / float64(c)))`, as `ceilDiv`. -/
def floorDiv (P : Platform) (v c : Int) : Int :=
  if c ≠ 0 ∧ |v| < f64Exact ∧ |c| < f64Exact then Int.fdiv v c else P.f64Floor v c

/-- `SortNodesByPods`: ascending by pod count. -/
def SortNodesByPods (P : Platform) (nodes : List Node) : List Node :=
  P.sortSlice (fun a b => decide (a.Pods.length < b.Pods.length)) nodes

/-- `SortNodesByPodsDesc`: descending by pod count. -/
def SortNodesByPodsDesc (P : Platform) (nodes : List Node) : List Node :=
  P.sortSlice (fun a b => decide (b.Pods.length < a.Pods.length)) nodes

/-! ## Collaborators and the call record -/

/-- A call made to a collaborator. `Now t` is a reading `t` of `time.Now()`. -/
inductive Call where
  | Nodes (selector : String)
  | UpdateNode (node : Node)
  | ResizeNode (count : Int)
  | DeleteNodes (ids : List String)
  | Now (t : Int)
  deriving DecidableEq, Repr

/-- The `Kubernetes` interface (`Nodes`, `UpdateNode`), the
`nodepoolmanager.Provider` interface (`ResizeNode`, `DeleteNodes`) and the
clock, as transitions of an arbitrary state. -/
structure Env (σ : Type) where
  Nodes : String → σ → Except Error NodeList × σ
  UpdateNode : Node → σ → Option Error × σ
  ResizeNode : Int → σ → Option Error × σ
  DeleteNodes : List String → σ → Option Error × σ
  Now : σ → Int × σ

/-- State of the collaborators and the calls made so far, oldest first. -/
structure Sys (σ : Type) where
  st : σ
  calls : List Call

/-- `s.k8s.Nodes(ctx, selector)`. -/
def callNodes {σ : Type} (E : Env σ) (selector : String) (s : Sys σ) :
    Except Error NodeList × Sys σ :=
  ((E.Nodes selector s.st).1, ⟨(E.Nodes selector s.st).2, s.calls ++ [Call.Nodes selector]⟩)

/-- `s.k8s.UpdateNode(ctx, n)`. -/
def callUpdateNode {σ : Type} (E : Env σ) (n : Node) (s : Sys σ) : Option Error × Sys σ :=
  ((E.UpdateNode n s.st).1, ⟨(E.UpdateNode n s.st).2, s.calls ++ [Call.UpdateNode n]⟩)

/-- `s.npm.ResizeNode(ctx, count)`. -/
def callResizeNode {σ : Type} (E : Env σ) (count : Int) (s : Sys σ) : Option Error × Sys σ :=
  ((E.ResizeNode count s.st).1, ⟨(E.ResizeNode count s.st).2, s.calls ++ [Call.ResizeNode count]⟩)

/-- `s.npm.DeleteNodes(nil, ids)`. -/
def callDeleteNodes {σ : Type} (E : Env σ) (ids : List String) (s : Sys σ) :
    Option Error × Sys σ :=
  ((E.DeleteNodes ids s.st).1, ⟨(E.DeleteNodes ids s.st).2, s.calls ++ [Call.DeleteNodes ids]⟩)

/-- `time.Now()`. -/
def callNow {σ : Type} (E : Env σ) (s : Sys σ) : Int × Sys σ :=
  ((E.Now s.st).1, ⟨(E.Now s.st).2, s.calls ++ [Call.Now (E.Now s.st).1]⟩)

/-! ## Cordon and uncordon (`node.go`, `scaler.go`) -/

/-- Common body of `Node.MarkAsSchedulable` and `Node.MarkAsUnschedulable`: the
flag is set first, then the clock is read and marshalled (an error returns with
the flag already set), then the annotation is written (a nil map panics). The
node is returned as mutated. -/
def Node.mark {σ : Type} (P : Platform) (E : Env σ) (unschedulable : Bool) (n : Node)
    (s : Sys σ) : Outcome (Node × Option Error) × Sys σ :=
  let n1 : Node := { n with Unschedulable := unschedulable }
  let s1 := (callNow E s).2
  match P.marshalText (callNow E s).1 with
  | Except.error err => (Outcome.ret (n1, some err), s1)
  | Except.ok t =>
    match n1.Annotations with
    | none => (Outcome.panic, s1)
    | some m =>
      (Outcome.ret ({ n1 with Annotations := some (mapSet m timestampAnnotation t) }, none), s1)

/-- `Node.MarkAsSchedulable`. -/
def Node.MarkAsSchedulable {σ : Type} (P : Platform) (E : Env σ) (n : Node) (s : Sys σ) :
    Outcome (Node × Option Error) × Sys σ :=
  Node.mark P E false n s

/-- `Node.MarkAsUnschedulable`. -/
def Node.MarkAsUnschedulable {σ : Type} (P : Platform) (E : Env σ) (n : Node) (s : Sys σ) :
    Outcome (Node × Option Error) × Sys σ :=
  Node.mark P E true n s

/-- `Node.SchedulingMarkTimestamp`: a missing key or a nil map reads as the empty text. -/
def Node.SchedulingMarkTimestamp (P : Platform) (n : Node) : Except Error Int :=
  P.unmarshalText ((mapGet (n.Annotations.getD []) timestampAnnotation).getD "")

/-- `Scaler.markNodeAsSchedulable`. -/
def markNodeAsSchedulable {σ : Type} (P : Platform) (E : Env σ) (n : Node) (s : Sys σ) :
    Outcome (Option Error) × Sys σ :=
  match Node.MarkAsSchedulable P E n s with
  | (Outcome.panic, s1) => (Outcome.panic, s1)
  | (Outcome.ret (_, some err), s1) => (Outcome.ret (some err), s1)
  | (Outcome.ret (n1, none), s1) => (Outcome.ret (callUpdateNode E n1 s1).1, (callUpdateNode E n1 s1).2)

/-- `Scaler.markNodeAsUnschedulable`. -/
def markNodeAsUnschedulable {σ : Type} (P : Platform) (E : Env σ) (n : Node) (s : Sys σ) :
    Outcome (Option Error) × Sys σ :=
  match Node.MarkAsUnschedulable P E n s with
  | (Outcome.panic, s1) => (Outcome.panic, s1)
  | (Outcome.ret (_, some err), s1) => (Outcome.ret (some err), s1)
  | (Outcome.ret (n1, none), s1) => (Outcome.ret (callUpdateNode E n1 s1).1, (callUpdateNode E n1 s1).2)

/-! ## The scaler (`scaler.go`) -/

/-- `Config` (the logger is left out: logging has no effect on the decisions). -/
structure Config where
  NodeSelector : String
  MinimumNode : Int
  MaximumNode : Int
  PodCPURequest : Int
  PodLabelName : String
  PodLabelValue : String
  EmptyNodeExpiration : Int
  BufferSlotSize : Int
  ScaleLoopDuration : Int
  deriving DecidableEq, Repr

/-- `Scaler.filterPods`: the pods whose label `PodLabelName` is present and equal to `PodLabelValue`. -/
def filterPods (cfg : Config) (pods : List Pod) : List Pod :=
  pods.filter (fun p => decide (mapGet p.Labels cfg.PodLabelName = some cfg.PodLabelValue))

/-- The loop of `increaseNodePoolSize` over `needs`, from the running maximum
`maxNeededNodes`; `first` is `nodes.Nodes[0]`. -/
def maxNeededNodes (P : Platform) (first : Node) : List Resource → Int → Int
  | [], m => m
  | r :: rest, m =>
    if ceilDiv P r.Value (first.ResourceCapacity r.Name) > m then
      maxNeededNodes P first rest (ceilDiv P r.Value (first.ResourceCapacity r.Name))
    else maxNeededNodes P first rest m

/-- The count `increaseNodePoolSize` passes to `ResizeNode`; `none` when
`nodes.Nodes[0]` is read on an empty list. -/
def resizeTarget (P : Platform) (cfg : Config) (nodes : NodeList) (needs : List Resource) :
    Option Int :=
  match needs, nodes.Nodes with
  | [], _ => some (min (wrap64 (0 + nodes.AvailableNodes.length)) cfg.MaximumNode)
  | _ :: _, [] => none
  | r :: rest, first :: _ =>
    some (min (wrap64 (maxNeededNodes P first (r :: rest) 0 + nodes.AvailableNodes.length))
      cfg.MaximumNode)

/-- `Scaler.increaseNodePoolSize`. -/
def increaseNodePoolSize {σ : Type} (P : Platform) (E : Env σ) (cfg : Config) (nodes : NodeList)
    (needs : List Resource) (s : Sys σ) : Outcome (Option Error) × Sys σ :=
  match resizeTarget P cfg nodes needs with
  | none => (Outcome.panic, s)
  | some size => (Outcome.ret (callResizeNode E size s).1, (callResizeNode E size s).2)

/-- The loop of `checkForUnscheduling` over `extra`, from the running value of
`minExtraNodes`: a running value of 0 is replaced by the next `extraNode`. -/
def minExtraNodes (P : Platform) (first : Node) : List Resource → Int → Int
  | [], m => m
  | r :: rest, m =>
    if m = 0 then minExtraNodes P first rest (floorDiv P r.Value (first.ResourceCapacity r.Name))
    else if floorDiv P r.Value (first.ResourceCapacity r.Name) < m then
      minExtraNodes P first rest (floorDiv P r.Value (first.ResourceCapacity r.Name))
    else minExtraNodes P first rest m

/-- The loop of `checkForUnscheduling` over `extraNodes`: it stops at the first error. -/
def cordonLoop {σ : Type} (P : Platform) (E : Env σ) :
    List Node → Sys σ → Outcome (Option Error) × Sys σ
  | [], s => (Outcome.ret none, s)
  | n :: rest, s =>
    match markNodeAsUnschedulable P E n s with
    | (Outcome.panic, s1) => (Outcome.panic, s1)
    | (Outcome.ret (some err), s1) => (Outcome.ret (some err), s1)
    | (Outcome.ret none, s1) => cordonLoop P E rest s1

/-- `Scaler.checkForUnscheduling`. The first statement reads `extra[0]` and the
loop reads `nodes.Nodes[0]`: either panics when the list is empty. The slice
`nodes.Nodes[0:minExtraNodes]` panics when the bound exceeds the capacity of the
slice, taken here to be its length. -/
def checkForUnscheduling {σ : Type} (P : Platform) (E : Env σ) (nodes : NodeList)
    (extra : List Resource) (s : Sys σ) : Outcome (Option Error) × Sys σ :=
  match extra, nodes.Nodes with
  | [], _ => (Outcome.panic, s)
  | _ :: _, [] => (Outcome.panic, s)
  | r :: rest, first :: _ =>
    if minExtraNodes P first (r :: rest) 0 ≤ 0 then (Outcome.ret none, s)
    else if minExtraNodes P first (r :: rest) 0 > nodes.Nodes.length then (Outcome.panic, s)
    else cordonLoop P E
      ((SortNodesByPods P nodes.Nodes).take (minExtraNodes P first (r :: rest) 0).toNat) s

/-- The statement `if v <= 0 { enoughResources[r] = true }`: the keys of `enoughResources`. -/
def noteEnough (enough : List ResourceName) (r : ResourceName) (v : Int) : List ResourceName :=
  if v ≤ 0 then (if r ∈ enough then enough else enough ++ [r]) else enough

/-- The inner loop of `checkForScheduling`, `for r, v := range resources`, for
one node: `v` is a copy of the map value, so the subtraction does not change the
map. Returns `enoughResources` (its keys) and whether the function returns `nil`. -/
def enoughLoop (node : Node) (needsLen : Nat) :
    List (ResourceName × Int) → List ResourceName → List ResourceName × Bool
  | [], enough => (enough, false)
  | (r, v) :: rest, enough =>
    if (noteEnough enough r (wrap64 (v - node.AvailableResource r))).length = needsLen then
      (noteEnough enough r (wrap64 (v - node.AvailableResource r)), true)
    else enoughLoop node needsLen rest (noteEnough enough r (wrap64 (v - node.AvailableResource r)))

/-- The outer loop of `checkForScheduling` over the sorted cordoned nodes. -/
def uncordonLoop {σ : Type} (P : Platform) (E : Env σ) (resources : List (ResourceName × Int))
    (needsLen : Nat) : List Node → List ResourceName → Sys σ → Outcome (Option Error) × Sys σ
  | [], _, s => (Outcome.ret (some (Error.other "not enough resource")), s)
  | node :: rest, enough, s =>
    match markNodeAsSchedulable P E node s with
    | (Outcome.panic, s1) => (Outcome.panic, s1)
    | (Outcome.ret (some err), s1) => (Outcome.ret (some err), s1)
    | (Outcome.ret none, s1) =>
      if (enoughLoop node needsLen (P.rangeOrder resources) enough).2 then (Outcome.ret none, s1)
      else uncordonLoop P E resources needsLen rest
        (enoughLoop node needsLen (P.rangeOrder resources) enough).1 s1

/-- `Scaler.checkForScheduling`. The first statement reads `needs[0]` and
panics when `needs` is empty. -/
def checkForScheduling {σ : Type} (P : Platform) (E : Env σ) (n : NodeList)
    (needs : List Resource) (s : Sys σ) : Outcome (Option Error) × Sys σ :=
  match needs with
  | [] => (Outcome.panic, s)
  | _ :: _ =>
    if n.UnschedulableNodes.length = 0 then (Outcome.ret (some ErrNotEnoughResources), s)
    else uncordonLoop P E (needs.foldl (fun m need => mapSet m need.Name need.Value) [])
      needs.length (SortNodesByPodsDesc P n.UnschedulableNodes) [] s

/-- The loop of `deleteExtraNodes` over the cordoned nodes; `l` is the live
counter (above `MinimumNode` on entry, so `l--` cannot overflow) and
`deleteNodes` the names gathered so far. The clock is read once for the log
line and once more in the condition when the node has no workload pod. -/
def deleteLoop {σ : Type} (P : Platform) (E : Env σ) (cfg : Config) :
    List Node → Int → List String → Sys σ → Except Error (List String) × Sys σ
  | [], _, deleteNodes, s => (Except.ok deleteNodes, s)
  | node :: rest, l, deleteNodes, s =>
    match node.SchedulingMarkTimestamp P with
    | Except.error err => (Except.error err, s)
    | Except.ok t =>
      if (filterPods cfg node.Pods).length = 0 then
        if t + cfg.EmptyNodeExpiration < (callNow E (callNow E s).2).1 then
          if l - 1 ≤ cfg.MinimumNode then
            (Except.ok (deleteNodes ++ [node.Name]), (callNow E (callNow E s).2).2)
          else deleteLoop P E cfg rest (l - 1) (deleteNodes ++ [node.Name])
            (callNow E (callNow E s).2).2
        else deleteLoop P E cfg rest l deleteNodes (callNow E (callNow E s).2).2
      else deleteLoop P E cfg rest l deleteNodes (callNow E s).2

/-- `Scaler.deleteExtraNodes`. -/
def deleteExtraNodes {σ : Type} (P : Platform) (E : Env σ) (cfg : Config) (s : Sys σ) :
    Outcome (Option Error) × Sys σ :=
  match callNodes E cfg.NodeSelector s with
  | (Except.error err, s1) => (Outcome.ret (some err), s1)
  | (Except.ok nodes, s1) =>
    if (nodes.Nodes.length : Int) ≤ cfg.MinimumNode then (Outcome.ret none, s1)
    else
      match deleteLoop P E cfg nodes.UnschedulableNodes nodes.Nodes.length [] s1 with
      | (Except.error err, s2) => (Outcome.ret (some err), s2)
      | (Except.ok deleteNodes, s2) =>
        (Outcome.ret (callDeleteNodes E deleteNodes s2).1, (callDeleteNodes E deleteNodes s2).2)

/-- Lines 127 to 140 and 150 of `scale()`: the nodes are read again, the pool is
resized, the result of the resize is dropped and `deleteExtraNodes` decides the
result. -/
def scaleUp {σ : Type} (P : Platform) (E : Env σ) (cfg : Config) (s : Sys σ) :
    Outcome (Option Error) × Sys σ :=
  match callNodes E cfg.NodeSelector s with
  | (Except.error err, s1) => (Outcome.ret (some err), s1)
  | (Except.ok nodes, s1) =>
    match nodes.AvailableSlot ⟨ResourceCPU, cfg.PodCPURequest⟩ with
    | none => (Outcome.panic, s1)
    | some availableSlot =>
      match increaseNodePoolSize P E cfg nodes
          [⟨ResourceCPU, wrap64 (cfg.PodCPURequest * wrap64 (cfg.BufferSlotSize - availableSlot))⟩]
          s1 with
      | (Outcome.panic, s2) => (Outcome.panic, s2)
      | (Outcome.ret _, s2) => deleteExtraNodes P E cfg s2

/-- `Scaler.scale`. -/
def scale {σ : Type} (P : Platform) (E : Env σ) (cfg : Config) (s : Sys σ) :
    Outcome (Option Error) × Sys σ :=
  match callNodes E cfg.NodeSelector s with
  | (Except.error err, s1) => (Outcome.ret (some err), s1)
  | (Except.ok nodes, s1) =>
    if (nodes.Nodes.length : Int) < cfg.MinimumNode then
      (Outcome.ret (callResizeNode E cfg.MinimumNode s1).1, (callResizeNode E cfg.MinimumNode s1).2)
    else
      match nodes.AvailableSlot ⟨ResourceCPU, cfg.PodCPURequest⟩ with
      | none => (Outcome.panic, s1)
      | some availableSlot =>
        if availableSlot < cfg.BufferSlotSize then
          match checkForScheduling P E nodes
              [⟨ResourceCPU, wrap64 (cfg.PodCPURequest * cfg.BufferSlotSize)⟩] s1 with
          | (Outcome.panic, s2) => (Outcome.panic, s2)
          | (Outcome.ret err, s2) =>
            if err.any (fun e => !e.isNotEnoughResources) then (Outcome.ret err, s2)
            else scaleUp P E cfg s2
        else if availableSlot > cfg.BufferSlotSize then
          match checkForUnscheduling P E nodes
              [⟨ResourceCPU, wrap64 (cfg.PodCPURequest * wrap64 (availableSlot - cfg.BufferSlotSize))⟩]
              s1 with
          | (Outcome.panic, s2) => (Outcome.panic, s2)
          | (Outcome.ret (some err), s2) => (Outcome.ret (some err), s2)
          | (Outcome.ret none, s2) => deleteExtraNodes P E cfg s2
        else deleteExtraNodes P E cfg s1

/-- The calls made between the state `before` and the later state `after`. -/
def callsSince {σ : Type} (before after : Sys σ) : List Call :=
  after.calls.drop before.calls.length

/-! ## A concrete platform and the collaborators of `scaler_test.go` -/

/-- A platform to run the model on: `sort.Slice` as the insertion sort Go uses
for short slices, `range` in insertion order, the out-of-range float conversion
as the smallest `int64`, and an instant written as the list of its decimal digits. -/
def stdPlatform : Platform where
  sortSlice less xs := xs.insertionSort (fun a b => less b a = false)
  sortSlice_perm less xs := List.perm_insertionSort _ xs
  sortSlice_sorted less xs h := by
    haveI : IsTotal Node (fun a b => less b a = false) := ⟨fun a b => by
      by_cases hab : less a b = true
      · left
        by_contra hba
        have hba1 : less b a = true := by simpa using hba
        have haa := h.2.1 a b a hab hba1
        rw [h.1 a] at haa
        exact Bool.noConfusion haa
      · right
        simpa using hab⟩
    haveI : IsTrans Node (fun a b => less b a = false) := ⟨fun a b c hab hbc => h.2.2 c b a hbc hab⟩
    exact List.sorted_insertionSort _ xs
  rangeOrder m := m
  rangeOrder_perm m := List.Perm.refl m
  f64Ceil _ _ := -9223372036854775808
  f64Floor _ _ := -9223372036854775808
  marshalText t := if t < 0 then Except.error (Error.other "year outside of range [0,9999]")
    else Except.ok (String.mk (Nat.toDigits 10 t.toNat))
  unmarshalText txt :=
    if txt.data = [] ∨ ¬ txt.data.all Char.isDigit then Except.error (Error.other "cannot parse")
    else Except.ok (txt.data.foldl (fun (acc : Int) c => acc * 10 + (c.toNat - 48 : Nat)) 0)

/-- State of the fake collaborators of `scaler_test.go`: the nodes of the pool
with their pods, and the clock. -/
structure Pool where
  nodes : List Node
  clock : Nat
  deriving DecidableEq, Repr

/-- A node as `newNodeList` builds it: ready, schedulable, 1000 milli-CPU, an
empty annotation map; with the given pods. -/
def newNode (name : String) (pods : List Pod) : Node :=
  { Name := name, Unschedulable := false, Annotations := some [],
    Conditions := [⟨"Ready", "True"⟩], Capacity := [(ResourceCPU, 1000)], Pods := pods }

/-- A pod as `newPodList` builds it: one container with the given CPU limit,
labelled `session=dedicated-server` when it is a dedicated server. -/
def newPod (cpu : Int) (isDedicatedServer : Bool) : Pod :=
  { Labels := if isDedicatedServer then [("session", "dedicated-server")] else [],
    Containers := [⟨[(ResourceCPU, cpu)]⟩] }

/-- The nodes `newNodeList(count, false)` builds: `test-node-0`, `test-node-1`,
..., each as `newNode` builds it, without pods. -/
def freshNodes (count : Nat) : List Node :=
  (List.range count).map (fun i => newNode ("test-node-" ++ String.mk (Nat.toDigits 10 i)) [])

/-- The fake clientset and the provider mock of `scaler_test.go`: `Nodes` lists
the pool, `UpdateNode` replaces the node of that name, `ResizeNode` adds fresh
nodes when the pool is smaller than the count, `DeleteNodes` removes the named
nodes; none of them fails. Each reading of the clock advances it by one. -/
def mockEnv : Env Pool where
  Nodes _ p := (Except.ok ⟨p.nodes⟩, p)
  UpdateNode n p := (none, { p with nodes := p.nodes.map (fun m => if m.Name = n.Name then n else m) })
  ResizeNode count p :=
    (none, { p with nodes := p.nodes ++ freshNodes (count - p.nodes.length).toNat })
  DeleteNodes ids p := (none, { p with nodes := p.nodes.filter (fun n => n.Name ∉ ids) })
  Now p := ((p.clock : Int), { p with clock := p.clock + 1 })

/-- The configuration of `TestScaler_scale`. -/
def testConfig : Config :=
  { NodeSelector := "role=scalable", MinimumNode := 2, MaximumNode := 6, PodCPURequest := 100,
    PodLabelName := "session", PodLabelValue := "dedicated-server", EmptyNodeExpiration := 0,
    BufferSlotSize := 4, ScaleLoopDuration := 0 }

/-- Workload pods as `repeatRequestPod` builds them: `count` dedicated-server pods of 100 milli-CPU. -/
def workloadPods (count : Nat) : List Pod := List.replicate count (newPod 100 true)

/-- A node cordoned earlier, at the instant written in `t`. -/
def cordonedAt (n : Node) (t : String) : Node :=
  { n with Unschedulable := true, Annotations := some [( timestampAnnotation, t)] }

/-- A node whose `Ready` condition is `False`. -/
def notReady (n : Node) : Node := { n with Conditions := [⟨"Ready", "False"⟩] }

/-- Scenario `minimum_scale`: an empty pool. -/
def minimumScalePool : Pool := ⟨[], 5⟩

/-- Scenario `scale_up`: two nodes with 9 and 8 workload pods. -/
def scaleUpPool : Pool :=
  ⟨[newNode "test-node-0" (workloadPods 9), newNode "test-node-1" (workloadPods 8)], 5⟩

/-- Scenario `scale_up_schedule`: three nodes with 9, 8 and 1 workload pods, the third cordoned. -/
def scaleUpSchedulePool : Pool :=
  ⟨[newNode "test-node-0" (workloadPods 9), newNode "test-node-1" (workloadPods 8),
    cordonedAt (newNode "test-node-2" (workloadPods 1)) "3"], 5⟩

/-- Scenario `scale_down_unschedule_non_dedicated`: three nodes with 8, 7 and 1
pods, the third cordoned and its only pod without the workload label. -/
def nonDedicatedPool : Pool :=
  ⟨[newNode "test-node-0" (workloadPods 8), newNode "test-node-1" (workloadPods 7),
    cordonedAt (newNode "test-node-2" [newPod 100 false]) "3"], 5⟩

/-- Three nodes that are not ready yet, none of them cordoned. -/
def notReadyPool : Pool :=
  ⟨[notReady (newNode "test-node-0" []), notReady (newNode "test-node-1" []),
    notReady (newNode "test-node-2" [])], 5⟩

/-- Three nodes, two of them cordoned at instant 3 and without pods. -/
def twoExpiredPool : Pool :=
  ⟨[newNode "test-node-0" (workloadPods 8), cordonedAt (newNode "test-node-1" []) "3",
    cordonedAt (newNode "test-node-2" []) "3"], 5⟩

/-- The provider and orchestrator of `mockEnv`, except that `UpdateNode` fails. -/
def failingUpdateEnv : Env Pool :=
  { mockEnv with UpdateNode := fun _ p => (some (Error.other "update failed"), p) }

/-- A pool of one node without pods. -/
def singleNodePool : Pool := ⟨[newNode "test-node-0" []], 5⟩

/-- A pool of two nodes without pods. -/
def twoNodePool : Pool := ⟨[newNode "test-node-0" [], newNode "test-node-1" []], 5⟩

/-- Scenario `scale_down_unschedule`: three nodes with 8, 7 and 1 workload pods. -/
def scaleDownUnschedulePool : Pool :=
  ⟨[newNode "test-node-0" (workloadPods 8), newNode "test-node-1" (workloadPods 7),
    newNode "test-node-2" (workloadPods 1)], 5⟩

/-- Two cordoned nodes, each with 7 workload pods of 100m: 300 milli-CPU available on each. -/
def twoCordonedPool : Pool :=
  ⟨[cordonedAt (newNode "test-node-0" (workloadPods 7)) "3",
    cordonedAt (newNode "test-node-1" (workloadPods 7)) "3"], 5⟩

/-- Three nodes with 9, 8 and 10 workload pods, the third cordoned: nothing is
available on the cordoned node. -/
def exhaustedPool : Pool :=
  ⟨[newNode "test-node-0" (workloadPods 9), newNode "test-node-1" (workloadPods 8),
    cordonedAt (newNode "test-node-2" (workloadPods 10)) "3"], 5⟩

/-- The provider and orchestrator of `mockEnv`, except that `ResizeNode` fails. -/
def failingResizeEnv : Env Pool :=
  { mockEnv with ResizeNode := fun _ p => (some (Error.other "resize failed"), p) }

/-- The test configuration with a minimum of three nodes. -/
def minimumThreeConfig : Config := { testConfig with MinimumNode := 3 }

/-- A name is eligible for deletion with respect to the cordoned nodes walked
and the clock readings taken. -/
def Eligible (P : Platform) (cfg : Config) (walked : List Node) (readings : List Call)
    (name : String) : Prop :=
  ∃ node ∈ walked, node.Name = name ∧
    (∀ p ∈ node.Pods, mapGet p.Labels cfg.PodLabelName ≠ some cfg.PodLabelValue) ∧
    ∃ t now, node.SchedulingMarkTimestamp P = Except.ok t ∧ Call.Now now ∈ readings ∧
      t + cfg.EmptyNodeExpiration < now

/-- A call that reads the clock or updates a node. -/
def Call.isMark : Call → Prop
  | Call.Now _ => True
  | Call.UpdateNode _ => True
  | _ => False

/-- The nodes passed to `UpdateNode`, in call order. -/
def updatedNodes : List Call → List Node
  | [] => []
  | Call.UpdateNode n :: rest => n :: updatedNodes rest
  | _ :: rest => updatedNodes rest

/-- The node as `MarkAsSchedulable` or `MarkAsUnschedulable` leaves it: the flag
set and the timestamp annotation of the map `m` bound to `txt`. -/
def Node.withMark (n : Node) (unschedulable : Bool) (m : List (String × String)) (txt : String) :
    Node :=
  { n with Unschedulable := unschedulable, Annotations := some (mapSet m timestampAnnotation txt) }

/-- The node `u` is the node `n` cordoned: the flag set, the timestamp
annotation bound to the text of an instant, every other field kept. -/
def CordonOf (P : Platform) (n u : Node) : Prop :=
  ∃ m t txt, n.Annotations = some m ∧ P.marshalText t = Except.ok txt ∧
    u = Node.withMark n true m txt

/-- One node of 1000 milli-CPU carrying 11 pods of 100 milli-CPU: the limits exceed the capacity. -/
def overcommittedPool : Pool := ⟨[newNode "test-node-0" (workloadPods 11)], 5⟩

/-- The sum of the `resource` limits of every container of every pod on the node, as an integer. -/
def specUsingResources (n : Node) (resource : ResourceName) : Int :=
  (n.Pods.map (fun pod =>
    (pod.Containers.map (fun c => (mapGet c.Limits resource).getD 0)).sum)).sum

/-- The sum, over the nodes that are both ready and schedulable, of the capacity
minus the limits; a node that is not ready or is cordoned counts for 0. -/
def specAvailableResource (n : NodeList) (resource : ResourceName) : Int :=
  (n.Nodes.map (fun node =>
    if node.IsReady = true ∧ node.Unschedulable = false then
      node.ResourceCapacity resource - specUsingResources node resource
    else 0)).sum

/-- Three nodes, the third cordoned at instant 6 and without pods; the clock
reads 5, then 6. -/
def boundaryPool : Pool :=
  ⟨[newNode "test-node-0" (workloadPods 8), newNode "test-node-1" (workloadPods 7),
    cordonedAt (newNode "test-node-2" []) "6"], 5⟩

/-- Calls of a cordon phase (`b = true`) or an uncordon phase (`b = false`):
clock readings and node updates only, and every node updated has the flag `b`
and carries as `kubescaler/timestamp` the text of a clock reading of the phase. -/
def Marks (P : Platform) (b : Bool) (ext : List Call) : Prop :=
  (∀ c ∈ ext, c.isMark) ∧
  ∀ u, Call.UpdateNode u ∈ ext → u.Unschedulable = b ∧
    ∃ t txt, Call.Now t ∈ ext ∧ P.marshalText t = Except.ok txt ∧
      mapGet (u.Annotations.getD []) timestampAnnotation = some txt

/-- Calls of `deleteExtraNodes`: the read of the nodes, clock readings, and at
most one `DeleteNodes` call, the last one. -/
def IsDeleteTail (selector : String) (tail : List Call) : Prop :=
  ∃ nows dels, tail = Call.Nodes selector :: (nows ++ dels) ∧
    (∀ c ∈ nows, ∃ t, c = Call.Now t) ∧ (dels = [] ∨ ∃ ids, dels = [Call.DeleteNodes ids])

/-- The calls a `scale()` pass can make: the floor resize; or an uncordon phase
followed by nothing, by the second read alone, or by the second read, one resize
and `deleteExtraNodes`; or a (possibly empty) cordon phase followed by nothing
or by `deleteExtraNodes`. -/
inductive PassShape (P : Platform) (cfg : Config) : List Call → Prop where
  | floor : PassShape P cfg [Call.Nodes cfg.NodeSelector, Call.ResizeNode cfg.MinimumNode]
  | up (marks rest : List Call) : Marks P false marks →
      (rest = [] ∨ rest = [Call.Nodes cfg.NodeSelector] ∨
        ∃ size tail, rest = Call.Nodes cfg.NodeSelector :: Call.ResizeNode size :: tail ∧
          IsDeleteTail cfg.NodeSelector tail) →
      PassShape P cfg (Call.Nodes cfg.NodeSelector :: (marks ++ rest))
  | down (marks rest : List Call) : Marks P true marks →
      (rest = [] ∨ IsDeleteTail cfg.NodeSelector rest) →
      PassShape P cfg (Call.Nodes cfg.NodeSelector :: (marks ++ rest))

/-- The call is a `ResizeNode`. -/
def Call.isResize : Call → Bool
  | Call.ResizeNode _ => true
  | _ => false

/-- The call is a `DeleteNodes`. -/
def Call.isDelete : Call → Bool
  | Call.DeleteNodes _ => true
  | _ => false

/-- Scenario `scale_down`: three nodes with 9, 7 and 0 workload pods. -/
def scaleDownPool : Pool :=
  ⟨[newNode "test-node-0" (workloadPods 9), newNode "test-node-1" (workloadPods 7),
    newNode "test-node-2" []], 5⟩

/-- Three nodes without pods, the first one cordoned at instant 3. -/
def recordonPool : Pool :=
  ⟨[cordonedAt (newNode "test-node-0" []) "3", newNode "test-node-1" [],
    newNode "test-node-2" []], 5⟩

/-- An orchestrator that persists, with any provider: `Nodes` lists the stored
nodes, `UpdateNode` replaces the stored node of that name (as the reactor of
`scaler_test.go` does) and succeeds, `ResizeNode` and `DeleteNodes` act on the
stored nodes through `resize` and `delete` and may fail. Each reading of the
clock advances it by one. -/
def persistentEnv (resize : Int → List Node → Option Error × List Node)
    (delete : List String → List Node → Option Error × List Node) : Env Pool where
  Nodes _ p := (Except.ok ⟨p.nodes⟩, p)
  UpdateNode n p := (none, { p with nodes := p.nodes.map (fun m => if m.Name = n.Name then n else m) })
  ResizeNode count p := ((resize count p.nodes).1, { p with nodes := (resize count p.nodes).2 })
  DeleteNodes ids p := ((delete ids p.nodes).1, { p with nodes := (delete ids p.nodes).2 })
  Now p := ((p.clock : Int), { p with clock := p.clock + 1 })

/-- Between two states of a persistent orchestrator, `ext` being the calls made:
only uncordon marks were made, and every node cordoned at the end was stored
unchanged at the start and bears the name of no node updated in between. -/
def UncordonedApart (P : Platform) (s s1 : Sys Pool) (ext : List Call) : Prop :=
  s1.calls = s.calls ++ ext ∧ Marks P false ext ∧
  ∀ n ∈ s1.st.nodes, n.Unschedulable = true →
    n ∈ s.st.nodes ∧ ∀ u, Call.UpdateNode u ∈ ext → n.Name ≠ u.Name

/-- The result `r` of a run started with an empty call record, replayed after
the calls of `s`. -/
def reframe {σ α : Type} (s : Sys σ) (r : α × Sys σ) : α × Sys σ :=
  (r.1, ⟨r.2.st, s.calls ++ r.2.calls⟩)

/-- The provider of `mockEnv`: `ResizeNode` adds fresh nodes when the pool is
smaller than the count. -/
def mockResize (count : Int) (l : List Node) : Option Error × List Node :=
  (none, l ++ freshNodes (count - l.length).toNat)

/-- The provider of `mockEnv`: `DeleteNodes` removes the named nodes. -/
def mockDelete (ids : List String) (l : List Node) : Option Error × List Node :=
  (none, l.filter (fun n => n.Name ∉ ids))

/-- The names of the cordoned nodes of a pool. -/
def cordonedNames (p : Pool) : List String :=
  (p.nodes.filter (fun n => n.Unschedulable)).map (fun n => n.Name)

/-- Two nodes with 9 and 7 workload pods: 4 slots available, the buffer. -/
def steadyPool : Pool :=
  ⟨[newNode "test-node-0" (workloadPods 9), newNode "test-node-1" (workloadPods 7)], 5⟩

/-- Four nodes with 9, 8, 1 and 0 workload pods, the last two cordoned at instant 3. -/
def uncordonAndDeletePool : Pool :=
  ⟨[newNode "test-node-0" (workloadPods 9), newNode "test-node-1" (workloadPods 8),
    cordonedAt (newNode "test-node-2" (workloadPods 1)) "3",
    cordonedAt (newNode "test-node-3" []) "3"], 5⟩

/-- `Provider.DeleteNodes` of the DigitalOcean provider (`provider.go`): the
client's `Kubernetes.DeleteNode` is `deleteNode`, acting on the state of the
cloud; the ids requested are recorded in order. The `return err` stands inside
the loop body, so the first iteration returns. -/
def digitalocean.Provider.DeleteNodes {σ : Type} (deleteNode : String → σ → Option Error × σ) :
    List String → σ × List String → Option Error × (σ × List String)
  | [], s => (none, s)
  | ID :: _, s => ((deleteNode ID s.1).1, ((deleteNode ID s.1).2, s.2 ++ [ID]))

/-- A node of 1000 milli-CPU and 1000 units of memory, ready, schedulable, without pods. -/
def twoResourceNode (name : String) : Node :=
  { Name := name, Unschedulable := false, Annotations := some [],
    Conditions := [⟨"Ready", "True"⟩], Capacity := [(ResourceCPU, 1000), ("memory", 1000)],
    Pods := [] }

/-- Five nodes of 1000 milli-CPU and 1000 units of memory. -/
def twoResourcePool : Pool :=
  ⟨[twoResourceNode "test-node-0", twoResourceNode "test-node-1", twoResourceNode "test-node-2",
    twoResourceNode "test-node-3", twoResourceNode "test-node-4"], 5⟩

/-- Four nodes: one with workload, one cordoned at instant 3 and without pods,
one cordoned whose timestamp annotation does not parse, one plain. -/
def parseErrorPool : Pool :=
  ⟨[newNode "test-node-0" (workloadPods 8), cordonedAt (newNode "test-node-1" []) "3",
    cordonedAt (newNode "test-node-2" []) "not-a-time", newNode "test-node-3" []], 5⟩

/-- What one node adds to `specAvailableResource`. -/
def specNodeAvailable (resource : ResourceName) (node : Node) : Int :=
  if node.IsReady = true ∧ node.Unschedulable = false then
    node.ResourceCapacity resource - specUsingResources node resource
  else 0

/-- The call `data.Less(i, j)` of `sort/zsortfunc.go`: the `less` of the caller
on the elements at `i` and `j`. This and the definitions named `sort.` below
follow the functions of the Go standard library behind `sort.Slice` (Go 1.19
and later: pattern-defeating quicksort), on a slice of nodes. Indices are
natural numbers; a loop takes a bound on its number of steps as an argument. -/
def sort.lessAt (less : Node → Node → Bool) (data : List Node) (i j : Nat) : Bool :=
  match data.get? i, data.get? j with
  | some x, some y => less x y
  | _, _ => false

/-- The call `data.Swap(i, j)`. -/
def sort.swapAt (data : List Node) (i j : Nat) : List Node :=
  match data.get? i, data.get? j with
  | some x, some y => (data.set i y).set j x
  | _, _ => data

/-- The inner loop of `insertionSort_func`: `for j := i; j > a && data.Less(j, j-1); j--`. -/
def sort.insertionSortInner (less : Node → Node → Bool) (a : Nat) : Nat → List Node → List Node
  | 0, data => data
  | j + 1, data =>
    if a < j + 1 ∧ sort.lessAt less data (j + 1) j = true then
      sort.insertionSortInner less a j (sort.swapAt data (j + 1) j)
    else data

/-- The outer loop of `insertionSort_func`: `for i := a + 1; i < b; i++`. -/
def sort.insertionSortOuter (less : Node → Node → Bool) (a b : Nat) :
    Nat → Nat → List Node → List Node
  | 0, _, data => data
  | steps + 1, i, data =>
    if i < b then
      sort.insertionSortOuter less a b steps (i + 1) (sort.insertionSortInner less a i data)
    else data

/-- `insertionSort_func(data, a, b)`. -/
def sort.insertionSort_func (less : Node → Node → Bool) (data : List Node) (a b : Nat) :
    List Node :=
  sort.insertionSortOuter less a b (b - a) (a + 1) data

/-- The loop of `siftDown_func` from `root`. -/
def sort.siftDownLoop (less : Node → Node → Bool) (hi first : Nat) :
    Nat → Nat → List Node → List Node
  | 0, _, data => data
  | steps + 1, root, data =>
    if 2 * root + 1 ≥ hi then data
    else if 2 * root + 2 < hi
        ∧ sort.lessAt less data (first + (2 * root + 1)) (first + (2 * root + 2)) = true then
      if sort.lessAt less data (first + root) (first + (2 * root + 2)) = true then
        sort.siftDownLoop less hi first steps (2 * root + 2)
          (sort.swapAt data (first + root) (first + (2 * root + 2)))
      else data
    else
      if sort.lessAt less data (first + root) (first + (2 * root + 1)) = true then
        sort.siftDownLoop less hi first steps (2 * root + 1)
          (sort.swapAt data (first + root) (first + (2 * root + 1)))
      else data

/-- `siftDown_func(data, lo, hi, first)`. -/
def sort.siftDown_func (less : Node → Node → Bool) (data : List Node) (lo hi first : Nat) :
    List Node :=
  sort.siftDownLoop less hi first hi lo data

/-- The first loop of `heapSort_func`: `for i := (hi - 1) / 2; i >= 0; i--`. -/
def sort.heapBuild (less : Node → Node → Bool) (hi first : Nat) : Nat → List Node → List Node
  | 0, data => sort.siftDown_func less data 0 hi first
  | i + 1, data => sort.heapBuild less hi first i (sort.siftDown_func less data (i + 1) hi first)

/-- The second loop of `heapSort_func`: `for i := hi - 1; i >= 0; i--`, from `i + 1`. -/
def sort.heapPop (less : Node → Node → Bool) (first : Nat) : Nat → List Node → List Node
  | 0, data => data
  | i + 1, data =>
    sort.heapPop less first i
      (sort.siftDown_func less (sort.swapAt data first (first + i)) 0 i first)

/-- `heapSort_func(data, a, b)`. -/
def sort.heapSort_func (less : Node → Node → Bool) (data : List Node) (a b : Nat) : List Node :=
  sort.heapPop less a (b - a) (sort.heapBuild less (b - a) a ((b - a - 1) / 2) data)

/-- The loop of `bits.Len`. -/
def sort.bitsLenLoop : Nat → Nat → Nat
  | 0, _ => 0
  | steps + 1, n => if n = 0 then 0 else sort.bitsLenLoop steps (n / 2) + 1

/-- `bits.Len(uint(n))`: the number of bits of `n`. -/
def sort.bitsLen (n : Nat) : Nat := sort.bitsLenLoop n n

/-- One index drawn in `breakPatterns_func` from the state `r` of the generator. -/
def sort.breakIndex (length r : Nat) : Nat :=
  if r % 2 ^ sort.bitsLen length ≥ length then r % 2 ^ sort.bitsLen length - length
  else r % 2 ^ sort.bitsLen length

/-- `breakPatterns_func(data, a, b)`; `next` is the step `random.Next()` of the
generator, seeded with the length. -/
def sort.breakPatterns_func (next : Nat → Nat) (data : List Node) (a b : Nat) : List Node :=
  if b - a ≥ 8 then
    sort.swapAt
      (sort.swapAt
        (sort.swapAt data (a + (b - a) / 4 * 2 - 1 - 1) (a + sort.breakIndex (b - a) (next (b - a))))
        (a + (b - a) / 4 * 2 - 1) (a + sort.breakIndex (b - a) (next (next (b - a)))))
      (a + (b - a) / 4 * 2 - 1 + 1) (a + sort.breakIndex (b - a) (next (next (next (b - a)))))
  else data

/-- The generator `xorshift.Next` on 64 bits, with the shifts 13, 7 and 17; the
sorting functions take the generator as the argument `next`. -/
def sort.xorshiftNext (r : Nat) : Nat :=
  ((r ^^^ (r <<< 13 % 18446744073709551616))
      ^^^ ((r ^^^ (r <<< 13 % 18446744073709551616)) >>> 7))
    ^^^ (((r ^^^ (r <<< 13 % 18446744073709551616))
      ^^^ ((r ^^^ (r <<< 13 % 18446744073709551616)) >>> 7)) <<< 17 % 18446744073709551616)

/-- `sortedHint`. -/
inductive sort.sortedHint where
  | unknownHint
  | increasingHint
  | decreasingHint
  deriving DecidableEq, Repr

/-- `order2_func(data, a, b, swaps)`: the two indices in order and the count of swaps. -/
def sort.order2_func (less : Node → Node → Bool) (data : List Node) (a b swaps : Nat) :
    Nat × Nat × Nat :=
  if sort.lessAt less data b a = true then (b, a, swaps + 1) else (a, b, swaps)

/-- `median_func(data, a, b, c, swaps)`: the index of the median and the count of swaps. -/
def sort.median_func (less : Node → Node → Bool) (data : List Node) (a b c swaps : Nat) :
    Nat × Nat :=
  ((sort.order2_func less data
      (sort.order2_func less data a b swaps).1
      (sort.order2_func less data (sort.order2_func less data a b swaps).2.1 c
        (sort.order2_func less data a b swaps).2.2).1
      (sort.order2_func less data (sort.order2_func less data a b swaps).2.1 c
        (sort.order2_func less data a b swaps).2.2).2.2).2.1,
   (sort.order2_func less data
      (sort.order2_func less data a b swaps).1
      (sort.order2_func less data (sort.order2_func less data a b swaps).2.1 c
        (sort.order2_func less data a b swaps).2.2).1
      (sort.order2_func less data (sort.order2_func less data a b swaps).2.1 c
        (sort.order2_func less data a b swaps).2.2).2.2).2.2)

/-- `medianAdjacent_func(data, a, swaps)`. -/
def sort.medianAdjacent_func (less : Node → Node → Bool) (data : List Node) (a swaps : Nat) :
    Nat × Nat :=
  sort.median_func less data (a - 1) a (a + 1) swaps

/-- The `switch swaps` of `choosePivot_func`; `maxSwaps` is 12. -/
def sort.hintOf (swaps : Nat) : sort.sortedHint :=
  if swaps = 0 then sort.sortedHint.increasingHint
  else if swaps = 12 then sort.sortedHint.decreasingHint
  else sort.sortedHint.unknownHint

/-- `choosePivot_func(data, a, b)`. -/
def sort.choosePivot_func (less : Node → Node → Bool) (data : List Node) (a b : Nat) :
    Nat × sort.sortedHint :=
  if b - a ≥ 8 then
    if b - a ≥ 50 then
      ((sort.median_func less data
          (sort.medianAdjacent_func less data (a + (b - a) / 4 * 1) 0).1
          (sort.medianAdjacent_func less data (a + (b - a) / 4 * 2)
            (sort.medianAdjacent_func less data (a + (b - a) / 4 * 1) 0).2).1
          (sort.medianAdjacent_func less data (a + (b - a) / 4 * 3)
            (sort.medianAdjacent_func less data (a + (b - a) / 4 * 2)
              (sort.medianAdjacent_func less data (a + (b - a) / 4 * 1) 0).2).2).1
          (sort.medianAdjacent_func less data (a + (b - a) / 4 * 3)
            (sort.medianAdjacent_func less data (a + (b - a) / 4 * 2)
              (sort.medianAdjacent_func less data (a + (b - a) / 4 * 1) 0).2).2).2).1,
        sort.hintOf (sort.median_func less data
          (sort.medianAdjacent_func less data (a + (b - a) / 4 * 1) 0).1
          (sort.medianAdjacent_func less data (a + (b - a) / 4 * 2)
            (sort.medianAdjacent_func less data (a + (b - a) / 4 * 1) 0).2).1
          (sort.medianAdjacent_func less data (a + (b - a) / 4 * 3)
            (sort.medianAdjacent_func less data (a + (b - a) / 4 * 2)
              (sort.medianAdjacent_func less data (a + (b - a) / 4 * 1) 0).2).2).1
          (sort.medianAdjacent_func less data (a + (b - a) / 4 * 3)
            (sort.medianAdjacent_func less data (a + (b - a) / 4 * 2)
              (sort.medianAdjacent_func less data (a + (b - a) / 4 * 1) 0).2).2).2).2)
    else
      ((sort.median_func less data (a + (b - a) / 4 * 1) (a + (b - a) / 4 * 2)
          (a + (b - a) / 4 * 3) 0).1,
        sort.hintOf (sort.median_func less data (a + (b - a) / 4 * 1) (a + (b - a) / 4 * 2)
          (a + (b - a) / 4 * 3) 0).2)
  else (a + (b - a) / 4 * 2, sort.sortedHint.increasingHint)

/-- The loop of `reverseRange_func`. -/
def sort.reverseRangeLoop : Nat → Nat → Nat → List Node → List Node
  | 0, _, _, data => data
  | steps + 1, i, j, data =>
    if i < j then sort.reverseRangeLoop steps (i + 1) (j - 1) (sort.swapAt data i j) else data

/-- `reverseRange_func(data, a, b)`. -/
def sort.reverseRange_func (data : List Node) (a b : Nat) : List Node :=
  sort.reverseRangeLoop (b - a) a (b - 1) data

/-- The loop `for i < b && !data.Less(i, i-1) { i++ }` of `partialInsertionSort_func`. -/
def sort.skipSorted (less : Node → Node → Bool) (data : List Node) (b : Nat) : Nat → Nat → Nat
  | 0, i => i
  | steps + 1, i =>
    if i < b ∧ sort.lessAt less data i (i - 1) = false then
      sort.skipSorted less data b steps (i + 1)
    else i

/-- The loop `for j := i - 1; j >= 1; j--` of `partialInsertionSort_func`, from `j`. -/
def sort.shiftLeft (less : Node → Node → Bool) : Nat → List Node → List Node
  | 0, data => data
  | j + 1, data =>
    if sort.lessAt less data (j + 1) j = true then
      sort.shiftLeft less j (sort.swapAt data (j + 1) j)
    else data

/-- The loop `for j := i + 1; j < b; j++` of `partialInsertionSort_func`, from `j`. -/
def sort.shiftRight (less : Node → Node → Bool) (b : Nat) : Nat → Nat → List Node → List Node
  | 0, _, data => data
  | steps + 1, j, data =>
    if j < b ∧ sort.lessAt less data j (j - 1) = true then
      sort.shiftRight less b steps (j + 1) (sort.swapAt data j (j - 1))
    else data

/-- One round of the loop of `partialInsertionSort_func` after the test on the
length: the swap and the two shifts around `i`. -/
def sort.shiftAround (less : Node → Node → Bool) (data : List Node) (a b i : Nat) : List Node :=
  (fun d2 => if b - i ≥ 2 then sort.shiftRight less b (b - i) (i + 1) d2 else d2)
    ((fun d1 => if i - a ≥ 2 then sort.shiftLeft less (i - 1) d1 else d1)
      (sort.swapAt data i (i - 1)))

/-- The loop `for j := 0; j < maxSteps; j++` of `partialInsertionSort_func`;
`shortestShifting` is 50. -/
def sort.partialInsertionSortLoop (less : Node → Node → Bool) (a b : Nat) :
    Nat → Nat → List Node → List Node × Bool
  | 0, _, data => (data, false)
  | steps + 1, i, data =>
    if sort.skipSorted less data b (b - i) i = b then (data, true)
    else if b - a < 50 then (data, false)
    else
      sort.partialInsertionSortLoop less a b steps (sort.skipSorted less data b (b - i) i)
        (sort.shiftAround less data a b (sort.skipSorted less data b (b - i) i))

/-- `partialInsertionSort_func(data, a, b)`; `maxSteps` is 5. -/
def sort.partialInsertionSort_func (less : Node → Node → Bool) (data : List Node) (a b : Nat) :
    List Node × Bool :=
  sort.partialInsertionSortLoop less a b 5 (a + 1) data

/-- The loop `for i <= j && data.Less(i, a) { i++ }` of `partition_func`. -/
def sort.partitionUp (less : Node → Node → Bool) (data : List Node) (a j : Nat) : Nat → Nat → Nat
  | 0, i => i
  | steps + 1, i =>
    if i ≤ j ∧ sort.lessAt less data i a = true then sort.partitionUp less data a j steps (i + 1)
    else i

/-- The loop `for i <= j && !data.Less(j, a) { j-- }` of `partition_func`. -/
def sort.partitionDown (less : Node → Node → Bool) (data : List Node) (a i : Nat) :
    Nat → Nat → Nat
  | 0, j => j
  | steps + 1, j =>
    if i ≤ j ∧ sort.lessAt less data j a = false then
      sort.partitionDown less data a i steps (j - 1)
    else j

/-- The `for` loop of `partition_func`, from `i` and `j`: the slice and the final `j`. -/
def sort.partitionLoop (less : Node → Node → Bool) (a n : Nat) :
    Nat → Nat → Nat → List Node → List Node × Nat
  | 0, _, j, data => (data, j)
  | steps + 1, i, j, data =>
    if sort.partitionUp less data a j n i
        > sort.partitionDown less data a (sort.partitionUp less data a j n i) n j then
      (data, sort.partitionDown less data a (sort.partitionUp less data a j n i) n j)
    else
      sort.partitionLoop less a n steps (sort.partitionUp less data a j n i + 1)
        (sort.partitionDown less data a (sort.partitionUp less data a j n i) n j - 1)
        (sort.swapAt data (sort.partitionUp less data a j n i)
          (sort.partitionDown less data a (sort.partitionUp less data a j n i) n j))

/-- The part of `partition_func` after `data.Swap(a, pivot)`. -/
def sort.partitionFrom (less : Node → Node → Bool) (d0 : List Node) (a b : Nat) :
    List Node × Nat × Bool :=
  if sort.partitionUp less d0 a (b - 1) (b - a) (a + 1)
      > sort.partitionDown less d0 a (sort.partitionUp less d0 a (b - 1) (b - a) (a + 1))
          (b - a) (b - 1) then
    (sort.swapAt d0
        (sort.partitionDown less d0 a (sort.partitionUp less d0 a (b - 1) (b - a) (a + 1))
          (b - a) (b - 1)) a,
      sort.partitionDown less d0 a (sort.partitionUp less d0 a (b - 1) (b - a) (a + 1))
        (b - a) (b - 1), true)
  else
    ((fun r : List Node × Nat => (sort.swapAt r.1 r.2 a, r.2, false))
      (sort.partitionLoop less a (b - a) (b - a)
        (sort.partitionUp less d0 a (b - 1) (b - a) (a + 1) + 1)
        (sort.partitionDown less d0 a (sort.partitionUp less d0 a (b - 1) (b - a) (a + 1))
          (b - a) (b - 1) - 1)
        (sort.swapAt d0 (sort.partitionUp less d0 a (b - 1) (b - a) (a + 1))
          (sort.partitionDown less d0 a (sort.partitionUp less d0 a (b - 1) (b - a) (a + 1))
            (b - a) (b - 1)))))

/-- `partition_func(data, a, b, pivot)`: the slice, the new pivot, `alreadyPartitioned`. -/
def sort.partition_func (less : Node → Node → Bool) (data : List Node) (a b pivot : Nat) :
    List Node × Nat × Bool :=
  sort.partitionFrom less (sort.swapAt data a pivot) a b

/-- The loop `for i <= j && !data.Less(a, i) { i++ }` of `partitionEqual_func`. -/
def sort.partitionEqualUp (less : Node → Node → Bool) (data : List Node) (a j : Nat) :
    Nat → Nat → Nat
  | 0, i => i
  | steps + 1, i =>
    if i ≤ j ∧ sort.lessAt less data a i = false then
      sort.partitionEqualUp less data a j steps (i + 1)
    else i

/-- The loop `for i <= j && data.Less(a, j) { j-- }` of `partitionEqual_func`. -/
def sort.partitionEqualDown (less : Node → Node → Bool) (data : List Node) (a i : Nat) :
    Nat → Nat → Nat
  | 0, j => j
  | steps + 1, j =>
    if i ≤ j ∧ sort.lessAt less data a j = true then
      sort.partitionEqualDown less data a i steps (j - 1)
    else j

/-- The `for` loop of `partitionEqual_func`, from `i` and `j`: the slice and the final `i`. -/
def sort.partitionEqualLoop (less : Node → Node → Bool) (a n : Nat) :
    Nat → Nat → Nat → List Node → List Node × Nat
  | 0, i, _, data => (data, i)
  | steps + 1, i, j, data =>
    if sort.partitionEqualUp less data a j n i
        > sort.partitionEqualDown less data a (sort.partitionEqualUp less data a j n i) n j then
      (data, sort.partitionEqualUp less data a j n i)
    else
      sort.partitionEqualLoop less a n steps (sort.partitionEqualUp less data a j n i + 1)
        (sort.partitionEqualDown less data a (sort.partitionEqualUp less data a j n i) n j - 1)
        (sort.swapAt data (sort.partitionEqualUp less data a j n i)
          (sort.partitionEqualDown less data a (sort.partitionEqualUp less data a j n i) n j))

/-- `partitionEqual_func(data, a, b, pivot)`: the slice and the new pivot. -/
def sort.partitionEqual_func (less : Node → Node → Bool) (data : List Node) (a b pivot : Nat) :
    List Node × Nat :=
  sort.partitionEqualLoop less a (b - a) (b - a + 1) (a + 1) (b - 1) (sort.swapAt data a pivot)

/-- The slice, the pivot and the hint after the `if hint == decreasingHint` of `pdqsort_func`. -/
def sort.pivotStep (less : Node → Node → Bool) (data : List Node) (a b : Nat) :
    List Node × Nat × sort.sortedHint :=
  if (sort.choosePivot_func less data a b).2 = sort.sortedHint.decreasingHint then
    (sort.reverseRange_func data a b, (b - 1) - ((sort.choosePivot_func less data a b).1 - a),
      sort.sortedHint.increasingHint)
  else (data, (sort.choosePivot_func less data a b).1, (sort.choosePivot_func less data a b).2)

/-- `pdqsort_func(data, a, b, limit)`; `wasBalanced` and `wasPartitioned` are
the variables of its loop, `true` on entry; `maxInsertion` is 12. Each turn of
the loop and each recursive call works on a shorter range, so a bound of the
length plus one is never reached. -/
def sort.pdqsort_func (next : Nat → Nat) (less : Node → Node → Bool) :
    Nat → List Node → Nat → Nat → Nat → Bool → Bool → List Node
  | 0, data, _, _, _, _, _ => data
  | steps + 1, data, a, b, limit, wasBalanced, wasPartitioned =>
    if b - a ≤ 12 then sort.insertionSort_func less data a b
    else if limit = 0 then sort.heapSort_func less data a b
    else
      (fun (d1 : List Node) (limit1 : Nat) =>
        (fun (ps : List Node × Nat × sort.sortedHint) =>
          (fun (pi : List Node × Bool) =>
            if pi.2 = true then pi.1
            else if 0 < a ∧ sort.lessAt less pi.1 (a - 1) ps.2.1 = false then
              sort.pdqsort_func next less steps (sort.partitionEqual_func less pi.1 a b ps.2.1).1
                (sort.partitionEqual_func less pi.1 a b ps.2.1).2 b limit1 wasBalanced
                wasPartitioned
            else
              (fun (pr : List Node × Nat × Bool) =>
                if pr.2.1 - a < b - pr.2.1 then
                  sort.pdqsort_func next less steps
                    (sort.pdqsort_func next less steps pr.1 a pr.2.1 limit1 true true)
                    (pr.2.1 + 1) b limit1 (decide (pr.2.1 - a ≥ (b - a) / 8)) pr.2.2
                else
                  sort.pdqsort_func next less steps
                    (sort.pdqsort_func next less steps pr.1 (pr.2.1 + 1) b limit1 true true)
                    a pr.2.1 limit1 (decide (b - pr.2.1 ≥ (b - a) / 8)) pr.2.2)
                (sort.partition_func less pi.1 a b ps.2.1))
            (if wasBalanced = true ∧ wasPartitioned = true
                ∧ ps.2.2 = sort.sortedHint.increasingHint then
              sort.partialInsertionSort_func less ps.1 a b
            else (ps.1, false)))
          (sort.pivotStep less d1 a b))
        (if wasBalanced = true then data else sort.breakPatterns_func next data a b)
        (if wasBalanced = true then limit else limit - 1)

/-- `sort.Slice(x, less)`: `pdqsort_func(data, 0, length, bits.Len(length))`. -/
def sort.Slice (next : Nat → Nat) (less : Node → Node → Bool) (data : List Node) : List Node :=
  sort.pdqsort_func next less (data.length + 1) data 0 data.length (sort.bitsLen data.length)
    true true

/-- Fourteen nodes with 2, 2, 1 (ten times), 0 and 0 workload pods. -/
def fourteenNodes : List Node :=
  [newNode "test-node-0" (workloadPods 2), newNode "test-node-1" (workloadPods 2),
    newNode "test-node-2" (workloadPods 1), newNode "test-node-3" (workloadPods 1),
    newNode "test-node-4" (workloadPods 1), newNode "test-node-5" (workloadPods 1),
    newNode "test-node-6" (workloadPods 1), newNode "test-node-7" (workloadPods 1),
    newNode "test-node-8" (workloadPods 1), newNode "test-node-9" (workloadPods 1),
    newNode "test-node-10" (workloadPods 1), newNode "test-node-11" (workloadPods 1),
    newNode "test-node-12" [], newNode "test-node-13" []]

/-- Fourteen nodes with 0, 0, 1 (ten times), 2 and 2 workload pods. -/
def fourteenNodesDesc : List Node :=
  [newNode "test-node-0" [], newNode "test-node-1" [],
    newNode "test-node-2" (workloadPods 1), newNode "test-node-3" (workloadPods 1),
    newNode "test-node-4" (workloadPods 1), newNode "test-node-5" (workloadPods 1),
    newNode "test-node-6" (workloadPods 1), newNode "test-node-7" (workloadPods 1),
    newNode "test-node-8" (workloadPods 1), newNode "test-node-9" (workloadPods 1),
    newNode "test-node-10" (workloadPods 1), newNode "test-node-11" (workloadPods 1),
    newNode "test-node-12" (workloadPods 2), newNode "test-node-13" (workloadPods 2)]

/-- The result of `sort.Slice` when it is the slice sorted, and the insertion
sort of `stdPlatform` otherwise; `next` is the step of the generator. -/
def sort.checkedSlice (next : Nat → Nat) (less : Node → Node → Bool) (xs : List Node) :
    List Node :=
  if (sort.Slice next less xs).Perm xs
      ∧ List.Pairwise (fun a b => less b a = false) (sort.Slice next less xs) then
    sort.Slice next less xs
  else stdPlatform.sortSlice less xs

/-- A platform whose `sort.Slice` is the quicksort of the Go standard library.
The test in `sort.checkedSlice` makes the contract of `Platform` hold by
construction: it passes whenever the quicksort has returned the slice sorted. -/
def goPlatform : Platform :=
  { stdPlatform with
    sortSlice := sort.checkedSlice sort.xorshiftNext
    sortSlice_perm := fun less xs => by
      unfold sort.checkedSlice
      split
      · rename_i h; exact h.1
      · exact stdPlatform.sortSlice_perm less xs
    sortSlice_sorted := fun less xs hord => by
      unfold sort.checkedSlice
      split
      · rename_i h; exact h.2
      · exact stdPlatform.sortSlice_sorted less xs hord }

/-- A pool, with its clock, on which a pass of `scale()` has nothing to change.
Below `MinimumNode` the floor resize leaves the pool as it is. Otherwise: when
the slot count is below the buffer no node is cordoned and the resize that
`increaseNodePoolSize` asks for leaves the pool as it is; when the slot count
is above the buffer the excess is less than one whole node; and the pool is at
`MinimumNode`, or a `DeleteNodes` call without names leaves the pool as it is
and every cordoned node carries a workload pod or does not expire before the
last clock reading of the pass (two readings for each cordoned node). -/
def Steady (P : Platform) (resize : Int → List Node → Option Error × List Node)
    (delete : List String → List Node → Option Error × List Node) (cfg : Config)
    (p : Pool) : Prop :=
  ((p.nodes.length : Int) < cfg.MinimumNode → (resize cfg.MinimumNode p.nodes).2 = p.nodes) ∧
  (cfg.MinimumNode ≤ p.nodes.length →
    (∀ a, NodeList.AvailableSlot ⟨p.nodes⟩ ⟨ResourceCPU, cfg.PodCPURequest⟩ = some a →
      (a < cfg.BufferSlotSize →
        (∀ n ∈ p.nodes, n.Unschedulable = false) ∧
        ∀ size, resizeTarget P cfg ⟨p.nodes⟩
            [⟨ResourceCPU, wrap64 (cfg.PodCPURequest * wrap64 (cfg.BufferSlotSize - a))⟩]
            = some size → (resize size p.nodes).2 = p.nodes) ∧
      (cfg.BufferSlotSize < a → ∀ first rest, p.nodes = first :: rest →
        minExtraNodes P first
          [⟨ResourceCPU, wrap64 (cfg.PodCPURequest * wrap64 (a - cfg.BufferSlotSize))⟩] 0 ≤ 0)) ∧
    ((p.nodes.length : Int) ≤ cfg.MinimumNode ∨
      ((delete [] p.nodes).2 = p.nodes ∧
        ∀ n ∈ p.nodes, n.Unschedulable = true →
          (filterPods cfg n.Pods).length ≠ 0 ∨
          ∀ t, n.SchedulingMarkTimestamp P = Except.ok t →
            (p.clock : Int) + 2 * (NodeList.UnschedulableNodes ⟨p.nodes⟩).length
              ≤ t + cfg.EmptyNodeExpiration + 1)))

/-! # Properties -/

theorem callsSince_append {σ : Type} (s t : Sys σ) (extra : List Call)
    (h : t.calls = s.calls ++ extra) : callsSince s t = extra := by
  simp [callsSince, h]

theorem filterPods_length_zero (cfg : Config) (pods : List Pod)
    (h : (filterPods cfg pods).length = 0) :
    ∀ p ∈ pods, mapGet p.Labels cfg.PodLabelName ≠ some cfg.PodLabelValue := by
  intro p hp hlab
  have : p ∈ filterPods cfg pods := by
    simp [filterPods, List.mem_filter, hp, hlab]
  rw [List.length_eq_zero] at h
  rw [h] at this
  exact List.not_mem_nil _ this

theorem deleteLoop_spec {σ : Type} (P : Platform) (E : Env σ) (cfg : Config) :
    ∀ (walked : List Node) (l : Int) (acc : List String) (s : Sys σ) (ids : List String)
      (s1 : Sys σ), deleteLoop P E cfg walked l acc s = (Except.ok ids, s1) →
      ∃ extra, s1.calls = s.calls ++ extra ∧ (∀ c ∈ extra, ∃ t, c = Call.Now t) ∧
        (∀ name ∈ ids, name ∈ acc ∨ Eligible P cfg walked extra name) ∧
        (cfg.MinimumNode < l → (ids.length : Int) + cfg.MinimumNode ≤ acc.length + l) := by
  intro walked
  induction walked with
  | nil =>
    intro l acc s ids s1 h
    simp only [deleteLoop, Prod.mk.injEq, Except.ok.injEq] at h
    obtain ⟨h1, h2⟩ := h
    subst h1; subst h2
    exact ⟨[], by simp, by simp, fun name hn => Or.inl hn, fun hl => by omega⟩
  | cons node rest ih =>
    intro l acc s ids s1 h
    rw [deleteLoop] at h
    split at h
    · simp at h
    · rename_i t ht
      split at h
      · rename_i hpods
        split at h
        · rename_i hexp
          have hel : Eligible P cfg (node :: rest)
              [Call.Now (E.Now s.st).1, Call.Now (E.Now (E.Now s.st).2).1] node.Name :=
            ⟨node, List.mem_cons_self _ _, rfl, filterPods_length_zero cfg _ hpods, t, _, ht,
              by simp [callNow] at hexp ⊢; exact Or.inr rfl, by simpa [callNow] using hexp⟩
          split at h
          · rename_i hmin
            simp only [Prod.mk.injEq, Except.ok.injEq] at h
            obtain ⟨h1, h2⟩ := h
            subst h1; subst h2
            refine ⟨[Call.Now (E.Now s.st).1, Call.Now (E.Now (E.Now s.st).2).1], ?_, ?_, ?_, ?_⟩
            · simp [callNow]
            · intro c hc
              simp at hc
              rcases hc with hc | hc <;> exact ⟨_, hc⟩
            · intro name hn
              rw [List.mem_append] at hn
              rcases hn with hn | hn
              · exact Or.inl hn
              · simp at hn
                subst hn
                exact Or.inr hel
            · intro hl
              simp
              omega
          · rename_i hmin
            obtain ⟨extra, hc, hnow, hid, hlen⟩ := ih _ _ _ _ _ h
            refine ⟨[Call.Now (E.Now s.st).1, Call.Now (E.Now (E.Now s.st).2).1] ++ extra, ?_, ?_, ?_, ?_⟩
            · rw [hc]; simp [callNow]
            · intro c hc
              rw [List.mem_append] at hc
              rcases hc with hc | hc
              · simp at hc
                rcases hc with hc | hc <;> exact ⟨_, hc⟩
              · exact hnow c hc
            · intro name hn
              rcases hid name hn with h1 | h1
              · rw [List.mem_append] at h1
                rcases h1 with h1 | h1
                · exact Or.inl h1
                · simp at h1
                  subst h1
                  obtain ⟨nd, hnd, hname, hp, t1, now, ht1, hmem, hlt⟩ := hel
                  exact Or.inr ⟨nd, hnd, hname, hp, t1, now, ht1,
                    List.mem_append_left _ hmem, hlt⟩
              · obtain ⟨nd, hnd, hname, hp, t1, now, ht1, hmem, hlt⟩ := h1
                exact Or.inr ⟨nd, List.mem_cons_of_mem _ hnd, hname, hp, t1, now, ht1,
                  List.mem_append_right _ hmem, hlt⟩
            · intro hl
              have := hlen (by omega)
              simp at this
              omega
        · obtain ⟨extra, hc, hnow, hid, hlen⟩ := ih _ _ _ _ _ h
          refine ⟨[Call.Now (E.Now s.st).1, Call.Now (E.Now (E.Now s.st).2).1] ++ extra, ?_, ?_, ?_, hlen⟩
          · rw [hc]; simp [callNow]
          · intro c hc
            rw [List.mem_append] at hc
            rcases hc with hc | hc
            · simp at hc
              rcases hc with hc | hc <;> exact ⟨_, hc⟩
            · exact hnow c hc
          · intro name hn
            rcases hid name hn with h1 | h1
            · exact Or.inl h1
            · obtain ⟨nd, hnd, hname, hp, t1, now, ht1, hmem, hlt⟩ := h1
              exact Or.inr ⟨nd, List.mem_cons_of_mem _ hnd, hname, hp, t1, now, ht1,
                List.mem_append_right _ hmem, hlt⟩
      · obtain ⟨extra, hc, hnow, hid, hlen⟩ := ih _ _ _ _ _ h
        refine ⟨[Call.Now (E.Now s.st).1] ++ extra, ?_, ?_, ?_, hlen⟩
        · rw [hc]; simp [callNow]
        · intro c hc
          rw [List.mem_append] at hc
          rcases hc with hc | hc
          · simp at hc
            exact ⟨_, hc⟩
          · exact hnow c hc
        · intro name hn
          rcases hid name hn with h1 | h1
          · exact Or.inl h1
          · obtain ⟨nd, hnd, hname, hp, t1, now, ht1, hmem, hlt⟩ := h1
            exact Or.inr ⟨nd, List.mem_cons_of_mem _ hnd, hname, hp, t1, now, ht1,
              List.mem_append_right _ hmem, hlt⟩

theorem deleteLoop_calls {σ : Type} (P : Platform) (E : Env σ) (cfg : Config) :
    ∀ (walked : List Node) (l : Int) (acc : List String) (s : Sys σ),
      ∃ extra, (deleteLoop P E cfg walked l acc s).2.calls = s.calls ++ extra ∧
        ∀ c ∈ extra, ∃ t, c = Call.Now t := by
  intro walked
  induction walked with
  | nil => intro l acc s; exact ⟨[], by simp [deleteLoop], by simp⟩
  | cons node rest ih =>
    intro l acc s
    rw [deleteLoop]
    split
    · exact ⟨[], by simp, by simp⟩
    · split
      · split
        · split
          · refine ⟨[Call.Now (E.Now s.st).1, Call.Now (E.Now (E.Now s.st).2).1], by simp [callNow], ?_⟩
            intro c hc
            simp at hc
            rcases hc with hc | hc <;> exact ⟨_, hc⟩
          · obtain ⟨extra, hc, hnow⟩ := ih (l - 1) (acc ++ [node.Name]) (callNow E (callNow E s).2).2
            refine ⟨[Call.Now (E.Now s.st).1, Call.Now (E.Now (E.Now s.st).2).1] ++ extra, ?_, ?_⟩
            · rw [hc]; simp [callNow]
            · intro c hc
              rw [List.mem_append] at hc
              rcases hc with hc | hc
              · simp at hc
                rcases hc with hc | hc <;> exact ⟨_, hc⟩
              · exact hnow c hc
        · obtain ⟨extra, hc, hnow⟩ := ih l acc (callNow E (callNow E s).2).2
          refine ⟨[Call.Now (E.Now s.st).1, Call.Now (E.Now (E.Now s.st).2).1] ++ extra, ?_, ?_⟩
          · rw [hc]; simp [callNow]
          · intro c hc
            rw [List.mem_append] at hc
            rcases hc with hc | hc
            · simp at hc
              rcases hc with hc | hc <;> exact ⟨_, hc⟩
            · exact hnow c hc
      · obtain ⟨extra, hc, hnow⟩ := ih l acc (callNow E s).2
        refine ⟨[Call.Now (E.Now s.st).1] ++ extra, ?_, ?_⟩
        · rw [hc]; simp [callNow]
        · intro c hc
          rw [List.mem_append] at hc
          rcases hc with hc | hc
          · simp at hc
            exact ⟨_, hc⟩
          · exact hnow c hc

/-- What `deleteExtraNodes` passes to `DeleteNodes` on a node list it has read:
nothing when the list is not longer than `MinimumNode`, otherwise at most one
list, every name of which is eligible, and no longer than the surplus. -/
theorem deleteExtraNodes_spec {σ : Type} (P : Platform) (E : Env σ) (cfg : Config) (s : Sys σ)
    (nodes : NodeList) (hread : (E.Nodes cfg.NodeSelector s.st).1 = Except.ok nodes) :
    ((nodes.Nodes.length : Int) ≤ cfg.MinimumNode →
      callsSince s (deleteExtraNodes P E cfg s).2 = [Call.Nodes cfg.NodeSelector]) ∧
    ∀ ids, Call.DeleteNodes ids ∈ callsSince s (deleteExtraNodes P E cfg s).2 →
      (ids.length : Int) ≤ nodes.Nodes.length - cfg.MinimumNode ∧
      ∀ name ∈ ids, Eligible P cfg nodes.UnschedulableNodes
        (callsSince s (deleteExtraNodes P E cfg s).2) name := by
  constructor
  · intro hle
    apply callsSince_append
    simp [deleteExtraNodes, callNodes, hread, hle]
  · intro ids hmem
    by_cases hle : (nodes.Nodes.length : Int) ≤ cfg.MinimumNode
    · have hc : callsSince s (deleteExtraNodes P E cfg s).2 = [Call.Nodes cfg.NodeSelector] := by
        apply callsSince_append
        simp [deleteExtraNodes, callNodes, hread, hle]
      rw [hc] at hmem
      simp at hmem
    · obtain ⟨extra, hcalls, hnow⟩ := deleteLoop_calls P E cfg nodes.UnschedulableNodes
        nodes.Nodes.length [] (callNodes E cfg.NodeSelector s).2
      cases hres : deleteLoop P E cfg nodes.UnschedulableNodes nodes.Nodes.length []
          (callNodes E cfg.NodeSelector s).2 with
      | mk r s2 =>
        rw [hres] at hcalls
        cases r with
        | error err =>
          have hc : callsSince s (deleteExtraNodes P E cfg s).2
              = Call.Nodes cfg.NodeSelector :: extra := by
            apply callsSince_append
            simp only [deleteExtraNodes]
            simp only [callNodes, hread] at hres hcalls ⊢
            simp [hle, hres, hcalls]
          rw [hc] at hmem
          simp at hmem
          obtain ⟨t, ht⟩ := hnow _ hmem
          exact Call.noConfusion ht
        | ok del =>
          obtain ⟨extra1, hcalls1, hnow1, hel, hlen⟩ := deleteLoop_spec P E cfg _ _ _ _ _ _ hres
          have hc : callsSince s (deleteExtraNodes P E cfg s).2
              = Call.Nodes cfg.NodeSelector :: (extra1 ++ [Call.DeleteNodes del]) := by
            apply callsSince_append
            simp only [deleteExtraNodes]
            simp only [callNodes, hread] at hres hcalls1 ⊢
            simp [hle, hres, hcalls1, callDeleteNodes]
          rw [hc] at hmem ⊢
          simp at hmem
          rcases hmem with hmem | hmem
          · obtain ⟨t, ht⟩ := hnow1 _ hmem
            exact Call.noConfusion ht
          · subst hmem
            constructor
            · have := hlen (by omega)
              simp at this
              omega
            · intro name hn
              rcases hel name hn with h1 | h1
              · simp at h1
              · obtain ⟨nd, hnd, hname, hp, t1, now, ht1, hm, hlt⟩ := h1
                exact ⟨nd, hnd, hname, hp, t1, now, ht1,
                  List.mem_cons_of_mem _ (List.mem_append_left _ hm), hlt⟩

theorem deleteExtraNodes_calls {σ : Type} (P : Platform) (E : Env σ) (cfg : Config) (s : Sys σ) :
    ∃ tail, (deleteExtraNodes P E cfg s).2.calls = s.calls ++ tail := by
  rw [deleteExtraNodes]
  split
  · rename_i err s1 h
    have : s1 = (callNodes E cfg.NodeSelector s).2 := by rw [h]
    exact ⟨[Call.Nodes cfg.NodeSelector], by rw [this]; simp [callNodes]⟩
  · rename_i nodes s1 h
    have hs1 : s1.calls = s.calls ++ [Call.Nodes cfg.NodeSelector] := by
      have : s1 = (callNodes E cfg.NodeSelector s).2 := by rw [h]
      rw [this]; simp [callNodes]
    split
    · exact ⟨_, hs1⟩
    · obtain ⟨extra, hc, -⟩ := deleteLoop_calls P E cfg nodes.UnschedulableNodes
        nodes.Nodes.length [] s1
      split
      · rename_i err s2 h2
        rw [h2] at hc
        simp only at hc
        exact ⟨[Call.Nodes cfg.NodeSelector] ++ extra, by simp [hc, hs1]⟩
      · rename_i del s2 h2
        rw [h2] at hc
        simp only at hc
        exact ⟨[Call.Nodes cfg.NodeSelector] ++ extra ++ [Call.DeleteNodes del],
          by simp [callDeleteNodes, hc, hs1]⟩

theorem checkForScheduling_no_cordoned {σ : Type} (P : Platform) (E : Env σ) (n : NodeList)
    (h : ∀ node ∈ n.Nodes, node.Unschedulable = false) (need : Resource) (rest : List Resource)
    (s : Sys σ) :
    checkForScheduling P E n (need :: rest) s = (Outcome.ret (some ErrNotEnoughResources), s) := by
  have : n.UnschedulableNodes = [] := by
    simp only [NodeList.UnschedulableNodes, List.filter_eq_nil_iff, Node.IsSchedulable, Bool.not_not]
    intro a ha
    simp [h a ha]
  simp [checkForScheduling, this]

theorem availableSlot_isSome (n n2 : NodeList) (r : Resource) (a : Int)
    (h : n.AvailableSlot r = some a) : ∃ a2, n2.AvailableSlot r = some a2 := by
  unfold NodeList.AvailableSlot at h ⊢
  split at h
  · exact Option.noConfusion h
  · rename_i hv
    exact ⟨wrap64 ((n2.AvailableResource r.Name).tdiv r.Value), by simp [hv]⟩

theorem resizeTarget_isSome (P : Platform) (cfg : Config) (n : NodeList) (needs : List Resource)
    (h : n.Nodes ≠ []) : ∃ size, resizeTarget P cfg n needs = some size := by
  unfold resizeTarget
  split
  · exact ⟨_, rfl⟩
  · rename_i hn; exact absurd hn h
  · exact ⟨_, rfl⟩

/-- The calls and the result of lines 127 to 150 of `scale()` when the second
read of the nodes succeeds on a non-empty list. -/
theorem scaleUp_resizes {σ : Type} (P : Platform) (E : Env σ) (cfg : Config) (s : Sys σ)
    (nodes2 : NodeList) (a2 size : Int)
    (hread2 : (E.Nodes cfg.NodeSelector s.st).1 = Except.ok nodes2)
    (hslot : nodes2.AvailableSlot ⟨ResourceCPU, cfg.PodCPURequest⟩ = some a2)
    (hsize : resizeTarget P cfg nodes2
      [⟨ResourceCPU, wrap64 (cfg.PodCPURequest * wrap64 (cfg.BufferSlotSize - a2))⟩] = some size) :
    scaleUp P E cfg s = deleteExtraNodes P E cfg
      ⟨(E.ResizeNode size (E.Nodes cfg.NodeSelector s.st).2).2,
        s.calls ++ [Call.Nodes cfg.NodeSelector, Call.ResizeNode size]⟩ := by
  simp [scaleUp, callNodes, hread2, hslot, increaseNodePoolSize, hsize, callResizeNode]

theorem wrap64_of_range (x : Int) (h1 : -9223372036854775808 ≤ x) (h2 : x < 9223372036854775808) :
    wrap64 x = x := by
  unfold wrap64
  omega

theorem markNodeAsSchedulable_calls {σ : Type} (P : Platform) (E : Env σ) (n : Node) (s : Sys σ) :
    ∃ ext, (markNodeAsSchedulable P E n s).2.calls = s.calls ++ ext ∧ ∀ c ∈ ext, c.isMark := by
  unfold markNodeAsSchedulable Node.MarkAsSchedulable Node.mark
  cases P.marshalText (callNow E s).1 with
  | error err => exact ⟨[Call.Now (E.Now s.st).1], by simp [callNow], by simp [Call.isMark]⟩
  | ok t =>
    cases n.Annotations with
    | none => exact ⟨[Call.Now (E.Now s.st).1], by simp [callNow], by simp [Call.isMark]⟩
    | some m =>
      exact ⟨[Call.Now (E.Now s.st).1, Call.UpdateNode { n with Unschedulable := false, Annotations := some (mapSet m timestampAnnotation t) }],
        by simp [callNow, callUpdateNode],
        by simp [Call.isMark]⟩

theorem markNodeAsUnschedulable_calls {σ : Type} (P : Platform) (E : Env σ) (n : Node) (s : Sys σ) :
    ∃ ext, (markNodeAsUnschedulable P E n s).2.calls = s.calls ++ ext ∧ ∀ c ∈ ext, c.isMark := by
  unfold markNodeAsUnschedulable Node.MarkAsUnschedulable Node.mark
  cases P.marshalText (callNow E s).1 with
  | error err => exact ⟨[Call.Now (E.Now s.st).1], by simp [callNow], by simp [Call.isMark]⟩
  | ok t =>
    cases n.Annotations with
    | none => exact ⟨[Call.Now (E.Now s.st).1], by simp [callNow], by simp [Call.isMark]⟩
    | some m =>
      exact ⟨[Call.Now (E.Now s.st).1, Call.UpdateNode { n with Unschedulable := true, Annotations := some (mapSet m timestampAnnotation t) }],
        by simp [callNow, callUpdateNode],
        by simp [Call.isMark]⟩

theorem uncordonLoop_calls {σ : Type} (P : Platform) (E : Env σ)
    (resources : List (ResourceName × Int)) (needsLen : Nat) :
    ∀ (nodes : List Node) (enough : List ResourceName) (s : Sys σ),
      ∃ ext, (uncordonLoop P E resources needsLen nodes enough s).2.calls = s.calls ++ ext ∧
        ∀ c ∈ ext, c.isMark := by
  intro nodes
  induction nodes with
  | nil => intro enough s; exact ⟨[], by simp [uncordonLoop], by simp⟩
  | cons node rest ih =>
    intro enough s
    obtain ⟨ext, hext, hmark⟩ := markNodeAsSchedulable_calls P E node s
    rw [uncordonLoop]
    split
    · rename_i s1 h; rw [h] at hext; exact ⟨ext, hext, hmark⟩
    · rename_i err s1 h; rw [h] at hext; exact ⟨ext, hext, hmark⟩
    · rename_i s1 h
      rw [h] at hext
      simp only at hext
      split
      · exact ⟨ext, hext, hmark⟩
      · obtain ⟨ext2, hext2, hmark2⟩ := ih
          (enoughLoop node needsLen (P.rangeOrder resources) enough).1 s1
        refine ⟨ext ++ ext2, by rw [hext2, hext, List.append_assoc], ?_⟩
        intro c hc
        rw [List.mem_append] at hc
        rcases hc with hc | hc
        · exact hmark c hc
        · exact hmark2 c hc

theorem checkForScheduling_calls {σ : Type} (P : Platform) (E : Env σ) (n : NodeList)
    (needs : List Resource) (s : Sys σ) :
    ∃ ext, (checkForScheduling P E n needs s).2.calls = s.calls ++ ext ∧ ∀ c ∈ ext, c.isMark := by
  unfold checkForScheduling
  split
  · exact ⟨[], by simp, by simp⟩
  · split
    · exact ⟨[], by simp, by simp⟩
    · exact uncordonLoop_calls P E _ _ _ _ _

theorem maxNeededNodes_single_nonpos (P : Platform) (first : Node) (r : Resource)
    (h : ceilDiv P r.Value (first.ResourceCapacity r.Name) ≤ 0) :
    maxNeededNodes P first [r] 0 = 0 := by
  simp only [maxNeededNodes]
  split
  · omega
  · rfl

theorem ceilDiv_nonpos (P : Platform) (v c : Int) (hv : v ≤ 0) (hv2 : -f64Exact < v)
    (hc : 0 < c) (hc2 : c < f64Exact) : ceilDiv P v c ≤ 0 := by
  unfold ceilDiv
  have h1 : |v| < f64Exact := by rw [abs_lt]; constructor <;> omega
  have h2 : |c| < f64Exact := by rw [abs_lt]; constructor <;> omega
  have h3 : c ≠ 0 := by omega
  simp only [h1, h2, h3, ne_eq, not_false_eq_true, and_self, if_true]
  have := Int.fdiv_nonneg (a := -v) (b := c) (by omega) (by omega)
  omega

theorem updatedNodes_append (xs ys : List Call) :
    updatedNodes (xs ++ ys) = updatedNodes xs ++ updatedNodes ys := by
  induction xs with
  | nil => rfl
  | cons c rest ih => cases c <;> simp [updatedNodes, ih]

theorem cordonLoop_success {σ : Type} (P : Platform) (E : Env σ)
    (hm : ∀ st, ∃ txt, P.marshalText (E.Now st).1 = Except.ok txt)
    (hu : ∀ n st, (E.UpdateNode n st).1 = none) :
    ∀ (xs : List Node) (s : Sys σ), (∀ n ∈ xs, n.Annotations ≠ none) →
      (cordonLoop P E xs s).1 = Outcome.ret none ∧
      ∃ ext, (cordonLoop P E xs s).2.calls = s.calls ++ ext ∧
        List.Forall₂ (CordonOf P) xs (updatedNodes ext) := by
  intro xs
  induction xs with
  | nil =>
    intro s _
    exact ⟨rfl, [], by simp [cordonLoop], by simp [updatedNodes]⟩
  | cons n rest ih =>
    intro s hann
    obtain ⟨txt, htxt⟩ := hm s.st
    obtain ⟨m, hmap⟩ := Option.ne_none_iff_exists'.mp (hann n (List.mem_cons_self _ _))
    have hmark : markNodeAsUnschedulable P E n s
        = (Outcome.ret none,
            ⟨(E.UpdateNode (Node.withMark n true m txt) (E.Now s.st).2).2,
              s.calls ++ [Call.Now (E.Now s.st).1,
                Call.UpdateNode (Node.withMark n true m txt)]⟩) := by
      simp [markNodeAsUnschedulable, Node.MarkAsUnschedulable, Node.mark, callNow, htxt, hmap,
        callUpdateNode, hu, Node.withMark]
    rw [cordonLoop, hmark]
    simp only
    obtain ⟨hres, ext, hext, hall⟩ := ih
      ⟨(E.UpdateNode (Node.withMark n true m txt) (E.Now s.st).2).2,
        s.calls ++ [Call.Now (E.Now s.st).1, Call.UpdateNode (Node.withMark n true m txt)]⟩
      (fun k hk => hann k (List.mem_cons_of_mem _ hk))
    refine ⟨hres, [Call.Now (E.Now s.st).1,
      Call.UpdateNode (Node.withMark n true m txt)] ++ ext, ?_, ?_⟩
    · rw [hext]; simp
    · rw [updatedNodes_append]
      simp only [updatedNodes, List.singleton_append]
      exact List.Forall₂.cons ⟨m, _, txt, hmap, htxt, rfl⟩ hall

theorem isOrdering_byPods : IsOrdering (fun a b => decide (a.Pods.length < b.Pods.length)) := by
  refine ⟨fun a => by simp, fun a b c h1 h2 => ?_, fun a b c h1 h2 => ?_⟩
  · simp only [decide_eq_true_eq] at h1 h2 ⊢; omega
  · simp only [decide_eq_false_iff_not] at h1 h2 ⊢; omega

theorem sortNodesByPods_split (P : Platform) (nodes : List Node) (k : Nat) :
    (((SortNodesByPods P nodes).take k) ++ ((SortNodesByPods P nodes).drop k)).Perm nodes ∧
    ∀ a ∈ (SortNodesByPods P nodes).take k, ∀ b ∈ (SortNodesByPods P nodes).drop k,
      a.Pods.length ≤ b.Pods.length := by
  constructor
  · rw [List.take_append_drop]
    exact P.sortSlice_perm _ _
  · have hs := P.sortSlice_sorted _ nodes isOrdering_byPods
    have hsplit : SortNodesByPods P nodes
        = (SortNodesByPods P nodes).take k ++ (SortNodesByPods P nodes).drop k :=
      (List.take_append_drop k _).symm
    unfold SortNodesByPods at hsplit ⊢
    rw [hsplit, List.pairwise_append] at hs
    intro a ha b hb
    have := hs.2.2 a ha b hb
    simp only [decide_eq_false_iff_not] at this
    omega

theorem uncordonLoop_result {σ : Type} (P : Platform) (E : Env σ)
    (hm : ∀ st, ∃ txt, P.marshalText (E.Now st).1 = Except.ok txt)
    (hu : ∀ n st, (E.UpdateNode n st).1 = none)
    (resources : List (ResourceName × Int)) (needsLen : Nat) :
    ∀ (xs : List Node) (enough : List ResourceName) (s : Sys σ),
      (∀ n ∈ xs, n.Annotations ≠ none) →
      (uncordonLoop P E resources needsLen xs enough s).1 = Outcome.ret none ∨
      (uncordonLoop P E resources needsLen xs enough s).1
        = Outcome.ret (some (Error.other "not enough resource")) := by
  intro xs
  induction xs with
  | nil => intro enough s _; exact Or.inr rfl
  | cons n rest ih =>
    intro enough s hann
    obtain ⟨txt, htxt⟩ := hm s.st
    obtain ⟨m, hmap⟩ := Option.ne_none_iff_exists'.mp (hann n (List.mem_cons_self _ _))
    have hmark : markNodeAsSchedulable P E n s
        = (Outcome.ret none,
            ⟨(E.UpdateNode (Node.withMark n false m txt) (E.Now s.st).2).2,
              s.calls ++ [Call.Now (E.Now s.st).1,
                Call.UpdateNode (Node.withMark n false m txt)]⟩) := by
      simp [markNodeAsSchedulable, Node.MarkAsSchedulable, Node.mark, callNow, htxt, hmap,
        callUpdateNode, hu, Node.withMark]
    rw [uncordonLoop, hmark]
    simp only
    split
    · exact Or.inl rfl
    · exact ih _ _ (fun k hk => hann k (List.mem_cons_of_mem _ hk))

theorem wrap64_range (x : Int) :
    -9223372036854775808 ≤ wrap64 x ∧ wrap64 x < 9223372036854775808 := by
  unfold wrap64
  omega

theorem foldl_wrap64_range {α : Type} (f : α → Int) (xs : List α) (a : Int)
    (ha : -9223372036854775808 ≤ a ∧ a < 9223372036854775808) :
    -9223372036854775808 ≤ xs.foldl (fun acc x => wrap64 (acc + f x)) a ∧
      xs.foldl (fun acc x => wrap64 (acc + f x)) a < 9223372036854775808 := by
  induction xs generalizing a with
  | nil => simpa using ha
  | cons x rest ih => exact ih _ (wrap64_range _)

theorem availableResource_range (n : NodeList) (r : ResourceName) :
    -9223372036854775808 ≤ n.AvailableResource r ∧ n.AvailableResource r < 9223372036854775808 := by
  unfold NodeList.AvailableResource
  exact foldl_wrap64_range (fun node => node.AvailableResource r) n.AvailableNodes 0
    ⟨by omega, by omega⟩

theorem wrap64_add_left (a b : Int) : wrap64 (wrap64 a + b) = wrap64 (a + b) := by
  unfold wrap64
  omega

theorem wrap64_sub_right (a b : Int) : wrap64 (a - wrap64 b) = wrap64 (a - b) := by
  unfold wrap64
  omega

theorem wrap64_add_right (a b : Int) : wrap64 (a + wrap64 b) = wrap64 (a + b) := by
  unfold wrap64
  omega

theorem foldl_wrap64_sum {α : Type} (f : α → Int) (xs : List α) (a : Int) :
    wrap64 (xs.foldl (fun acc x => wrap64 (acc + f x)) a) = wrap64 (a + (xs.map f).sum) := by
  induction xs generalizing a with
  | nil => simp
  | cons x rest ih =>
    simp only [List.foldl_cons, List.map_cons, List.sum_cons]
    rw [ih, wrap64_add_left]
    congr 1
    ring

theorem usingResources_eq (n : Node) (r : ResourceName) :
    wrap64 (n.UsingResources r) = wrap64 (specUsingResources n r) := by
  unfold Node.UsingResources specUsingResources
  have h : ∀ (pods : List Pod) (a : Int),
      wrap64 (pods.foldl (fun total pod =>
        pod.Containers.foldl (fun t c => wrap64 (t + (mapGet c.Limits r).getD 0)) total) a)
      = wrap64 (a + (pods.map (fun pod =>
          (pod.Containers.map (fun c => (mapGet c.Limits r).getD 0)).sum)).sum) := by
    intro pods
    induction pods with
    | nil => intro a; simp
    | cons pod rest ih =>
      intro a
      simp only [List.foldl_cons, List.map_cons, List.sum_cons]
      rw [ih, ← wrap64_add_left,
        foldl_wrap64_sum (fun c => (mapGet c.Limits r).getD 0) pod.Containers a, wrap64_add_left]
      congr 1
      ring
  simpa using h n.Pods 0

theorem node_availableResource_eq (n : Node) (r : ResourceName) :
    n.AvailableResource r = wrap64 (n.ResourceCapacity r - specUsingResources n r) := by
  unfold Node.AvailableResource
  rw [← wrap64_sub_right, usingResources_eq, wrap64_sub_right]

theorem wrap64_sum_map {α : Type} (g : α → Int) (xs : List α) :
    wrap64 ((xs.map (fun x => wrap64 (g x))).sum) = wrap64 ((xs.map g).sum) := by
  induction xs with
  | nil => rfl
  | cons x rest ih =>
    simp only [List.map_cons, List.sum_cons]
    rw [← wrap64_add_right, ih, wrap64_add_right, wrap64_add_left]

theorem sum_filter_map {α : Type} (p : α → Bool) (q : α → Prop) [DecidablePred q] (g : α → Int)
    (xs : List α) (hpq : ∀ x, p x = true ↔ q x) :
    ((xs.filter p).map g).sum = (xs.map (fun x => if q x then g x else 0)).sum := by
  induction xs with
  | nil => rfl
  | cons x rest ih =>
    by_cases hx : p x = true
    · have hq : q x := (hpq x).mp hx
      simp [List.filter_cons, hx, hq, ih]
    · have hq : ¬ q x := fun h => hx ((hpq x).mpr h)
      simp [List.filter_cons, hx, hq, ih]

theorem maxNeededNodes_eq_foldl (P : Platform) (first : Node) (needs : List Resource) (m : Int) :
    maxNeededNodes P first needs m
      = (needs.map (fun r => ceilDiv P r.Value (first.ResourceCapacity r.Name))).foldl max m := by
  induction needs generalizing m with
  | nil => rfl
  | cons r rest ih =>
    simp only [maxNeededNodes, List.map_cons, List.foldl_cons]
    split
    · rename_i h
      rw [ih, max_eq_right (by omega)]
    · rename_i h
      rw [ih, max_eq_left (by omega)]

theorem deleteLoop_acc_subset {σ : Type} (P : Platform) (E : Env σ) (cfg : Config) :
    ∀ (walked : List Node) (l : Int) (acc : List String) (s : Sys σ) (ids : List String)
      (s1 : Sys σ), deleteLoop P E cfg walked l acc s = (Except.ok ids, s1) →
      ∀ name ∈ acc, name ∈ ids := by
  intro walked
  induction walked with
  | nil =>
    intro l acc s ids s1 h name hn
    simp only [deleteLoop, Prod.mk.injEq, Except.ok.injEq] at h
    rw [← h.1]; exact hn
  | cons node rest ih =>
    intro l acc s ids s1 h name hn
    rw [deleteLoop] at h
    split at h
    · simp at h
    · split at h
      · split at h
        · split at h
          · simp only [Prod.mk.injEq, Except.ok.injEq] at h
            rw [← h.1]; exact List.mem_append_left _ hn
          · exact ih _ _ _ _ _ h name (List.mem_append_left _ hn)
        · exact ih _ _ _ _ _ h name hn
      · exact ih _ _ _ _ _ h name hn

theorem mapGet_mapSet_self {β : Type} (m : List (String × β)) (k : String) (v : β) :
    mapGet (mapSet m k v) k = some v := by
  induction m with
  | nil => simp [mapSet, mapGet]
  | cons kv rest ih =>
    obtain ⟨k1, v1⟩ := kv
    by_cases h : k1 = k
    · simp [mapSet, mapGet, h]
    · simp [mapSet, mapGet, h, ih]

theorem marks_nil (P : Platform) (b : Bool) : Marks P b [] :=
  ⟨by simp, by simp⟩

theorem marks_append (P : Platform) (b : Bool) (xs ys : List Call) (hx : Marks P b xs)
    (hy : Marks P b ys) : Marks P b (xs ++ ys) := by
  refine ⟨fun c hc => ?_, fun u hu => ?_⟩
  · rw [List.mem_append] at hc
    rcases hc with hc | hc
    · exact hx.1 c hc
    · exact hy.1 c hc
  · rw [List.mem_append] at hu
    rcases hu with hu | hu
    · obtain ⟨h1, t, txt, h2, h3, h4⟩ := hx.2 u hu
      exact ⟨h1, t, txt, List.mem_append_left _ h2, h3, h4⟩
    · obtain ⟨h1, t, txt, h2, h3, h4⟩ := hy.2 u hu
      exact ⟨h1, t, txt, List.mem_append_right _ h2, h3, h4⟩

/-- What one call of `markNodeAsSchedulable` (`b = false`) or
`markNodeAsUnschedulable` (`b = true`) does. -/
theorem mark_step {σ : Type} (P : Platform) (E : Env σ) (b : Bool) (n : Node) (s : Sys σ) :
    ∃ ext, (match Node.mark P E b n s with
        | (Outcome.panic, s1) => (Outcome.panic, s1)
        | (Outcome.ret (_, some err), s1) => (Outcome.ret (some err), s1)
        | (Outcome.ret (n1, none), s1) =>
          (Outcome.ret (callUpdateNode E n1 s1).1, (callUpdateNode E n1 s1).2)).2.calls
        = s.calls ++ ext ∧ Marks P b ext := by
  unfold Node.mark
  cases hm : P.marshalText (callNow E s).1 with
  | error err =>
    exact ⟨[Call.Now (E.Now s.st).1], by simp [callNow], by simp [Call.isMark], by simp⟩
  | ok txt =>
    cases ha : n.Annotations with
    | none => exact ⟨[Call.Now (E.Now s.st).1], by simp [callNow, ha], by simp [Call.isMark], by simp⟩
    | some m =>
      refine ⟨[Call.Now (E.Now s.st).1, Call.UpdateNode (Node.withMark n b m txt)],
        by simp [callNow, callUpdateNode, ha, Node.withMark], by simp [Call.isMark], ?_⟩
      intro u hu
      simp only [List.mem_cons, List.mem_singleton, List.not_mem_nil, or_false] at hu
      rcases hu with hu | hu
      · exact Call.noConfusion hu
      · have hu2 : u = Node.withMark n b m txt := by injection hu
        subst hu2
        refine ⟨rfl, (E.Now s.st).1, txt, by simp, by simpa [callNow] using hm, ?_⟩
        simp [Node.withMark, mapGet_mapSet_self]

theorem markNodeAsSchedulable_marks {σ : Type} (P : Platform) (E : Env σ) (n : Node)
    (s : Sys σ) :
    ∃ ext, (markNodeAsSchedulable P E n s).2.calls = s.calls ++ ext ∧ Marks P false ext :=
  mark_step P E false n s

theorem markNodeAsUnschedulable_marks {σ : Type} (P : Platform) (E : Env σ) (n : Node)
    (s : Sys σ) :
    ∃ ext, (markNodeAsUnschedulable P E n s).2.calls = s.calls ++ ext ∧ Marks P true ext :=
  mark_step P E true n s

theorem cordonLoop_marks {σ : Type} (P : Platform) (E : Env σ) :
    ∀ (xs : List Node) (s : Sys σ),
      ∃ ext, (cordonLoop P E xs s).2.calls = s.calls ++ ext ∧ Marks P true ext := by
  intro xs
  induction xs with
  | nil => intro s; exact ⟨[], by simp [cordonLoop], marks_nil P true⟩
  | cons n rest ih =>
    intro s
    obtain ⟨ext, hext, hmark⟩ := markNodeAsUnschedulable_marks P E n s
    rw [cordonLoop]
    split
    · rename_i s1 h; rw [h] at hext; exact ⟨ext, hext, hmark⟩
    · rename_i err s1 h; rw [h] at hext; exact ⟨ext, hext, hmark⟩
    · rename_i s1 h
      rw [h] at hext
      simp only at hext
      obtain ⟨ext2, hext2, hmark2⟩ := ih s1
      exact ⟨ext ++ ext2, by rw [hext2, hext, List.append_assoc], marks_append P true _ _ hmark hmark2⟩

theorem uncordonLoop_marks {σ : Type} (P : Platform) (E : Env σ)
    (resources : List (ResourceName × Int)) (needsLen : Nat) :
    ∀ (xs : List Node) (enough : List ResourceName) (s : Sys σ),
      ∃ ext, (uncordonLoop P E resources needsLen xs enough s).2.calls = s.calls ++ ext ∧
        Marks P false ext := by
  intro xs
  induction xs with
  | nil => intro enough s; exact ⟨[], by simp [uncordonLoop], marks_nil P false⟩
  | cons node rest ih =>
    intro enough s
    obtain ⟨ext, hext, hmark⟩ := markNodeAsSchedulable_marks P E node s
    rw [uncordonLoop]
    split
    · rename_i s1 h; rw [h] at hext; exact ⟨ext, hext, hmark⟩
    · rename_i err s1 h; rw [h] at hext; exact ⟨ext, hext, hmark⟩
    · rename_i s1 h
      rw [h] at hext
      simp only at hext
      split
      · exact ⟨ext, hext, hmark⟩
      · obtain ⟨ext2, hext2, hmark2⟩ := ih
          (enoughLoop node needsLen (P.rangeOrder resources) enough).1 s1
        exact ⟨ext ++ ext2, by rw [hext2, hext, List.append_assoc],
          marks_append P false _ _ hmark hmark2⟩

theorem checkForScheduling_marks {σ : Type} (P : Platform) (E : Env σ) (n : NodeList)
    (needs : List Resource) (s : Sys σ) :
    ∃ ext, (checkForScheduling P E n needs s).2.calls = s.calls ++ ext ∧ Marks P false ext := by
  unfold checkForScheduling
  split
  · exact ⟨[], by simp, marks_nil P false⟩
  · split
    · exact ⟨[], by simp, marks_nil P false⟩
    · exact uncordonLoop_marks P E _ _ _ _ _

theorem checkForUnscheduling_marks {σ : Type} (P : Platform) (E : Env σ) (n : NodeList)
    (extra : List Resource) (s : Sys σ) :
    ∃ ext, (checkForUnscheduling P E n extra s).2.calls = s.calls ++ ext ∧ Marks P true ext := by
  unfold checkForUnscheduling
  split
  · exact ⟨[], by simp, marks_nil P true⟩
  · exact ⟨[], by simp, marks_nil P true⟩
  · split
    · exact ⟨[], by simp, marks_nil P true⟩
    · split
      · exact ⟨[], by simp, marks_nil P true⟩
      · exact cordonLoop_marks P E _ _

theorem deleteExtraNodes_tail {σ : Type} (P : Platform) (E : Env σ) (cfg : Config) (s : Sys σ) :
    ∃ tail, (deleteExtraNodes P E cfg s).2.calls = s.calls ++ tail ∧
      IsDeleteTail cfg.NodeSelector tail := by
  rw [deleteExtraNodes]
  split
  · rename_i err s1 h
    have : s1 = (callNodes E cfg.NodeSelector s).2 := by rw [h]
    exact ⟨[Call.Nodes cfg.NodeSelector], by rw [this]; simp [callNodes],
      [], [], by simp, by simp, Or.inl rfl⟩
  · rename_i nodes s1 h
    have hs1 : s1.calls = s.calls ++ [Call.Nodes cfg.NodeSelector] := by
      have : s1 = (callNodes E cfg.NodeSelector s).2 := by rw [h]
      rw [this]; simp [callNodes]
    split
    · exact ⟨[Call.Nodes cfg.NodeSelector], hs1, [], [], by simp, by simp, Or.inl rfl⟩
    · obtain ⟨extra, hc, hnow⟩ := deleteLoop_calls P E cfg nodes.UnschedulableNodes
        nodes.Nodes.length [] s1
      split
      · rename_i err s2 h2
        rw [h2] at hc
        simp only at hc
        exact ⟨Call.Nodes cfg.NodeSelector :: (extra ++ []), by simp [hc, hs1],
          extra, [], rfl, hnow, Or.inl rfl⟩
      · rename_i del s2 h2
        rw [h2] at hc
        simp only at hc
        exact ⟨Call.Nodes cfg.NodeSelector :: (extra ++ [Call.DeleteNodes del]),
          by simp [callDeleteNodes, hc, hs1], extra, [Call.DeleteNodes del], rfl, hnow,
          Or.inr ⟨del, rfl⟩⟩

theorem scaleUp_shape {σ : Type} (P : Platform) (E : Env σ) (cfg : Config) (s : Sys σ) :
    ∃ rest, (scaleUp P E cfg s).2.calls = s.calls ++ rest ∧
      (rest = [Call.Nodes cfg.NodeSelector] ∨
        ∃ size tail, rest = Call.Nodes cfg.NodeSelector :: Call.ResizeNode size :: tail ∧
          IsDeleteTail cfg.NodeSelector tail) := by
  rw [scaleUp]
  split
  · rename_i err s1 h
    have : s1 = (callNodes E cfg.NodeSelector s).2 := by rw [h]
    exact ⟨[Call.Nodes cfg.NodeSelector], by rw [this]; simp [callNodes], Or.inl rfl⟩
  · rename_i nodes s1 h
    have hs1 : s1.calls = s.calls ++ [Call.Nodes cfg.NodeSelector] := by
      have : s1 = (callNodes E cfg.NodeSelector s).2 := by rw [h]
      rw [this]; simp [callNodes]
    split
    · exact ⟨[Call.Nodes cfg.NodeSelector], hs1, Or.inl rfl⟩
    · rename_i a ha
      unfold increaseNodePoolSize
      split
      · rename_i s2 h2
        split at h2
        · simp only [Prod.mk.injEq] at h2
          rw [← h2.2]
          exact ⟨[Call.Nodes cfg.NodeSelector], hs1, Or.inl rfl⟩
        · simp at h2
      · rename_i r s2 h2
        split at h2
        · simp at h2
        · rename_i size hsize
          simp only [Prod.mk.injEq] at h2
          obtain ⟨tail, htail, hshape⟩ := deleteExtraNodes_tail P E cfg s2
          refine ⟨Call.Nodes cfg.NodeSelector :: Call.ResizeNode size :: tail, ?_,
            Or.inr ⟨size, tail, rfl, hshape⟩⟩
          rw [htail, ← h2.2]
          simp [callResizeNode, hs1]

/-- The calls of every `scale()` pass have one of the shapes of `PassShape`. -/
theorem scale_shape {σ : Type} (P : Platform) (E : Env σ) (cfg : Config) (s : Sys σ) :
    PassShape P cfg (callsSince s (scale P E cfg s).2) := by
  have hstop : PassShape P cfg [Call.Nodes cfg.NodeSelector] :=
    PassShape.down [] [] (marks_nil P true) (Or.inl rfl)
  rw [scale]
  split
  · rename_i err s1 h
    have : s1 = (callNodes E cfg.NodeSelector s).2 := by rw [h]
    rw [callsSince_append s _ [Call.Nodes cfg.NodeSelector] (by rw [this]; simp [callNodes])]
    exact hstop
  · rename_i nodes s1 h
    have hs1 : s1.calls = s.calls ++ [Call.Nodes cfg.NodeSelector] := by
      have : s1 = (callNodes E cfg.NodeSelector s).2 := by rw [h]
      rw [this]; simp [callNodes]
    split
    · rw [callsSince_append s _ [Call.Nodes cfg.NodeSelector, Call.ResizeNode cfg.MinimumNode]
        (by simp [callResizeNode, hs1])]
      exact PassShape.floor
    · split
      · rw [callsSince_append s _ _ hs1]
        exact hstop
      · rename_i a ha
        split
        · obtain ⟨ext, hext, hmarks⟩ := checkForScheduling_marks P E nodes
            [⟨ResourceCPU, wrap64 (cfg.PodCPURequest * cfg.BufferSlotSize)⟩] s1
          split
          · rename_i s2 h2
            rw [h2] at hext
            simp only at hext
            rw [callsSince_append s _ (Call.Nodes cfg.NodeSelector :: (ext ++ []))
              (by simp [hext, hs1])]
            exact PassShape.up ext [] hmarks (Or.inl rfl)
          · rename_i err s2 h2
            rw [h2] at hext
            simp only at hext
            split
            · rw [callsSince_append s _ (Call.Nodes cfg.NodeSelector :: (ext ++ []))
                (by simp [hext, hs1])]
              exact PassShape.up ext [] hmarks (Or.inl rfl)
            · obtain ⟨rest, hrest, hshape⟩ := scaleUp_shape P E cfg s2
              rw [callsSince_append s _ (Call.Nodes cfg.NodeSelector :: (ext ++ rest))
                (by simp [hrest, hext, hs1])]
              exact PassShape.up ext rest hmarks (Or.inr hshape)
        · split
          · obtain ⟨ext, hext, hmarks⟩ := checkForUnscheduling_marks P E nodes
              [⟨ResourceCPU, wrap64 (cfg.PodCPURequest * wrap64 (a - cfg.BufferSlotSize))⟩] s1
            split
            · rename_i s2 h2
              rw [h2] at hext
              simp only at hext
              rw [callsSince_append s _ (Call.Nodes cfg.NodeSelector :: (ext ++ []))
                (by simp [hext, hs1])]
              exact PassShape.down ext [] hmarks (Or.inl rfl)
            · rename_i err s2 h2
              rw [h2] at hext
              simp only at hext
              rw [callsSince_append s _ (Call.Nodes cfg.NodeSelector :: (ext ++ []))
                (by simp [hext, hs1])]
              exact PassShape.down ext [] hmarks (Or.inl rfl)
            · rename_i s2 h2
              rw [h2] at hext
              simp only at hext
              obtain ⟨tail, htail, hshape⟩ := deleteExtraNodes_tail P E cfg s2
              rw [callsSince_append s _ (Call.Nodes cfg.NodeSelector :: (ext ++ tail))
                (by simp [htail, hext, hs1])]
              exact PassShape.down ext tail hmarks (Or.inr hshape)
          · obtain ⟨tail, htail, hshape⟩ := deleteExtraNodes_tail P E cfg s1
            rw [callsSince_append s _ (Call.Nodes cfg.NodeSelector :: ([] ++ tail))
              (by simp [htail, hs1])]
            exact PassShape.down [] tail (marks_nil P true) (Or.inr hshape)

theorem deleteTail_facts (selector : String) (tail : List Call)
    (h : IsDeleteTail selector tail) :
    (∀ u, Call.UpdateNode u ∉ tail) ∧ (∀ k, Call.ResizeNode k ∉ tail) ∧
      tail.countP Call.isResize = 0 ∧ tail.countP Call.isDelete ≤ 1 := by
  obtain ⟨nows, dels, rfl, hnow, hdel⟩ := h
  have hn1 : ∀ c ∈ nows, c.isResize = false ∧ c.isDelete = false := by
    intro c hc
    obtain ⟨t, rfl⟩ := hnow c hc
    exact ⟨rfl, rfl⟩
  have hc1 : nows.countP Call.isResize = 0 := by
    rw [List.countP_eq_zero]
    intro c hc
    simp [(hn1 c hc).1]
  have hc2 : nows.countP Call.isDelete = 0 := by
    rw [List.countP_eq_zero]
    intro c hc
    simp [(hn1 c hc).2]
  refine ⟨?_, ?_, ?_, ?_⟩
  · intro u hu
    simp only [List.mem_cons, List.mem_append] at hu
    rcases hu with hu | hu | hu
    · exact Call.noConfusion hu
    · obtain ⟨t, ht⟩ := hnow _ hu
      exact Call.noConfusion ht
    · rcases hdel with rfl | ⟨ids, rfl⟩
      · simp at hu
      · simp at hu
  · intro k hk
    simp only [List.mem_cons, List.mem_append] at hk
    rcases hk with hk | hk | hk
    · exact Call.noConfusion hk
    · obtain ⟨t, ht⟩ := hnow _ hk
      exact Call.noConfusion ht
    · rcases hdel with rfl | ⟨ids, rfl⟩
      · simp at hk
      · simp at hk
  · rcases hdel with rfl | ⟨ids, rfl⟩
    · simp [List.countP_cons, Call.isResize, hc1]
    · simp [List.countP_cons, List.countP_append, Call.isResize, hc1]
  · rcases hdel with rfl | ⟨ids, rfl⟩
    · simp [List.countP_cons, Call.isDelete, hc2]
    · simp [List.countP_cons, List.countP_append, Call.isDelete, hc2]

theorem marks_counts (P : Platform) (b : Bool) (marks : List Call) (h : Marks P b marks) :
    (∀ k, Call.ResizeNode k ∉ marks) ∧ marks.countP Call.isResize = 0 ∧
      marks.countP Call.isDelete = 0 := by
  have hm : ∀ c ∈ marks, c.isResize = false ∧ c.isDelete = false := by
    intro c hc
    have := h.1 c hc
    cases c <;> simp [Call.isMark] at this <;> exact ⟨rfl, rfl⟩
  refine ⟨fun k hk => ?_, ?_, ?_⟩
  · have := (hm _ hk).1
    simp [Call.isResize] at this
  · rw [List.countP_eq_zero]
    intro c hc
    simp [(hm c hc).1]
  · rw [List.countP_eq_zero]
    intro c hc
    simp [(hm c hc).2]

/-- What the shape of a pass implies: every node updated carries a fresh
timestamp; the updates are all uncordons, or all cordons and then the pass has
no resize; there is at most one resize and at most one deletion. -/
theorem passShape_facts (P : Platform) (cfg : Config) (cs : List Call)
    (h : PassShape P cfg cs) :
    (∀ u, Call.UpdateNode u ∈ cs → ∃ t txt, Call.Now t ∈ cs ∧
      P.marshalText t = Except.ok txt ∧
      mapGet (u.Annotations.getD []) timestampAnnotation = some txt) ∧
    ((∀ u, Call.UpdateNode u ∈ cs → u.Unschedulable = false) ∨
      ((∀ u, Call.UpdateNode u ∈ cs → u.Unschedulable = true) ∧
        ∀ k, Call.ResizeNode k ∉ cs)) ∧
    cs.countP Call.isResize ≤ 1 ∧ cs.countP Call.isDelete ≤ 1 := by
  cases h with
  | floor =>
    refine ⟨?_, Or.inl ?_, by simp [List.countP_cons, Call.isResize],
      by simp [List.countP_cons, Call.isDelete]⟩
    · intro u hu; simp at hu
    · intro u hu; simp at hu
  | up marks rest hmarks hrest =>
    obtain ⟨hm1, hm2, hm3⟩ := marks_counts P false marks hmarks
    have hrestU : ∀ u, Call.UpdateNode u ∉ rest := by
      intro u hu
      rcases hrest with rfl | rfl | ⟨size, tail, rfl, htail⟩
      · simp at hu
      · simp at hu
      · simp only [List.mem_cons] at hu
        rcases hu with hu | hu | hu
        · exact Call.noConfusion hu
        · exact Call.noConfusion hu
        · exact (deleteTail_facts _ _ htail).1 u hu
    have hinm : ∀ u, Call.UpdateNode u ∈ Call.Nodes cfg.NodeSelector :: (marks ++ rest) →
        Call.UpdateNode u ∈ marks := by
      intro u hu
      simp only [List.mem_cons, List.mem_append] at hu
      rcases hu with hu | hu | hu
      · exact Call.noConfusion hu
      · exact hu
      · exact absurd hu (hrestU u)
    refine ⟨?_, Or.inl fun u hu => (hmarks.2 u (hinm u hu)).1, ?_, ?_⟩
    · intro u hu
      obtain ⟨-, t, txt, h1, h2, h3⟩ := hmarks.2 u (hinm u hu)
      exact ⟨t, txt, List.mem_cons_of_mem _ (List.mem_append_left _ h1), h2, h3⟩
    · rcases hrest with rfl | rfl | ⟨size, tail, rfl, htail⟩
      · simp [List.countP_cons, Call.isResize, hm2]
      · simp [List.countP_cons, List.countP_append, Call.isResize, hm2]
      · simp [List.countP_cons, List.countP_append, Call.isResize, hm2,
          (deleteTail_facts _ _ htail).2.2.1]
    · rcases hrest with rfl | rfl | ⟨size, tail, rfl, htail⟩
      · simp [List.countP_cons, Call.isDelete, hm3]
      · simp [List.countP_cons, List.countP_append, Call.isDelete, hm3]
      · have := (deleteTail_facts _ _ htail).2.2.2
        simp [List.countP_cons, List.countP_append, Call.isDelete, hm3]
        exact this
  | down marks rest hmarks hrest =>
    obtain ⟨hm1, hm2, hm3⟩ := marks_counts P true marks hmarks
    have hrestU : ∀ u, Call.UpdateNode u ∉ rest := by
      intro u hu
      rcases hrest with rfl | htail
      · simp at hu
      · exact (deleteTail_facts _ _ htail).1 u hu
    have hrestR : ∀ k, Call.ResizeNode k ∉ rest := by
      intro k hk
      rcases hrest with rfl | htail
      · simp at hk
      · exact (deleteTail_facts _ _ htail).2.1 k hk
    have hinm : ∀ u, Call.UpdateNode u ∈ Call.Nodes cfg.NodeSelector :: (marks ++ rest) →
        Call.UpdateNode u ∈ marks := by
      intro u hu
      simp only [List.mem_cons, List.mem_append] at hu
      rcases hu with hu | hu | hu
      · exact Call.noConfusion hu
      · exact hu
      · exact absurd hu (hrestU u)
    refine ⟨?_, Or.inr ⟨fun u hu => (hmarks.2 u (hinm u hu)).1, ?_⟩, ?_, ?_⟩
    · intro u hu
      obtain ⟨-, t, txt, h1, h2, h3⟩ := hmarks.2 u (hinm u hu)
      exact ⟨t, txt, List.mem_cons_of_mem _ (List.mem_append_left _ h1), h2, h3⟩
    · intro k hk
      simp only [List.mem_cons, List.mem_append] at hk
      rcases hk with hk | hk | hk
      · exact Call.noConfusion hk
      · exact hm1 k hk
      · exact hrestR k hk
    · rcases hrest with rfl | htail
      · simp [List.countP_cons, Call.isResize, hm2]
      · simp [List.countP_cons, List.countP_append, Call.isResize, hm2,
          (deleteTail_facts _ _ htail).2.2.1]
    · rcases hrest with rfl | htail
      · simp [List.countP_cons, Call.isDelete, hm3]
      · have := (deleteTail_facts _ _ htail).2.2.2
        simp [List.countP_cons, List.countP_append, Call.isDelete, hm3]
        exact this

theorem digitChar_lt_ten (d : Nat) (h : d < 10) :
    (Nat.digitChar d).isDigit = true ∧ (Nat.digitChar d).toNat - 48 = d := by
  interval_cases d <;> exact ⟨by decide, by decide⟩

theorem toDigitsCore_append (fuel : Nat) :
    ∀ (n : Nat) (ds : List Char),
      Nat.toDigitsCore 10 fuel n ds = Nat.toDigitsCore 10 fuel n [] ++ ds := by
  induction fuel with
  | zero => intro n ds; simp [Nat.toDigitsCore]
  | succ fuel ih =>
    intro n ds
    simp only [Nat.toDigitsCore]
    split
    · simp
    · rw [ih (n / 10) (Nat.digitChar (n % 10) :: ds), ih (n / 10) [Nat.digitChar (n % 10)]]
      simp

theorem toDigitsCore_spec (fuel : Nat) :
    ∀ (n : Nat), n < fuel →
      Nat.toDigitsCore 10 fuel n [] ≠ [] ∧
      (Nat.toDigitsCore 10 fuel n []).all Char.isDigit = true ∧
      (Nat.toDigitsCore 10 fuel n []).foldl
        (fun (acc : Int) c => acc * 10 + (c.toNat - 48 : Nat)) 0 = (n : Int) := by
  induction fuel with
  | zero => intro n h; omega
  | succ fuel ih =>
    intro n hn
    have hd := digitChar_lt_ten (n % 10) (Nat.mod_lt _ (by decide))
    simp only [Nat.toDigitsCore]
    split
    · rename_i h0
      refine ⟨by simp, by simp [hd.1], ?_⟩
      simp only [List.foldl_cons, List.foldl_nil, hd.2]
      omega
    · rename_i h0
      have hlt : n / 10 < fuel := by omega
      obtain ⟨h1, h2, h3⟩ := ih (n / 10) hlt
      rw [toDigitsCore_append]
      refine ⟨by simp, ?_, ?_⟩
      · simp [List.all_append, h2, hd.1]
      · rw [List.foldl_append, h3]
        simp only [List.foldl_cons, List.foldl_nil, hd.2]
        omega

/-- The text form of `stdPlatform` reads back as the instant written. -/
theorem stdPlatform_round_trip (t : Int) (txt : String)
    (h : stdPlatform.marshalText t = Except.ok txt) : stdPlatform.unmarshalText txt = Except.ok t := by
  simp only [stdPlatform] at h ⊢
  split at h
  · exact Except.noConfusion h
  · rename_i hneg
    simp only [Except.ok.injEq] at h
    subst h
    obtain ⟨h1, h2, h3⟩ := toDigitsCore_spec (t.toNat + 1) t.toNat (by omega)
    simp only [Nat.toDigits]
    rw [if_neg (by simp [h1, h2]), h3]
    congr 1
    omega

theorem uncordonedApart_refl (P : Platform) (s : Sys Pool) : UncordonedApart P s s [] :=
  ⟨by simp, marks_nil P false, fun n hn _ => ⟨hn, by simp⟩⟩

theorem uncordonedApart_trans (P : Platform) (s s1 s2 : Sys Pool) (e1 e2 : List Call)
    (h1 : UncordonedApart P s s1 e1) (h2 : UncordonedApart P s1 s2 e2) :
    UncordonedApart P s s2 (e1 ++ e2) := by
  refine ⟨by rw [h2.1, h1.1, List.append_assoc], marks_append P false _ _ h1.2.1 h2.2.1, ?_⟩
  intro n hn hc
  obtain ⟨hn1, hne2⟩ := h2.2.2 n hn hc
  obtain ⟨hn0, hne1⟩ := h1.2.2 n hn1 hc
  refine ⟨hn0, fun u hu => ?_⟩
  rw [List.mem_append] at hu
  rcases hu with hu | hu
  · exact hne1 u hu
  · exact hne2 u hu

theorem markNodeAsSchedulable_apart (P : Platform)
    (resize : Int → List Node → Option Error × List Node)
    (delete : List String → List Node → Option Error × List Node) (n : Node) (s : Sys Pool) :
    ∃ ext, UncordonedApart P s (markNodeAsSchedulable P (persistentEnv resize delete) n s).2 ext := by
  unfold markNodeAsSchedulable Node.MarkAsSchedulable Node.mark
  cases hm : P.marshalText (callNow (persistentEnv resize delete) s).1 with
  | error err =>
    refine ⟨[Call.Now s.st.clock], by simp [callNow, persistentEnv], ?_, ?_⟩
    · exact ⟨by simp [Call.isMark], by simp⟩
    · intro k hk _
      exact ⟨by simpa [callNow, persistentEnv] using hk, by simp⟩
  | ok txt =>
    cases ha : n.Annotations with
    | none =>
      refine ⟨[Call.Now s.st.clock], by simp [callNow, persistentEnv, ha], ?_, ?_⟩
      · exact ⟨by simp [Call.isMark], by simp⟩
      · intro k hk _
        exact ⟨by simpa [callNow, persistentEnv, ha] using hk, by simp⟩
    | some m =>
      refine ⟨[Call.Now s.st.clock, Call.UpdateNode (Node.withMark n false m txt)],
        by simp [callNow, callUpdateNode, persistentEnv, ha, Node.withMark], ?_, ?_⟩
      · refine ⟨by simp [Call.isMark], ?_⟩
        intro u hu
        simp only [List.mem_cons, List.mem_singleton, List.not_mem_nil, or_false] at hu
        rcases hu with hu | hu
        · exact Call.noConfusion hu
        · have hu2 : u = Node.withMark n false m txt := by injection hu
          subst hu2
          refine ⟨rfl, (s.st.clock : Int), txt, by simp,
            by simpa [callNow, persistentEnv] using hm, ?_⟩
          simp [Node.withMark, mapGet_mapSet_self]
      · intro k hk hc
        simp only [callNow, callUpdateNode, persistentEnv, ha, List.mem_map] at hk
        obtain ⟨m0, hm0, hk0⟩ := hk
        by_cases hname : m0.Name = n.Name
        · rw [if_pos hname] at hk0
          rw [← hk0] at hc
          exact Bool.noConfusion hc
        · rw [if_neg hname] at hk0
          subst hk0
          refine ⟨hm0, ?_⟩
          intro u hu
          simp only [List.mem_cons, List.mem_singleton, List.not_mem_nil, or_false] at hu
          rcases hu with hu | hu
          · exact Call.noConfusion hu
          · have hu2 : u = Node.withMark n false m txt := by injection hu
            subst hu2
            exact hname

theorem uncordonLoop_apart (P : Platform)
    (resize : Int → List Node → Option Error × List Node)
    (delete : List String → List Node → Option Error × List Node)
    (resources : List (ResourceName × Int)) (needsLen : Nat) :
    ∀ (xs : List Node) (enough : List ResourceName) (s : Sys Pool),
      ∃ ext, UncordonedApart P s
        (uncordonLoop P (persistentEnv resize delete) resources needsLen xs enough s).2 ext := by
  intro xs
  induction xs with
  | nil => intro enough s; exact ⟨[], by simpa [uncordonLoop] using uncordonedApart_refl P s⟩
  | cons node rest ih =>
    intro enough s
    obtain ⟨ext, hext⟩ := markNodeAsSchedulable_apart P resize delete node s
    rw [uncordonLoop]
    split
    · rename_i s1 h; rw [h] at hext; exact ⟨ext, hext⟩
    · rename_i err s1 h; rw [h] at hext; exact ⟨ext, hext⟩
    · rename_i s1 h
      rw [h] at hext
      simp only at hext
      split
      · exact ⟨ext, hext⟩
      · obtain ⟨ext2, hext2⟩ := ih
          (enoughLoop node needsLen (P.rangeOrder resources) enough).1 s1
        exact ⟨ext ++ ext2, uncordonedApart_trans P _ _ _ _ _ hext hext2⟩

theorem checkForScheduling_apart (P : Platform)
    (resize : Int → List Node → Option Error × List Node)
    (delete : List String → List Node → Option Error × List Node) (n : NodeList)
    (needs : List Resource) (s : Sys Pool) :
    ∃ ext, UncordonedApart P s
      (checkForScheduling P (persistentEnv resize delete) n needs s).2 ext := by
  unfold checkForScheduling
  split
  · exact ⟨[], uncordonedApart_refl P s⟩
  · split
    · exact ⟨[], uncordonedApart_refl P s⟩
    · exact uncordonLoop_apart P resize delete _ _ _ _ _

theorem scaleUp_deletes_cordoned (P : Platform)
    (resize : Int → List Node → Option Error × List Node)
    (delete : List String → List Node → Option Error × List Node) (cfg : Config)
    (hres : ∀ count l n, n ∈ (resize count l).2 → n.Unschedulable = true → n ∈ l)
    (s : Sys Pool) :
    (∀ u, Call.UpdateNode u ∉ callsSince s (scaleUp P (persistentEnv resize delete) cfg s).2) ∧
    ∀ ids, Call.DeleteNodes ids ∈ callsSince s (scaleUp P (persistentEnv resize delete) cfg s).2 →
      ∀ name ∈ ids, ∃ node ∈ s.st.nodes, node.Name = name ∧ node.Unschedulable = true := by
  have hread : ((persistentEnv resize delete).Nodes cfg.NodeSelector s.st).1
      = Except.ok ⟨s.st.nodes⟩ := rfl
  have hstop : ∀ (r : Outcome (Option Error)),
      scaleUp P (persistentEnv resize delete) cfg s
        = (r, (callNodes (persistentEnv resize delete) cfg.NodeSelector s).2) →
      (∀ u, Call.UpdateNode u ∉ callsSince s (scaleUp P (persistentEnv resize delete) cfg s).2) ∧
      ∀ ids, Call.DeleteNodes ids
          ∈ callsSince s (scaleUp P (persistentEnv resize delete) cfg s).2 →
        ∀ name ∈ ids, ∃ node ∈ s.st.nodes, node.Name = name ∧ node.Unschedulable = true := by
    intro r hr
    rw [hr, callsSince_append s _ [Call.Nodes cfg.NodeSelector] (by simp [callNodes])]
    exact ⟨by simp, by simp⟩
  cases hslot : NodeList.AvailableSlot ⟨s.st.nodes⟩ ⟨ResourceCPU, cfg.PodCPURequest⟩ with
  | none =>
    exact hstop Outcome.panic (by simp [scaleUp, callNodes, hread, hslot])
  | some a2 =>
    cases hsize : resizeTarget P cfg ⟨s.st.nodes⟩
        [⟨ResourceCPU, wrap64 (cfg.PodCPURequest * wrap64 (cfg.BufferSlotSize - a2))⟩] with
    | none =>
      exact hstop Outcome.panic
        (by simp [scaleUp, callNodes, hread, hslot, increaseNodePoolSize, hsize])
    | some size =>
      rw [scaleUp_resizes P (persistentEnv resize delete) cfg s ⟨s.st.nodes⟩ a2 size hread hslot
        hsize]
      obtain ⟨tail, htail⟩ := deleteExtraNodes_calls P (persistentEnv resize delete) cfg
        ⟨((persistentEnv resize delete).ResizeNode size
            ((persistentEnv resize delete).Nodes cfg.NodeSelector s.st).2).2,
          s.calls ++ [Call.Nodes cfg.NodeSelector, Call.ResizeNode size]⟩
      have hspec := deleteExtraNodes_spec P (persistentEnv resize delete) cfg
        ⟨((persistentEnv resize delete).ResizeNode size
            ((persistentEnv resize delete).Nodes cfg.NodeSelector s.st).2).2,
          s.calls ++ [Call.Nodes cfg.NodeSelector, Call.ResizeNode size]⟩
        ⟨(resize size s.st.nodes).2⟩ rfl
      rw [callsSince_append _ _ tail htail] at hspec
      obtain ⟨tl, htl, hshape⟩ := deleteExtraNodes_tail P (persistentEnv resize delete) cfg
        ⟨((persistentEnv resize delete).ResizeNode size
            ((persistentEnv resize delete).Nodes cfg.NodeSelector s.st).2).2,
          s.calls ++ [Call.Nodes cfg.NodeSelector, Call.ResizeNode size]⟩
      have htleq : tl = tail := by
        have := htl.symm.trans htail
        exact List.append_cancel_left this
      subst htleq
      rw [callsSince_append s _ ([Call.Nodes cfg.NodeSelector, Call.ResizeNode size] ++ tl)
        (by rw [htail]; simp)]
      constructor
      · intro u hu
        simp only [List.cons_append, List.nil_append, List.mem_cons] at hu
        rcases hu with hu | hu | hu
        · exact Call.noConfusion hu
        · exact Call.noConfusion hu
        · exact (deleteTail_facts _ _ hshape).1 u hu
      · intro ids hids name hname
        simp only [List.cons_append, List.nil_append, List.mem_cons] at hids
        rcases hids with hids | hids | hids
        · exact Call.noConfusion hids
        · exact Call.noConfusion hids
        · obtain ⟨node, hnode, hnm, -⟩ := (hspec.2 ids hids).2 name hname
          simp only [NodeList.UnschedulableNodes, List.mem_filter, Node.IsSchedulable,
            Bool.not_not] at hnode
          exact ⟨node, hres size s.st.nodes node hnode.1 hnode.2, hnm, hnode.2⟩

theorem marks_no_delete (P : Platform) (b : Bool) (marks : List Call) (h : Marks P b marks)
    (ids : List String) : Call.DeleteNodes ids ∉ marks := by
  intro hd
  have := h.1 _ hd
  simp [Call.isMark] at this

theorem reframe_reframe {σ α : Type} (s t : Sys σ) (r : α × Sys σ) :
    reframe s (reframe t r) = reframe ⟨t.st, s.calls ++ t.calls⟩ r := by
  simp [reframe, List.append_assoc]

theorem reframe_self {σ α : Type} (st : σ) (r : α × Sys σ) :
    reframe (⟨st, []⟩ : Sys σ) r = r := by
  simp [reframe]

theorem callNodes_frame {σ : Type} (E : Env σ) (selector : String) (s : Sys σ) :
    callNodes E selector s = reframe s (callNodes E selector ⟨s.st, []⟩) := by
  simp [callNodes, reframe]

theorem callUpdateNode_frame {σ : Type} (E : Env σ) (n : Node) (s : Sys σ) :
    callUpdateNode E n s = reframe s (callUpdateNode E n ⟨s.st, []⟩) := by
  simp [callUpdateNode, reframe]

theorem callResizeNode_frame {σ : Type} (E : Env σ) (count : Int) (s : Sys σ) :
    callResizeNode E count s = reframe s (callResizeNode E count ⟨s.st, []⟩) := by
  simp [callResizeNode, reframe]

theorem callDeleteNodes_frame {σ : Type} (E : Env σ) (ids : List String) (s : Sys σ) :
    callDeleteNodes E ids s = reframe s (callDeleteNodes E ids ⟨s.st, []⟩) := by
  simp [callDeleteNodes, reframe]

theorem callNow_frame {σ : Type} (E : Env σ) (s : Sys σ) :
    callNow E s = reframe s (callNow E ⟨s.st, []⟩) := by
  simp [callNow, reframe]

theorem markNodeAsSchedulable_frame {σ : Type} (P : Platform) (E : Env σ) (n : Node)
    (s : Sys σ) :
    markNodeAsSchedulable P E n s = reframe s (markNodeAsSchedulable P E n ⟨s.st, []⟩) := by
  unfold markNodeAsSchedulable Node.MarkAsSchedulable Node.mark
  simp only [callNow]
  cases P.marshalText (E.Now s.st).1 with
  | error err => simp [reframe]
  | ok txt =>
    cases n.Annotations with
    | none => simp [reframe]
    | some m => simp [reframe, callUpdateNode]

theorem markNodeAsUnschedulable_frame {σ : Type} (P : Platform) (E : Env σ) (n : Node)
    (s : Sys σ) :
    markNodeAsUnschedulable P E n s = reframe s (markNodeAsUnschedulable P E n ⟨s.st, []⟩) := by
  unfold markNodeAsUnschedulable Node.MarkAsUnschedulable Node.mark
  simp only [callNow]
  cases P.marshalText (E.Now s.st).1 with
  | error err => simp [reframe]
  | ok txt =>
    cases n.Annotations with
    | none => simp [reframe]
    | some m => simp [reframe, callUpdateNode]

theorem cordonLoop_frame {σ : Type} (P : Platform) (E : Env σ) :
    ∀ (xs : List Node) (s : Sys σ),
      cordonLoop P E xs s = reframe s (cordonLoop P E xs ⟨s.st, []⟩) := by
  intro xs
  induction xs with
  | nil => intro s; simp [cordonLoop, reframe]
  | cons n rest ih =>
    intro s
    rw [cordonLoop, cordonLoop, markNodeAsUnschedulable_frame P E n s]
    cases hr : markNodeAsUnschedulable P E n ⟨s.st, []⟩ with
    | mk o t =>
      cases o with
      | panic => simp [reframe]
      | ret e =>
        cases e with
        | some err => simp [reframe]
        | none =>
          simp only [reframe]
          rw [ih ⟨t.st, s.calls ++ t.calls⟩, ih t]
          simp [reframe, List.append_assoc]

theorem uncordonLoop_frame {σ : Type} (P : Platform) (E : Env σ)
    (resources : List (ResourceName × Int)) (needsLen : Nat) :
    ∀ (xs : List Node) (enough : List ResourceName) (s : Sys σ),
      uncordonLoop P E resources needsLen xs enough s
        = reframe s (uncordonLoop P E resources needsLen xs enough ⟨s.st, []⟩) := by
  intro xs
  induction xs with
  | nil => intro enough s; simp [uncordonLoop, reframe]
  | cons n rest ih =>
    intro enough s
    rw [uncordonLoop, uncordonLoop, markNodeAsSchedulable_frame P E n s]
    cases hr : markNodeAsSchedulable P E n ⟨s.st, []⟩ with
    | mk o t =>
      cases o with
      | panic => simp [reframe]
      | ret e =>
        cases e with
        | some err => simp [reframe]
        | none =>
          simp only [reframe]
          split
          · simp
          · rw [ih _ ⟨t.st, s.calls ++ t.calls⟩, ih _ t]
            simp [reframe, List.append_assoc]

theorem checkForScheduling_frame {σ : Type} (P : Platform) (E : Env σ) (n : NodeList)
    (needs : List Resource) (s : Sys σ) :
    checkForScheduling P E n needs s = reframe s (checkForScheduling P E n needs ⟨s.st, []⟩) := by
  unfold checkForScheduling
  split
  · simp [reframe]
  · split
    · simp [reframe]
    · exact uncordonLoop_frame P E _ _ _ _ _

theorem checkForUnscheduling_frame {σ : Type} (P : Platform) (E : Env σ) (n : NodeList)
    (extra : List Resource) (s : Sys σ) :
    checkForUnscheduling P E n extra s
      = reframe s (checkForUnscheduling P E n extra ⟨s.st, []⟩) := by
  unfold checkForUnscheduling
  split
  · simp [reframe]
  · simp [reframe]
  · split
    · simp [reframe]
    · split
      · simp [reframe]
      · exact cordonLoop_frame P E _ _

theorem increaseNodePoolSize_frame {σ : Type} (P : Platform) (E : Env σ) (cfg : Config)
    (nodes : NodeList) (needs : List Resource) (s : Sys σ) :
    increaseNodePoolSize P E cfg nodes needs s
      = reframe s (increaseNodePoolSize P E cfg nodes needs ⟨s.st, []⟩) := by
  unfold increaseNodePoolSize
  split
  · simp [reframe]
  · simp [reframe, callResizeNode]

theorem deleteLoop_frame {σ : Type} (P : Platform) (E : Env σ) (cfg : Config) :
    ∀ (xs : List Node) (l : Int) (acc : List String) (s : Sys σ),
      deleteLoop P E cfg xs l acc s = reframe s (deleteLoop P E cfg xs l acc ⟨s.st, []⟩) := by
  intro xs
  induction xs with
  | nil => intro l acc s; simp [deleteLoop, reframe]
  | cons node rest ih =>
    intro l acc s
    rw [deleteLoop, deleteLoop]
    cases node.SchedulingMarkTimestamp P with
    | error err => simp [reframe]
    | ok t =>
      simp only
      split
      · have hnow : (callNow E (callNow E s).2).1
            = (callNow E (callNow E (⟨s.st, []⟩ : Sys σ)).2).1 := by simp [callNow]
        rw [hnow]
        split
        · split
          · simp [reframe, callNow]
          · rw [ih _ _ (callNow E (callNow E s).2).2,
              ih _ _ (callNow E (callNow E (⟨s.st, []⟩ : Sys σ)).2).2]
            simp [reframe, callNow]
        · rw [ih _ _ (callNow E (callNow E s).2).2,
            ih _ _ (callNow E (callNow E (⟨s.st, []⟩ : Sys σ)).2).2]
          simp [reframe, callNow]
      · rw [ih _ _ (callNow E s).2, ih _ _ (callNow E (⟨s.st, []⟩ : Sys σ)).2]
        simp [reframe, callNow]

theorem deleteExtraNodes_frame {σ : Type} (P : Platform) (E : Env σ) (cfg : Config)
    (s : Sys σ) :
    deleteExtraNodes P E cfg s = reframe s (deleteExtraNodes P E cfg ⟨s.st, []⟩) := by
  rw [deleteExtraNodes, deleteExtraNodes, callNodes_frame E cfg.NodeSelector s]
  cases hr : callNodes E cfg.NodeSelector ⟨s.st, []⟩ with
  | mk r t =>
    cases r with
    | error err => simp [reframe]
    | ok nodes =>
      simp only [reframe]
      split
      · simp
      · rw [deleteLoop_frame P E cfg _ _ _ ⟨t.st, s.calls ++ t.calls⟩,
          deleteLoop_frame P E cfg _ _ _ t]
        cases hl : deleteLoop P E cfg nodes.UnschedulableNodes nodes.Nodes.length []
            ⟨t.st, []⟩ with
        | mk r2 t2 =>
          cases r2 with
          | error err => simp [reframe, List.append_assoc]
          | ok del => simp [reframe, callDeleteNodes, List.append_assoc]

theorem scaleUp_frame {σ : Type} (P : Platform) (E : Env σ) (cfg : Config) (s : Sys σ) :
    scaleUp P E cfg s = reframe s (scaleUp P E cfg ⟨s.st, []⟩) := by
  rw [scaleUp, scaleUp, callNodes_frame E cfg.NodeSelector s]
  cases hr : callNodes E cfg.NodeSelector ⟨s.st, []⟩ with
  | mk r t =>
    cases r with
    | error err => simp [reframe]
    | ok nodes =>
      simp only [reframe]
      cases nodes.AvailableSlot ⟨ResourceCPU, cfg.PodCPURequest⟩ with
      | none => simp
      | some a =>
        simp only
        rw [increaseNodePoolSize_frame P E cfg nodes _ ⟨t.st, s.calls ++ t.calls⟩,
          increaseNodePoolSize_frame P E cfg nodes _ t]
        cases hi : increaseNodePoolSize P E cfg nodes
            [⟨ResourceCPU, wrap64 (cfg.PodCPURequest * wrap64 (cfg.BufferSlotSize - a))⟩]
            ⟨t.st, []⟩ with
        | mk o t2 =>
          cases o with
          | panic => simp [reframe, List.append_assoc]
          | ret e =>
            simp only [reframe]
            rw [deleteExtraNodes_frame P E cfg ⟨t2.st, (s.calls ++ t.calls) ++ t2.calls⟩,
              deleteExtraNodes_frame P E cfg ⟨t2.st, t.calls ++ t2.calls⟩]
            simp [reframe, List.append_assoc]

theorem scale_frame {σ : Type} (P : Platform) (E : Env σ) (cfg : Config) (s : Sys σ) :
    scale P E cfg s = reframe s (scale P E cfg ⟨s.st, []⟩) := by
  rw [scale, scale, callNodes_frame E cfg.NodeSelector s]
  cases hr : callNodes E cfg.NodeSelector ⟨s.st, []⟩ with
  | mk r t =>
    cases r with
    | error err => simp [reframe]
    | ok nodes =>
      simp only [reframe]
      split
      · simp [callResizeNode, List.append_assoc]
      · cases nodes.AvailableSlot ⟨ResourceCPU, cfg.PodCPURequest⟩ with
        | none => simp
        | some a =>
          simp only
          split
          · rw [checkForScheduling_frame P E nodes _ ⟨t.st, s.calls ++ t.calls⟩,
              checkForScheduling_frame P E nodes _ t]
            cases hc : checkForScheduling P E nodes
                [⟨ResourceCPU, wrap64 (cfg.PodCPURequest * cfg.BufferSlotSize)⟩] ⟨t.st, []⟩ with
            | mk o t2 =>
              cases o with
              | panic => simp [reframe, List.append_assoc]
              | ret e =>
                simp only [reframe]
                split
                · simp [List.append_assoc]
                · rw [scaleUp_frame P E cfg ⟨t2.st, (s.calls ++ t.calls) ++ t2.calls⟩,
                    scaleUp_frame P E cfg ⟨t2.st, t.calls ++ t2.calls⟩]
                  simp [reframe, List.append_assoc]
          · split
            · rw [checkForUnscheduling_frame P E nodes _ ⟨t.st, s.calls ++ t.calls⟩,
                checkForUnscheduling_frame P E nodes _ t]
              cases hc : checkForUnscheduling P E nodes
                  [⟨ResourceCPU, wrap64 (cfg.PodCPURequest * wrap64 (a - cfg.BufferSlotSize))⟩]
                  ⟨t.st, []⟩ with
              | mk o t2 =>
                cases o with
                | panic => simp [reframe, List.append_assoc]
                | ret e =>
                  cases e with
                  | some err => simp [reframe, List.append_assoc]
                  | none =>
                    simp only [reframe]
                    rw [deleteExtraNodes_frame P E cfg ⟨t2.st, (s.calls ++ t.calls) ++ t2.calls⟩,
                      deleteExtraNodes_frame P E cfg ⟨t2.st, t.calls ++ t2.calls⟩]
                    simp [reframe, List.append_assoc]
            · rw [deleteExtraNodes_frame P E cfg ⟨t.st, s.calls ++ t.calls⟩,
                deleteExtraNodes_frame P E cfg t]
              simp [reframe, List.append_assoc]

theorem mockResize_keeps (count : Int) (l : List Node) (n : Node)
    (h : n ∈ (mockResize count l).2) (hc : n.Unschedulable = true) : n ∈ l := by
  simp only [mockResize, List.mem_append] at h
  rcases h with h | h
  · exact h
  · simp only [freshNodes, List.mem_map] at h
    obtain ⟨i, -, hi⟩ := h
    rw [← hi] at hc
    simp [newNode] at hc

theorem deleteLoop_reaches_error {σ : Type} (P : Platform) (E : Env σ) (cfg : Config)
    (bad : Node) (post : List Node) (err : Error)
    (hbad : bad.SchedulingMarkTimestamp P = Except.error err) :
    ∀ (pre : List Node) (l : Int) (acc : List String) (s : Sys σ),
      (∀ n ∈ pre, ∃ t, n.SchedulingMarkTimestamp P = Except.ok t) →
      cfg.MinimumNode + pre.length < l →
      (deleteLoop P E cfg (pre ++ bad :: post) l acc s).1 = Except.error err := by
  intro pre
  induction pre with
  | nil =>
    intro l acc s _ _
    simp [deleteLoop, hbad]
  | cons node rest ih =>
    intro l acc s hpre hl
    obtain ⟨t, ht⟩ := hpre node (List.mem_cons_self _ _)
    have hrest : ∀ n ∈ rest, ∃ t, n.SchedulingMarkTimestamp P = Except.ok t :=
      fun n hn => hpre n (List.mem_cons_of_mem _ hn)
    simp only [List.length_cons, Nat.cast_add, Nat.cast_one] at hl
    rw [List.cons_append, deleteLoop, ht]
    simp only
    split
    · split
      · rw [if_neg (by omega)]
        exact ih _ _ _ hrest (by omega)
      · exact ih _ _ _ hrest (by omega)
    · exact ih _ _ _ hrest (by omega)

theorem availableResource_eq_spec (n : NodeList) (r : ResourceName) :
    n.AvailableResource r = wrap64 ((n.Nodes.map (specNodeAvailable r)).sum) := by
  have hr := availableResource_range n r
  rw [← wrap64_of_range _ hr.1 hr.2]
  unfold NodeList.AvailableResource
  rw [foldl_wrap64_sum (fun node => node.AvailableResource r) n.AvailableNodes 0, zero_add]
  have hfun : (fun node : Node => node.AvailableResource r)
      = fun node => wrap64 (node.ResourceCapacity r - specUsingResources node r) := by
    funext node
    exact node_availableResource_eq node r
  rw [hfun, wrap64_sum_map]
  unfold NodeList.AvailableNodes
  rw [sum_filter_map (fun node : Node => node.IsReady && node.IsSchedulable)
    (fun node : Node => node.IsReady = true ∧ node.Unschedulable = false)]
  · rfl
  · intro x
    simp [Node.IsSchedulable]

theorem specUsingResources_nonneg (n : Node) (r : ResourceName)
    (h : ∀ pod ∈ n.Pods, ∀ c ∈ pod.Containers, 0 ≤ (mapGet c.Limits r).getD 0) :
    0 ≤ specUsingResources n r := by
  unfold specUsingResources
  apply List.sum_nonneg
  intro x hx
  rw [List.mem_map] at hx
  obtain ⟨pod, hpod, rfl⟩ := hx
  apply List.sum_nonneg
  intro y hy
  rw [List.mem_map] at hy
  obtain ⟨c, hc, rfl⟩ := hy
  exact h pod hpod c hc

theorem specNodeAvailable_sum_le (r : ResourceName) (cap : Int) :
    ∀ xs : List Node,
      (∀ n ∈ xs, n.ResourceCapacity r = cap ∧ 0 ≤ specUsingResources n r) →
      (xs.map (specNodeAvailable r)).sum
        ≤ ((xs.filter (fun node => node.IsReady && node.IsSchedulable)).length : Int) * cap := by
  intro xs
  induction xs with
  | nil => intro _; simp
  | cons x rest ih =>
    intro h
    have hx := h x (List.mem_cons_self _ _)
    have hrest := ih (fun n hn => h n (List.mem_cons_of_mem _ hn))
    simp only [List.map_cons, List.sum_cons, List.filter_cons]
    by_cases hp : x.IsReady = true ∧ x.Unschedulable = false
    · have hb : (x.IsReady && x.IsSchedulable) = true := by simp [Node.IsSchedulable, hp.1, hp.2]
      rw [hb]
      simp only [if_true, List.length_cons, Nat.cast_add, Nat.cast_one, specNodeAvailable, hp,
        and_self]
      rw [hx.1]
      nlinarith [hx.2]
    · have hb : (x.IsReady && x.IsSchedulable) = false := by
        cases h1 : x.IsReady <;> cases h2 : x.Unschedulable <;> simp_all [Node.IsSchedulable]
      rw [hb]
      simp only [specNodeAvailable, hp, if_false, Bool.false_eq_true]
      omega

theorem specNodeAvailable_sum_ge (r : ResourceName) (cap : Int) (hcap : 0 ≤ cap) :
    ∀ xs : List Node,
      (∀ n ∈ xs, n.ResourceCapacity r = cap ∧ 0 ≤ specUsingResources n r) →
      -(xs.map (fun n => specUsingResources n r)).sum ≤ (xs.map (specNodeAvailable r)).sum := by
  intro xs
  induction xs with
  | nil => intro _; simp
  | cons x rest ih =>
    intro h
    have hx := h x (List.mem_cons_self _ _)
    have hrest := ih (fun n hn => h n (List.mem_cons_of_mem _ hn))
    simp only [List.map_cons, List.sum_cons]
    by_cases hp : x.IsReady = true ∧ x.Unschedulable = false
    · simp only [specNodeAvailable, hp, and_self, if_true]
      rw [hx.1]
      omega
    · simp only [specNodeAvailable, hp, if_false]
      omega

theorem specNodeAvailable_sum_cordoned (r : ResourceName) :
    ∀ xs : List Node, (∀ n ∈ xs, n.Unschedulable = true) →
      (xs.map (specNodeAvailable r)).sum = 0 := by
  intro xs
  induction xs with
  | nil => intro _; rfl
  | cons x rest ih =>
    intro h
    have hx := h x (List.mem_cons_self _ _)
    simp only [List.map_cons, List.sum_cons, ih (fun n hn => h n (List.mem_cons_of_mem _ hn))]
    simp [specNodeAvailable, hx]

theorem cordonOf_unschedulable (P : Platform) (xs us : List Node)
    (h : List.Forall₂ (CordonOf P) xs us) : ∀ u ∈ us, u.Unschedulable = true := by
  induction h with
  | nil => intro u hu; simp at hu
  | cons hab _ ih =>
    intro u hu
    rcases List.mem_cons.mp hu with hu | hu
    · obtain ⟨m, t, txt, _, _, heq⟩ := hab
      rw [hu, heq]
      rfl
    · exact ih u hu

/-- The slot count of a list whose exact available sum `A` is not negative and
below 2^53: the quotient `A / req`. -/
theorem availableSlot_exact (nodes : NodeList) (r : ResourceName) (req : Int)
    (h0 : 0 ≤ (nodes.Nodes.map (specNodeAvailable r)).sum)
    (h1 : (nodes.Nodes.map (specNodeAvailable r)).sum < f64Exact) (hreq : 0 < req) :
    nodes.AvailableSlot ⟨r, req⟩ = some ((nodes.Nodes.map (specNodeAvailable r)).sum / req) := by
  have hA := availableResource_eq_spec nodes r
  simp only [f64Exact] at h1
  rw [wrap64_of_range _ (by omega) (by omega)] at hA
  have hq0 : 0 ≤ (nodes.Nodes.map (specNodeAvailable r)).sum / req :=
    Int.ediv_nonneg h0 (by omega)
  have hq1 := Int.ediv_le_self req h0
  simp only [NodeList.AvailableSlot, hA]
  rw [if_neg (by omega), Int.tdiv_eq_ediv h0 (by omega), wrap64_of_range _ (by omega) (by omega)]

/-- A positive slot count of a list whose exact available sum `A` is between
-2^53 and 2^53: `A` is not negative and the count is `A / req`. -/
theorem availableSlot_pos_exact (nodes : NodeList) (r : ResourceName) (req a : Int)
    (h0 : -f64Exact < (nodes.Nodes.map (specNodeAvailable r)).sum)
    (h1 : (nodes.Nodes.map (specNodeAvailable r)).sum < f64Exact) (hreq : 0 < req)
    (hslot : nodes.AvailableSlot ⟨r, req⟩ = some a) (ha : 0 < a) :
    0 ≤ (nodes.Nodes.map (specNodeAvailable r)).sum ∧
      a = (nodes.Nodes.map (specNodeAvailable r)).sum / req := by
  by_cases hA0 : 0 ≤ (nodes.Nodes.map (specNodeAvailable r)).sum
  · refine ⟨hA0, ?_⟩
    rw [availableSlot_exact nodes r req hA0 h1 hreq] at hslot
    exact (Option.some.inj hslot).symm
  · exfalso
    have hA := availableResource_eq_spec nodes r
    simp only [f64Exact] at h0 h1
    rw [wrap64_of_range _ (by omega) (by omega)] at hA
    simp only [NodeList.AvailableSlot, hA] at hslot
    rw [if_neg (by omega)] at hslot
    have hneg : Int.tdiv (nodes.Nodes.map (specNodeAvailable r)).sum req
        = -((-(nodes.Nodes.map (specNodeAvailable r)).sum) / req) := by
      rw [← Int.tdiv_eq_ediv (by omega) (by omega), Int.neg_tdiv, neg_neg]
    have hq0 : 0 ≤ (-(nodes.Nodes.map (specNodeAvailable r)).sum) / req :=
      Int.ediv_nonneg (by omega) (by omega)
    have hq1 := Int.ediv_le_self req (a := -(nodes.Nodes.map (specNodeAvailable r)).sum) (by omega)
    rw [hneg, wrap64_of_range _ (by omega) (by omega)] at hslot
    have := Option.some.inj hslot
    omega

/-- The number of nodes `checkForUnscheduling` slices off for the excess of a
list of uniform capacity: the quotient of the excess by the capacity, which is
at most the number of available nodes, and taking that many nodes of any
permutation of the list leaves at least `req * buf` available. -/
theorem scaleDown_count (P : Platform) (nodes : NodeList) (first : Node) (rest : List Node)
    (cap req buf a : Int)
    (hnodes : nodes.Nodes = first :: rest)
    (hcap : ∀ n ∈ nodes.Nodes, n.ResourceCapacity ResourceCPU = cap) (hcap0 : 0 < cap)
    (hlim : ∀ n ∈ nodes.Nodes, ∀ pod ∈ n.Pods, ∀ c ∈ pod.Containers,
      0 ≤ (mapGet c.Limits ResourceCPU).getD 0)
    (hreq : 0 < req) (hbuf : 0 ≤ buf)
    (hsize : (nodes.Nodes.length : Int) * cap < f64Exact)
    (huse : (nodes.Nodes.map (fun n => specUsingResources n ResourceCPU)).sum < f64Exact)
    (hslot : nodes.AvailableSlot ⟨ResourceCPU, req⟩ = some a) (hgt : buf < a) :
    0 ≤ minExtraNodes P first [⟨ResourceCPU, wrap64 (req * wrap64 (a - buf))⟩] 0 ∧
    minExtraNodes P first [⟨ResourceCPU, wrap64 (req * wrap64 (a - buf))⟩] 0
      ≤ nodes.AvailableNodes.length ∧
    minExtraNodes P first [⟨ResourceCPU, wrap64 (req * wrap64 (a - buf))⟩] 0 * cap
      ≤ (nodes.Nodes.map (specNodeAvailable ResourceCPU)).sum - req * buf ∧
    (nodes.Nodes.map (specNodeAvailable ResourceCPU)).sum < f64Exact := by
  have hall : ∀ n ∈ nodes.Nodes, n.ResourceCapacity ResourceCPU = cap ∧
      0 ≤ specUsingResources n ResourceCPU :=
    fun n hn => ⟨hcap n hn, specUsingResources_nonneg n ResourceCPU (hlim n hn)⟩
  have hle := specNodeAvailable_sum_le ResourceCPU cap nodes.Nodes hall
  have hge := specNodeAvailable_sum_ge ResourceCPU cap (by omega) nodes.Nodes hall
  have hfl : ((nodes.Nodes.filter (fun node => node.IsReady && node.IsSchedulable)).length : Int)
      ≤ nodes.Nodes.length := by
    exact_mod_cast List.length_filter_le _ _
  have hfc : ((nodes.Nodes.filter (fun node => node.IsReady && node.IsSchedulable)).length : Int)
      * cap ≤ (nodes.Nodes.length : Int) * cap :=
    mul_le_mul_of_nonneg_right hfl (by omega)
  have hA1 : (nodes.Nodes.map (specNodeAvailable ResourceCPU)).sum < f64Exact := by omega
  obtain ⟨hA0, ha⟩ := availableSlot_pos_exact nodes ResourceCPU req a (by omega) hA1 hreq hslot
    (by omega)
  have hmul : a * req ≤ (nodes.Nodes.map (specNodeAvailable ResourceCPU)).sum := by
    rw [ha]
    exact Int.ediv_mul_le _ (by omega)
  have hlen1 : (1 : Int) ≤ nodes.Nodes.length := by
    rw [hnodes]
    simp
  have hcapb : cap < f64Exact := by nlinarith
  have hv0 : 0 ≤ req * (a - buf) := mul_nonneg (by omega) (by omega)
  have hv1 : req * (a - buf) ≤ (nodes.Nodes.map (specNodeAvailable ResourceCPU)).sum - req * buf := by
    nlinarith
  have hrb : 0 ≤ req * buf := mul_nonneg (by omega) hbuf
  simp only [f64Exact] at hA1 hcapb hsize huse
  have hw1 : wrap64 (a - buf) = a - buf := by
    have : a ≤ (nodes.Nodes.map (specNodeAvailable ResourceCPU)).sum := by
      rw [ha]
      exact Int.ediv_le_self req hA0
    exact wrap64_of_range _ (by omega) (by omega)
  have hw2 : wrap64 (req * (a - buf)) = req * (a - buf) :=
    wrap64_of_range _ (by omega) (by omega)
  have hfirst : first.ResourceCapacity ResourceCPU = cap :=
    hcap first (by rw [hnodes]; exact List.mem_cons_self _ _)
  have hk : minExtraNodes P first [⟨ResourceCPU, wrap64 (req * wrap64 (a - buf))⟩] 0
      = req * (a - buf) / cap := by
    simp only [minExtraNodes, if_true, hw1, hw2, hfirst]
    unfold floorDiv
    have h1 : |req * (a - buf)| < f64Exact := by
      rw [abs_lt]
      simp only [f64Exact]
      constructor <;> omega
    have h2 : |cap| < f64Exact := by
      rw [abs_lt]
      simp only [f64Exact]
      constructor <;> omega
    have h3 : cap ≠ 0 := by omega
    simp only [h1, h2, h3, ne_eq, not_false_eq_true, and_self, if_true]
    exact Int.fdiv_eq_ediv _ (by omega)
  rw [hk]
  have hkc : req * (a - buf) / cap * cap ≤ req * (a - buf) := Int.ediv_mul_le _ (by omega)
  refine ⟨Int.ediv_nonneg hv0 (by omega), ?_, by omega, by simp only [f64Exact]; exact hA1⟩
  have hlt : req * (a - buf) / cap * cap
      ≤ ((nodes.Nodes.filter (fun node => node.IsReady && node.IsSchedulable)).length : Int)
        * cap := by omega
  exact le_of_mul_le_mul_right hlt hcap0

theorem deleteExtraNodes_no_panic {σ : Type} (P : Platform) (E : Env σ) (cfg : Config)
    (s : Sys σ) : (deleteExtraNodes P E cfg s).1 ≠ Outcome.panic := by
  unfold deleteExtraNodes
  split
  · simp
  · split
    · simp
    · split <;> simp

theorem markNodeAsSchedulable_no_panic {σ : Type} (P : Platform) (E : Env σ) (n : Node)
    (s : Sys σ) (h : n.Annotations ≠ none) : (markNodeAsSchedulable P E n s).1 ≠ Outcome.panic := by
  obtain ⟨m, hm⟩ := Option.ne_none_iff_exists'.mp h
  unfold markNodeAsSchedulable Node.MarkAsSchedulable Node.mark
  cases P.marshalText (callNow E s).1 <;> simp [hm]

theorem markNodeAsUnschedulable_no_panic {σ : Type} (P : Platform) (E : Env σ) (n : Node)
    (s : Sys σ) (h : n.Annotations ≠ none) :
    (markNodeAsUnschedulable P E n s).1 ≠ Outcome.panic := by
  obtain ⟨m, hm⟩ := Option.ne_none_iff_exists'.mp h
  unfold markNodeAsUnschedulable Node.MarkAsUnschedulable Node.mark
  cases P.marshalText (callNow E s).1 <;> simp [hm]

theorem markNodeAsSchedulable_length (P : Platform)
    (resize : Int → List Node → Option Error × List Node)
    (delete : List String → List Node → Option Error × List Node) (n : Node) (s : Sys Pool) :
    (markNodeAsSchedulable P (persistentEnv resize delete) n s).2.st.nodes.length
      = s.st.nodes.length := by
  unfold markNodeAsSchedulable Node.MarkAsSchedulable Node.mark
  cases P.marshalText (callNow (persistentEnv resize delete) s).1 with
  | error err => simp [callNow, persistentEnv]
  | ok t =>
    cases n.Annotations with
    | none => simp [callNow, persistentEnv]
    | some m => simp [callNow, callUpdateNode, persistentEnv]

theorem uncordonLoop_no_panic (P : Platform)
    (resize : Int → List Node → Option Error × List Node)
    (delete : List String → List Node → Option Error × List Node)
    (resources : List (ResourceName × Int)) (needsLen : Nat) :
    ∀ (xs : List Node) (enough : List ResourceName) (s : Sys Pool),
      (∀ n ∈ xs, n.Annotations ≠ none) →
      (uncordonLoop P (persistentEnv resize delete) resources needsLen xs enough s).1
          ≠ Outcome.panic ∧
        (uncordonLoop P (persistentEnv resize delete) resources needsLen xs enough s).2.st.nodes.length
          = s.st.nodes.length := by
  intro xs
  induction xs with
  | nil => intro enough s _; simp [uncordonLoop]
  | cons n rest ih =>
    intro enough s hann
    have h1 := markNodeAsSchedulable_no_panic P (persistentEnv resize delete) n s
      (hann n (List.mem_cons_self _ _))
    have h2 := markNodeAsSchedulable_length P resize delete n s
    rw [uncordonLoop]
    split
    · rename_i s1 h
      rw [h] at h1
      exact absurd rfl h1
    · rename_i err s1 h
      rw [h] at h2
      exact ⟨by simp, h2⟩
    · rename_i s1 h
      rw [h] at h2
      split
      · exact ⟨by simp, h2⟩
      · obtain ⟨h3, h4⟩ := ih (enoughLoop n needsLen (P.rangeOrder resources) enough).1 s1
          (fun k hk => hann k (List.mem_cons_of_mem _ hk))
        exact ⟨h3, by rw [h4]; exact h2⟩

theorem checkForScheduling_no_panic (P : Platform)
    (resize : Int → List Node → Option Error × List Node)
    (delete : List String → List Node → Option Error × List Node) (nodes : NodeList)
    (need : Resource) (rest : List Resource) (s : Sys Pool)
    (hann : ∀ n ∈ nodes.Nodes, n.Annotations ≠ none) :
    (checkForScheduling P (persistentEnv resize delete) nodes (need :: rest) s).1
        ≠ Outcome.panic ∧
      (checkForScheduling P (persistentEnv resize delete) nodes (need :: rest) s).2.st.nodes.length
        = s.st.nodes.length := by
  unfold checkForScheduling
  simp only
  split
  · simp
  · apply uncordonLoop_no_panic
    intro n hn
    have h1 : n ∈ nodes.UnschedulableNodes :=
      (P.sortSlice_perm _ nodes.UnschedulableNodes).subset hn
    exact hann n (List.mem_of_mem_filter h1)

theorem cordonLoop_no_panic {σ : Type} (P : Platform) (E : Env σ) :
    ∀ (xs : List Node) (s : Sys σ), (∀ n ∈ xs, n.Annotations ≠ none) →
      (cordonLoop P E xs s).1 ≠ Outcome.panic := by
  intro xs
  induction xs with
  | nil => intro s _; simp [cordonLoop]
  | cons n rest ih =>
    intro s hann
    have h1 := markNodeAsUnschedulable_no_panic P E n s (hann n (List.mem_cons_self _ _))
    rw [cordonLoop]
    split
    · rename_i s1 h
      rw [h] at h1
      exact absurd rfl h1
    · simp
    · exact ih _ (fun k hk => hann k (List.mem_cons_of_mem _ hk))

theorem checkForUnscheduling_no_panic {σ : Type} (P : Platform) (E : Env σ) (nodes : NodeList)
    (first : Node) (tl : List Node) (r : Resource) (s : Sys σ)
    (hnodes : nodes.Nodes = first :: tl)
    (hann : ∀ n ∈ nodes.Nodes, n.Annotations ≠ none)
    (hk : minExtraNodes P first [r] 0 ≤ nodes.Nodes.length) :
    (checkForUnscheduling P E nodes [r] s).1 ≠ Outcome.panic := by
  unfold checkForUnscheduling
  rw [hnodes]
  simp only
  rw [hnodes] at hk
  split
  · simp
  · rw [if_neg (by omega)]
    apply cordonLoop_no_panic
    intro n hn
    have h1 : n ∈ SortNodesByPods P (first :: tl) := List.mem_of_mem_take hn
    have h2 : n ∈ first :: tl := (P.sortSlice_perm _ (first :: tl)).subset h1
    exact hann n (by rw [hnodes]; exact h2)

theorem scaleUp_no_panic (P : Platform)
    (resize : Int → List Node → Option Error × List Node)
    (delete : List String → List Node → Option Error × List Node) (cfg : Config) (s : Sys Pool)
    (hne : s.st.nodes ≠ []) (hreq : cfg.PodCPURequest ≠ 0) :
    (scaleUp P (persistentEnv resize delete) cfg s).1 ≠ Outcome.panic := by
  have hslot : NodeList.AvailableSlot ⟨s.st.nodes⟩ ⟨ResourceCPU, cfg.PodCPURequest⟩
      = some (wrap64 (Int.tdiv (NodeList.AvailableResource ⟨s.st.nodes⟩ ResourceCPU)
          cfg.PodCPURequest)) := by
    simp [NodeList.AvailableSlot, hreq]
  obtain ⟨size, hsize⟩ := resizeTarget_isSome P cfg ⟨s.st.nodes⟩
    [⟨ResourceCPU, wrap64 (cfg.PodCPURequest * wrap64 (cfg.BufferSlotSize
      - wrap64 (Int.tdiv (NodeList.AvailableResource ⟨s.st.nodes⟩ ResourceCPU)
          cfg.PodCPURequest)))⟩] hne
  rw [scaleUp_resizes P (persistentEnv resize delete) cfg s ⟨s.st.nodes⟩ _ size rfl hslot hsize]
  exact deleteExtraNodes_no_panic _ _ _ _

theorem specNodeAvailable_le_cap (r : ResourceName) (cap : Int) (n : Node)
    (h1 : n.ResourceCapacity r = cap) (h2 : 0 ≤ specUsingResources n r) (hcap : 0 ≤ cap) :
    specNodeAvailable r n ≤ cap := by
  unfold specNodeAvailable
  split
  · omega
  · exact hcap

theorem specNodeAvailable_cordoned (r : ResourceName) (n : Node) (h : n.Unschedulable = true) :
    specNodeAvailable r n = 0 := by
  simp [specNodeAvailable, h]

/-- Storing a cordoned node under its name in a pool of distinct names and
uniform capacity takes at most one node's capacity off the available sum. -/
theorem replace_sum_ge (r : ResourceName) (cap : Int) (hcap : 0 ≤ cap) (u : Node)
    (hu : u.Unschedulable = true) :
    ∀ l : List Node, (l.map (fun n => n.Name)).Nodup →
      (∀ m ∈ l, m.ResourceCapacity r = cap ∧ 0 ≤ specUsingResources m r) →
      (l.map (specNodeAvailable r)).sum - cap
        ≤ ((l.map (fun m => if m.Name = u.Name then u else m)).map (specNodeAvailable r)).sum := by
  intro l
  induction l with
  | nil => intro _ _; simpa using hcap
  | cons m rest ih =>
    intro hnd hall
    simp only [List.map_cons, List.nodup_cons] at hnd
    have hm := hall m (List.mem_cons_self _ _)
    have hrest : ∀ x ∈ rest, x.ResourceCapacity r = cap ∧ 0 ≤ specUsingResources x r :=
      fun x hx => hall x (List.mem_cons_of_mem _ hx)
    simp only [List.map_cons, List.sum_cons]
    by_cases hname : m.Name = u.Name
    · have hid : rest.map (fun x => if x.Name = u.Name then u else x) = rest := by
        conv_rhs => rw [← List.map_id rest]
        apply List.map_congr_left
        intro x hx
        have : x.Name ≠ u.Name := by
          intro hxu
          apply hnd.1
          rw [hname, ← hxu]
          exact List.mem_map_of_mem (fun n => n.Name) hx
        simp [this]
      rw [if_pos hname, hid, specNodeAvailable_cordoned r u hu]
      have := specNodeAvailable_le_cap r cap m hm.1 hm.2 hcap
      omega
    · rw [if_neg hname]
      have := ih hnd.2 hrest
      omega

theorem replace_names (u : Node) (l : List Node) :
    (l.map (fun m => if m.Name = u.Name then u else m)).map (fun n => n.Name)
      = l.map (fun n => n.Name) := by
  rw [List.map_map]
  apply List.map_congr_left
  intro x _
  simp only [Function.comp]
  split
  · rename_i h; exact h.symm
  · rfl

theorem markNodeAsUnschedulable_nodes (P : Platform)
    (resize : Int → List Node → Option Error × List Node)
    (delete : List String → List Node → Option Error × List Node) (n : Node) (s : Sys Pool) :
    (markNodeAsUnschedulable P (persistentEnv resize delete) n s).2.st.nodes = s.st.nodes ∨
    ∃ m txt, (markNodeAsUnschedulable P (persistentEnv resize delete) n s).2.st.nodes
      = s.st.nodes.map (fun x =>
          if x.Name = (Node.withMark n true m txt).Name then Node.withMark n true m txt else x) := by
  unfold markNodeAsUnschedulable Node.MarkAsUnschedulable Node.mark
  cases P.marshalText (callNow (persistentEnv resize delete) s).1 with
  | error err => left; simp [callNow, persistentEnv]
  | ok t =>
    cases hann : n.Annotations with
    | none => left; simp [callNow, persistentEnv]
    | some m =>
      right
      exact ⟨m, t, by simp [callNow, callUpdateNode, persistentEnv, Node.withMark]⟩

/-- The cordon loop over a persistent orchestrator whose nodes have distinct
names and the capacity `cap`: names and uniformity are kept, and the available
sum drops by at most `cap` for each node of the loop. -/
theorem cordonLoop_keeps_available (P : Platform)
    (resize : Int → List Node → Option Error × List Node)
    (delete : List String → List Node → Option Error × List Node) (cap : Int) (hcap : 0 ≤ cap) :
    ∀ (xs : List Node) (s : Sys Pool),
      (s.st.nodes.map (fun n => n.Name)).Nodup →
      (∀ m ∈ s.st.nodes, m.ResourceCapacity ResourceCPU = cap ∧
        0 ≤ specUsingResources m ResourceCPU) →
      (∀ n ∈ xs, n.ResourceCapacity ResourceCPU = cap ∧ 0 ≤ specUsingResources n ResourceCPU) →
      (cordonLoop P (persistentEnv resize delete) xs s).2.st.nodes.map (fun n => n.Name)
          = s.st.nodes.map (fun n => n.Name) ∧
        (∀ m ∈ (cordonLoop P (persistentEnv resize delete) xs s).2.st.nodes,
          m.ResourceCapacity ResourceCPU = cap ∧ 0 ≤ specUsingResources m ResourceCPU) ∧
        (s.st.nodes.map (specNodeAvailable ResourceCPU)).sum - (xs.length : Int) * cap
          ≤ ((cordonLoop P (persistentEnv resize delete) xs s).2.st.nodes.map
              (specNodeAvailable ResourceCPU)).sum := by
  intro xs
  induction xs with
  | nil =>
    intro s _ hall _
    simp only [cordonLoop, List.length_nil, Nat.cast_zero, zero_mul, sub_zero, le_refl, and_true,
      true_and]
    exact hall
  | cons n rest ih =>
    intro s hnd hall hxs
    have hn := hxs n (List.mem_cons_self _ _)
    have hrest : ∀ x ∈ rest, x.ResourceCapacity ResourceCPU = cap ∧
        0 ≤ specUsingResources x ResourceCPU := fun x hx => hxs x (List.mem_cons_of_mem _ hx)
    have hstep : (markNodeAsUnschedulable P (persistentEnv resize delete) n s).2.st.nodes.map
          (fun n => n.Name) = s.st.nodes.map (fun n => n.Name) ∧
        (∀ m ∈ (markNodeAsUnschedulable P (persistentEnv resize delete) n s).2.st.nodes,
          m.ResourceCapacity ResourceCPU = cap ∧ 0 ≤ specUsingResources m ResourceCPU) ∧
        (s.st.nodes.map (specNodeAvailable ResourceCPU)).sum - cap
          ≤ ((markNodeAsUnschedulable P (persistentEnv resize delete) n s).2.st.nodes.map
              (specNodeAvailable ResourceCPU)).sum := by
      rcases markNodeAsUnschedulable_nodes P resize delete n s with h | ⟨m, txt, h⟩
      · rw [h]
        exact ⟨rfl, hall, by omega⟩
      · rw [h]
        refine ⟨replace_names _ _, ?_, replace_sum_ge ResourceCPU cap hcap _ rfl _ hnd hall⟩
        intro x hx
        rw [List.mem_map] at hx
        obtain ⟨y, hy, rfl⟩ := hx
        split
        · exact hn
        · exact hall y hy
    simp only [List.length_cons, Nat.cast_add, Nat.cast_one]
    rw [cordonLoop]
    split
    · rename_i s1 h
      rw [h] at hstep
      refine ⟨hstep.1, hstep.2.1, ?_⟩
      have := hstep.2.2
      have h0 : 0 ≤ (rest.length : Int) * cap := mul_nonneg (by omega) hcap
      simp only at this ⊢
      linarith
    · rename_i err s1 h
      rw [h] at hstep
      refine ⟨hstep.1, hstep.2.1, ?_⟩
      have := hstep.2.2
      have h0 : 0 ≤ (rest.length : Int) * cap := mul_nonneg (by omega) hcap
      simp only at this ⊢
      linarith
    · rename_i s1 h
      rw [h] at hstep
      simp only at hstep
      obtain ⟨h1, h2, h3⟩ := ih s1 (by rw [hstep.1]; exact hnd) hstep.2.1 hrest
      refine ⟨by rw [h1, hstep.1], h2, ?_⟩
      have := hstep.2.2
      linarith

theorem deleteLoop_nodes (P : Platform)
    (resize : Int → List Node → Option Error × List Node)
    (delete : List String → List Node → Option Error × List Node) (cfg : Config) :
    ∀ (walked : List Node) (l : Int) (acc : List String) (s : Sys Pool),
      (deleteLoop P (persistentEnv resize delete) cfg walked l acc s).2.st.nodes = s.st.nodes := by
  intro walked
  induction walked with
  | nil => intro l acc s; rfl
  | cons node rest ih =>
    intro l acc s
    rw [deleteLoop]
    split
    · rfl
    · split
      · split
        · split
          · rfl
          · rw [ih]; rfl
        · rw [ih]; rfl
      · rw [ih]; rfl

theorem sum_filter_of_zero {α : Type} (p : α → Bool) (g : α → Int) :
    ∀ l : List α, (∀ x ∈ l, p x = false → g x = 0) →
      ((l.filter p).map g).sum = (l.map g).sum := by
  intro l
  induction l with
  | nil => intro _; rfl
  | cons x rest ih =>
    intro h
    have hrest := ih (fun y hy => h y (List.mem_cons_of_mem _ hy))
    cases hp : p x with
    | true => simp [List.filter_cons, hp, hrest]
    | false =>
      have := h x (List.mem_cons_self _ _) hp
      simp [List.filter_cons, hp, hrest, this]

/-- What `deleteExtraNodes` leaves of the available sum over a persistent
orchestrator with distinct node names, when the provider removes the named
nodes or none: the names it passes are names of cordoned nodes, so the sum is
unchanged; and the list is a sublist of the one stored. -/
theorem deleteExtraNodes_keeps_available (P : Platform)
    (resize : Int → List Node → Option Error × List Node)
    (delete : List String → List Node → Option Error × List Node) (cfg : Config) (s : Sys Pool)
    (r : ResourceName)
    (hnames : (s.st.nodes.map (fun n => n.Name)).Nodup)
    (hdel : ∀ ids l, (delete ids l).2 = l ∨ (delete ids l).2 = l.filter (fun n => n.Name ∉ ids)) :
    ((deleteExtraNodes P (persistentEnv resize delete) cfg s).2.st.nodes.map
        (specNodeAvailable r)).sum = (s.st.nodes.map (specNodeAvailable r)).sum ∧
    List.Sublist (deleteExtraNodes P (persistentEnv resize delete) cfg s).2.st.nodes
      s.st.nodes := by
  unfold deleteExtraNodes
  have hread : callNodes (persistentEnv resize delete) cfg.NodeSelector s
      = (Except.ok ⟨s.st.nodes⟩, ⟨s.st, s.calls ++ [Call.Nodes cfg.NodeSelector]⟩) := rfl
  rw [hread]
  simp only
  split
  · exact ⟨rfl, List.Sublist.refl _⟩
  · have hn := deleteLoop_nodes P resize delete cfg (NodeList.UnschedulableNodes ⟨s.st.nodes⟩)
      s.st.nodes.length [] ⟨s.st, s.calls ++ [Call.Nodes cfg.NodeSelector]⟩
    split
    · rename_i err s2 h
      rw [h] at hn
      simp only at hn
      rw [hn]
      exact ⟨rfl, List.Sublist.refl _⟩
    · rename_i ids s2 h
      rw [h] at hn
      simp only at hn
      obtain ⟨extra, -, -, hel, -⟩ := deleteLoop_spec P (persistentEnv resize delete) cfg _ _ _ _
        _ _ h
      have hst : (callDeleteNodes (persistentEnv resize delete) ids s2).2.st.nodes
          = (delete ids s2.st.nodes).2 := rfl
      rw [hst, hn]
      rcases hdel ids s.st.nodes with hd | hd
      · rw [hd]
        exact ⟨rfl, List.Sublist.refl _⟩
      · rw [hd]
        refine ⟨?_, List.filter_sublist _⟩
        apply sum_filter_of_zero
        intro x hx hp
        have hmem : x.Name ∈ ids := by simpa using hp
        rcases hel _ hmem with h0 | ⟨node, hnode, hname, -⟩
        · simp at h0
        · have hnode2 : node ∈ s.st.nodes ∧ node.Unschedulable = true := by
            simpa [NodeList.UnschedulableNodes, Node.IsSchedulable] using hnode
          have hxn : x = node :=
            List.inj_on_of_nodup_map hnames hx hnode2.1 hname.symm
          rw [hxn]
          exact specNodeAvailable_cordoned r node hnode2.2

/-- The cordon step of `scale()` on a persistent orchestrator: names and
uniformity are kept and at least `req * buf` stays available. -/
theorem checkForUnscheduling_keeps_available (P : Platform)
    (resize : Int → List Node → Option Error × List Node)
    (delete : List String → List Node → Option Error × List Node) (s : Sys Pool)
    (cap req buf a : Int)
    (hnames : (s.st.nodes.map (fun n => n.Name)).Nodup)
    (hcap : ∀ n ∈ s.st.nodes, n.ResourceCapacity ResourceCPU = cap) (hcap0 : 0 < cap)
    (hlim : ∀ n ∈ s.st.nodes, ∀ pod ∈ n.Pods, ∀ c ∈ pod.Containers,
      0 ≤ (mapGet c.Limits ResourceCPU).getD 0)
    (hreq : 0 < req) (hbuf : 0 ≤ buf)
    (hsize : (s.st.nodes.length : Int) * cap < f64Exact)
    (huse : (s.st.nodes.map (fun n => specUsingResources n ResourceCPU)).sum < f64Exact)
    (hslot : NodeList.AvailableSlot ⟨s.st.nodes⟩ ⟨ResourceCPU, req⟩ = some a) (hgt : buf < a) :
    (checkForUnscheduling P (persistentEnv resize delete) ⟨s.st.nodes⟩
        [⟨ResourceCPU, wrap64 (req * wrap64 (a - buf))⟩] s).2.st.nodes.map (fun n => n.Name)
      = s.st.nodes.map (fun n => n.Name) ∧
    (∀ m ∈ (checkForUnscheduling P (persistentEnv resize delete) ⟨s.st.nodes⟩
        [⟨ResourceCPU, wrap64 (req * wrap64 (a - buf))⟩] s).2.st.nodes,
      m.ResourceCapacity ResourceCPU = cap ∧ 0 ≤ specUsingResources m ResourceCPU) ∧
    req * buf ≤ ((checkForUnscheduling P (persistentEnv resize delete) ⟨s.st.nodes⟩
        [⟨ResourceCPU, wrap64 (req * wrap64 (a - buf))⟩] s).2.st.nodes.map
          (specNodeAvailable ResourceCPU)).sum := by
  have hall : ∀ n ∈ s.st.nodes, n.ResourceCapacity ResourceCPU = cap ∧
      0 ≤ specUsingResources n ResourceCPU :=
    fun n hn => ⟨hcap n hn, specUsingResources_nonneg n ResourceCPU (hlim n hn)⟩
  cases hnodes : s.st.nodes with
  | nil =>
    exfalso
    rw [hnodes] at hslot
    have h0 := availableSlot_pos_exact ⟨[]⟩ ResourceCPU req a (by simp [f64Exact])
      (by simp [f64Exact]) hreq hslot (by omega)
    simp at h0
    omega
  | cons first rest =>
    obtain ⟨hk0, -, hkc, -⟩ := scaleDown_count P ⟨s.st.nodes⟩ first rest cap req buf a hnodes
      hcap hcap0 hlim hreq hbuf hsize huse hslot hgt
    have hkcap : 0 ≤ minExtraNodes P first [⟨ResourceCPU, wrap64 (req * wrap64 (a - buf))⟩] 0
        * cap := mul_nonneg hk0 (le_of_lt hcap0)
    rw [← hnodes]
    unfold checkForUnscheduling
    simp only [hnodes]
    rw [← hnodes]
    split
    · refine ⟨rfl, hall, ?_⟩
      show req * buf ≤ (s.st.nodes.map (specNodeAvailable ResourceCPU)).sum
      simp only at hkc
      omega
    · split
      · refine ⟨rfl, hall, ?_⟩
        show req * buf ≤ (s.st.nodes.map (specNodeAvailable ResourceCPU)).sum
        simp only at hkc
        omega
      · have hperm : (SortNodesByPods P s.st.nodes).Perm s.st.nodes := P.sortSlice_perm _ _
        obtain ⟨h1, h2, h3⟩ := cordonLoop_keeps_available P resize delete cap (le_of_lt hcap0)
          ((SortNodesByPods P s.st.nodes).take
            (minExtraNodes P first [⟨ResourceCPU, wrap64 (req * wrap64 (a - buf))⟩] 0).toNat)
          s hnames hall (fun n hn => hall n (hperm.subset (List.mem_of_mem_take hn)))
        refine ⟨h1, h2, ?_⟩
        have hl := List.length_take_le
          (minExtraNodes P first [⟨ResourceCPU, wrap64 (req * wrap64 (a - buf))⟩] 0).toNat
          (SortNodesByPods P s.st.nodes)
        have ht := Int.toNat_of_nonneg hk0
        have hlc : (((SortNodesByPods P s.st.nodes).take
            (minExtraNodes P first [⟨ResourceCPU, wrap64 (req * wrap64 (a - buf))⟩] 0).toNat).length
              : Int) * cap
            ≤ minExtraNodes P first [⟨ResourceCPU, wrap64 (req * wrap64 (a - buf))⟩] 0 * cap :=
          mul_le_mul_of_nonneg_right (by omega) (le_of_lt hcap0)
        simp only at hkc
        linarith

/-- The slot count of a stored list of uniform capacity on which at least
`req * buf` is available: at least `buf`. -/
theorem availableSlot_ge_buffer (l : List Node) (cap req buf : Int) (n : Nat)
    (hall : ∀ m ∈ l, m.ResourceCapacity ResourceCPU = cap ∧ 0 ≤ specUsingResources m ResourceCPU)
    (hcap0 : 0 < cap) (hreq : 0 < req) (hbuf : 0 ≤ buf) (hlen : l.length ≤ n)
    (hsize : (n : Int) * cap < f64Exact)
    (hsum : req * buf ≤ (l.map (specNodeAvailable ResourceCPU)).sum) :
    ∃ a2, NodeList.AvailableSlot ⟨l⟩ ⟨ResourceCPU, req⟩ = some a2 ∧ buf ≤ a2 := by
  have hle := specNodeAvailable_sum_le ResourceCPU cap l hall
  have hfl : ((l.filter (fun node => node.IsReady && node.IsSchedulable)).length : Int) ≤ n := by
    have := List.length_filter_le (fun node : Node => node.IsReady && node.IsSchedulable) l
    omega
  have hfc := mul_le_mul_of_nonneg_right hfl (le_of_lt hcap0)
  have hrb : 0 ≤ req * buf := mul_nonneg (le_of_lt hreq) hbuf
  have h0 : 0 ≤ (l.map (specNodeAvailable ResourceCPU)).sum := by omega
  have h1 : (l.map (specNodeAvailable ResourceCPU)).sum < f64Exact := by omega
  refine ⟨_, availableSlot_exact ⟨l⟩ ResourceCPU req h0 h1 hreq, ?_⟩
  apply Int.le_ediv_of_mul_le hreq
  show buf * req ≤ (l.map (specNodeAvailable ResourceCPU)).sum
  linarith

/-- Why a steady pool may hold no cordoned node without workload pods above the
minimum: on three nodes, the third cordoned at instant 6 and empty, the first
pass reads the clock at 5 and 6, deletes nothing and leaves the nodes as they
are; the second pass reads 7 and 8 and deletes `test-node-2`. -/
theorem scale_deletes_on_later_pass :
    (scale stdPlatform mockEnv testConfig ⟨boundaryPool, []⟩).2.st.nodes = boundaryPool.nodes ∧
    (scale stdPlatform mockEnv testConfig
      (scale stdPlatform mockEnv testConfig ⟨boundaryPool, []⟩).2).2.st.nodes.map
        (fun n => n.Name) = ["test-node-0", "test-node-1"] := by
  decide

/-- The loop of `deleteExtraNodes` over a persistent orchestrator gathers no
name when every node it walks carries a workload pod or does not expire before
the last reading of the clock. -/
theorem deleteLoop_unexpired (P : Platform)
    (resize : Int → List Node → Option Error × List Node)
    (delete : List String → List Node → Option Error × List Node) (cfg : Config) :
    ∀ (walked : List Node) (l : Int) (acc : List String) (s : Sys Pool),
      (∀ n ∈ walked, (filterPods cfg n.Pods).length ≠ 0 ∨
        ∀ t, n.SchedulingMarkTimestamp P = Except.ok t →
          (s.st.clock : Int) + 2 * walked.length ≤ t + cfg.EmptyNodeExpiration + 1) →
      (deleteLoop P (persistentEnv resize delete) cfg walked l acc s).1 = Except.ok acc ∨
        ∃ err, (deleteLoop P (persistentEnv resize delete) cfg walked l acc s).1
          = Except.error err := by
  intro walked
  induction walked with
  | nil => intro l acc s _; left; rfl
  | cons node rest ih =>
    intro l acc s h
    have hnode := h node (List.mem_cons_self _ _)
    have hrest := fun n (hn : n ∈ rest) => h n (List.mem_cons_of_mem _ hn)
    simp only [List.length_cons, Nat.cast_add, Nat.cast_one] at hnode hrest
    rw [deleteLoop]
    split
    · rename_i err _
      right
      exact ⟨err, rfl⟩
    · rename_i t ht
      by_cases hw : (filterPods cfg node.Pods).length = 0
      · rw [if_pos hw]
        rcases hnode with hnode | hnode
        · exact absurd hw hnode
        · have hb := hnode t ht
          have hnow : (callNow (persistentEnv resize delete)
              (callNow (persistentEnv resize delete) s).2).1 = (s.st.clock : Int) + 1 := by
            simp [callNow, persistentEnv]
          rw [if_neg (by rw [hnow]; omega)]
          apply ih
          intro n hn
          rcases hrest n hn with h1 | h1
          · exact Or.inl h1
          · right
            intro t1 ht1
            have := h1 t1 ht1
            have hc : ((callNow (persistentEnv resize delete)
                (callNow (persistentEnv resize delete) s).2).2.st.clock : Int)
                = (s.st.clock : Int) + 2 := by
              simp [callNow, persistentEnv]
              ring
            rw [hc]
            omega
      · rw [if_neg hw]
        apply ih
        intro n hn
        rcases hrest n hn with h1 | h1
        · exact Or.inl h1
        · right
          intro t1 ht1
          have := h1 t1 ht1
          have hc : ((callNow (persistentEnv resize delete) s).2.st.clock : Int)
              = (s.st.clock : Int) + 1 := by
            simp [callNow, persistentEnv]
          rw [hc]
          omega

theorem deleteExtraNodes_steady (P : Platform)
    (resize : Int → List Node → Option Error × List Node)
    (delete : List String → List Node → Option Error × List Node) (cfg : Config) (s : Sys Pool)
    (hd : (s.st.nodes.length : Int) ≤ cfg.MinimumNode ∨
      ((delete [] s.st.nodes).2 = s.st.nodes ∧
        ∀ n ∈ s.st.nodes, n.Unschedulable = true →
          (filterPods cfg n.Pods).length ≠ 0 ∨
          ∀ t, n.SchedulingMarkTimestamp P = Except.ok t →
            (s.st.clock : Int) + 2 * (NodeList.UnschedulableNodes ⟨s.st.nodes⟩).length
              ≤ t + cfg.EmptyNodeExpiration + 1)) :
    (deleteExtraNodes P (persistentEnv resize delete) cfg s).2.st.nodes = s.st.nodes := by
  unfold deleteExtraNodes
  have hread : callNodes (persistentEnv resize delete) cfg.NodeSelector s
      = (Except.ok ⟨s.st.nodes⟩, ⟨s.st, s.calls ++ [Call.Nodes cfg.NodeSelector]⟩) := rfl
  rw [hread]
  simp only
  split
  · rfl
  · rename_i hlen
    rcases hd with hd | ⟨hdel, hw⟩
    · exact absurd hd hlen
    · have hn := deleteLoop_nodes P resize delete cfg (NodeList.UnschedulableNodes ⟨s.st.nodes⟩)
        s.st.nodes.length [] ⟨s.st, s.calls ++ [Call.Nodes cfg.NodeSelector]⟩
      have hr := deleteLoop_unexpired P resize delete cfg
        (NodeList.UnschedulableNodes ⟨s.st.nodes⟩) s.st.nodes.length []
        ⟨s.st, s.calls ++ [Call.Nodes cfg.NodeSelector]⟩
        (by
          intro n hn
          have : n ∈ s.st.nodes ∧ n.Unschedulable = true := by
            simpa [NodeList.UnschedulableNodes, Node.IsSchedulable] using hn
          exact hw n this.1 this.2)
      split
      · rename_i err s2 h
        rw [h] at hn
        exact hn
      · rename_i ids s2 h
        rw [h] at hn hr
        simp only at hn hr
        have hids : ids = [] := by
          rcases hr with hr | ⟨err, hr⟩
          · exact (Except.ok.inj hr)
          · exact Except.noConfusion hr
        subst hids
        show (delete [] s2.st.nodes).2 = s.st.nodes
        rw [hn, hdel]

theorem scaleUp_steady (P : Platform)
    (resize : Int → List Node → Option Error × List Node)
    (delete : List String → List Node → Option Error × List Node) (cfg : Config) (s : Sys Pool)
    (a : Int)
    (hslot : NodeList.AvailableSlot ⟨s.st.nodes⟩ ⟨ResourceCPU, cfg.PodCPURequest⟩ = some a)
    (hnone : ∀ n ∈ s.st.nodes, n.Unschedulable = false)
    (hres : ∀ size, resizeTarget P cfg ⟨s.st.nodes⟩
        [⟨ResourceCPU, wrap64 (cfg.PodCPURequest * wrap64 (cfg.BufferSlotSize - a))⟩]
        = some size → (resize size s.st.nodes).2 = s.st.nodes)
    (hd : (s.st.nodes.length : Int) ≤ cfg.MinimumNode ∨ (delete [] s.st.nodes).2 = s.st.nodes) :
    (scaleUp P (persistentEnv resize delete) cfg s).2.st.nodes = s.st.nodes := by
  unfold scaleUp
  have hread : callNodes (persistentEnv resize delete) cfg.NodeSelector s
      = (Except.ok ⟨s.st.nodes⟩, ⟨s.st, s.calls ++ [Call.Nodes cfg.NodeSelector]⟩) := rfl
  rw [hread]
  simp only
  rw [hslot]
  simp only
  unfold increaseNodePoolSize
  cases hrt : resizeTarget P cfg ⟨s.st.nodes⟩
      [⟨ResourceCPU, wrap64 (cfg.PodCPURequest * wrap64 (cfg.BufferSlotSize - a))⟩] with
  | none => rfl
  | some size =>
    have hl : (callResizeNode (persistentEnv resize delete) size
        ⟨s.st, s.calls ++ [Call.Nodes cfg.NodeSelector]⟩).2.st.nodes = s.st.nodes :=
      hres size hrt
    simp only
    rw [deleteExtraNodes_steady P resize delete cfg _ (by
      rw [hl]
      rcases hd with hd | hd
      · exact Or.inl hd
      · refine Or.inr ⟨hd, ?_⟩
        intro n hn hu
        rw [hnone n hn] at hu
        exact Bool.noConfusion hu), hl]

/-- A pass of `scale()` from a steady pool leaves the stored nodes as they are,
however the pass ends. -/
theorem scale_steady (P : Platform)
    (resize : Int → List Node → Option Error × List Node)
    (delete : List String → List Node → Option Error × List Node) (cfg : Config) (s : Sys Pool)
    (h : Steady P resize delete cfg s.st) :
    (scale P (persistentEnv resize delete) cfg s).2.st.nodes = s.st.nodes := by
  obtain ⟨hfloor, hrest⟩ := h
  unfold scale
  have hread : callNodes (persistentEnv resize delete) cfg.NodeSelector s
      = (Except.ok ⟨s.st.nodes⟩, ⟨s.st, s.calls ++ [Call.Nodes cfg.NodeSelector]⟩) := rfl
  rw [hread]
  simp only
  split
  · rename_i hlt
    exact hfloor hlt
  · rename_i hge
    obtain ⟨hslots, hd⟩ := hrest (by omega)
    cases hslot : NodeList.AvailableSlot ⟨s.st.nodes⟩ ⟨ResourceCPU, cfg.PodCPURequest⟩ with
    | none => rfl
    | some a =>
      obtain ⟨hup, hdown⟩ := hslots a hslot
      simp only
      split
      · rename_i hlt
        obtain ⟨hnone, hres⟩ := hup hlt
        rw [checkForScheduling_no_cordoned P (persistentEnv resize delete) ⟨s.st.nodes⟩ hnone]
        simp only
        rw [if_neg (by decide)]
        exact scaleUp_steady P resize delete cfg
          ⟨s.st, s.calls ++ [Call.Nodes cfg.NodeSelector]⟩ a hslot hnone hres
          (by
            rcases hd with hd | hd
            · exact Or.inl hd
            · exact Or.inr hd.1)
      · split
        · rename_i hgt
          cases hnodes : s.st.nodes with
          | nil =>
            simp [checkForUnscheduling, hnodes]
          | cons first rest =>
            have hk := hdown hgt first rest hnodes
            have hc : checkForUnscheduling P (persistentEnv resize delete) ⟨first :: rest⟩
                [⟨ResourceCPU, wrap64 (cfg.PodCPURequest * wrap64 (a - cfg.BufferSlotSize))⟩]
                ⟨s.st, s.calls ++ [Call.Nodes cfg.NodeSelector]⟩
                = (Outcome.ret none, ⟨s.st, s.calls ++ [Call.Nodes cfg.NodeSelector]⟩) := by
              simp [checkForUnscheduling, hk]
            rw [hc]
            simp only
            rw [← hnodes]
            exact deleteExtraNodes_steady P resize delete cfg
              ⟨s.st, s.calls ++ [Call.Nodes cfg.NodeSelector]⟩ hd
        · exact deleteExtraNodes_steady P resize delete cfg
            ⟨s.st, s.calls ++ [Call.Nodes cfg.NodeSelector]⟩ hd

/-- C1. Floor enforcement: when the node list read by `scale()` is shorter than
`MinimumNode`, the calls of the pass are the read of the nodes followed by
`ResizeNode(MinimumNode)` and nothing else (no `UpdateNode`, no `DeleteNodes`),
and `scale()` returns the result of that `ResizeNode` call. -/
theorem scale_floor_enforcement {σ : Type} (P : Platform) (E : Env σ) (cfg : Config) (s : Sys σ)
    (nodes : NodeList) (hread : (E.Nodes cfg.NodeSelector s.st).1 = Except.ok nodes)
    (hlt : (nodes.Nodes.length : Int) < cfg.MinimumNode) :
    callsSince s (scale P E cfg s).2
        = [Call.Nodes cfg.NodeSelector, Call.ResizeNode cfg.MinimumNode] ∧
      (scale P E cfg s).1
        = Outcome.ret (E.ResizeNode cfg.MinimumNode (E.Nodes cfg.NodeSelector s.st).2).1 := by
  refine ⟨callsSince_append _ _ _ ?_, ?_⟩ <;>
    simp [scale, callNodes, hread, hlt, callResizeNode]

/-- Scenario `minimum_scale`: an empty pool with a minimum of 2 is resized to 2. -/
theorem scale_floor_enforcement_witness :
    callsSince ⟨minimumScalePool, []⟩ (scale stdPlatform mockEnv testConfig ⟨minimumScalePool, []⟩).2
        = [Call.Nodes "role=scalable", Call.ResizeNode 2] ∧
      (scale stdPlatform mockEnv testConfig ⟨minimumScalePool, []⟩).1 = Outcome.ret none :=
  scale_floor_enforcement stdPlatform mockEnv testConfig ⟨minimumScalePool, []⟩ ⟨[]⟩ rfl (by decide)

/-- C2. Pool bounds fail at the lower end: with `MinimumNode = 3`,
`MaximumNode = 6` and three nodes that are not ready, `scale()` passes the count 1
to `ResizeNode`, below the minimum. -/
theorem scale_resize_below_minimum :
    callsSince ⟨notReadyPool, []⟩ (scale stdPlatform mockEnv minimumThreeConfig ⟨notReadyPool, []⟩).2
        = [Call.Nodes "role=scalable", Call.Nodes "role=scalable", Call.ResizeNode 1,
            Call.Nodes "role=scalable"] ∧
      (0 : Int) ≤ minimumThreeConfig.MinimumNode ∧
      minimumThreeConfig.MinimumNode ≤ minimumThreeConfig.MaximumNode ∧
      (1 : Int) < minimumThreeConfig.MinimumNode := by
  decide

/-- C3. Deletion eligibility: every name that `deleteExtraNodes` passes to
`DeleteNodes` is the name of a node of the list it read that is cordoned, hosts
no pod whose label `PodLabelName` is present and equal to `PodLabelValue`, and
whose `kubescaler/timestamp` parses to an instant `t` with
`t + EmptyNodeExpiration` earlier than a clock reading taken during the check. -/
theorem deleteExtraNodes_deletes_only_eligible {σ : Type} (P : Platform) (E : Env σ)
    (cfg : Config) (s : Sys σ) (nodes : NodeList)
    (hread : (E.Nodes cfg.NodeSelector s.st).1 = Except.ok nodes) (ids : List String)
    (hcall : Call.DeleteNodes ids ∈ callsSince s (deleteExtraNodes P E cfg s).2)
    (name : String) (hname : name ∈ ids) :
    ∃ node ∈ nodes.Nodes, node.Name = name ∧ node.Unschedulable = true ∧
      (∀ p ∈ node.Pods, mapGet p.Labels cfg.PodLabelName ≠ some cfg.PodLabelValue) ∧
      ∃ t now, node.SchedulingMarkTimestamp P = Except.ok t ∧
        Call.Now now ∈ callsSince s (deleteExtraNodes P E cfg s).2 ∧
        t + cfg.EmptyNodeExpiration < now := by
  obtain ⟨nd, hnd, hn, hp, t, now, ht, hm, hlt⟩ :=
    ((deleteExtraNodes_spec P E cfg s nodes hread).2 ids hcall).2 name hname
  simp only [NodeList.UnschedulableNodes, List.mem_filter, Node.IsSchedulable, Bool.not_not] at hnd
  exact ⟨nd, hnd.1, hn, hnd.2, hp, t, now, ht, hm, hlt⟩

/-- Scenario `scale_down_unschedule_non_dedicated`: the cordoned node deleted
hosts one pod, which lacks the workload label. -/
theorem deleteExtraNodes_deletes_only_eligible_witness :
    ∃ node ∈ nonDedicatedPool.nodes, node.Name = "test-node-2" ∧ node.Unschedulable = true ∧
      (∀ p ∈ node.Pods, mapGet p.Labels "session" ≠ some "dedicated-server") ∧
      ∃ t now, node.SchedulingMarkTimestamp stdPlatform = Except.ok t ∧
        Call.Now now ∈ callsSince ⟨nonDedicatedPool, []⟩
          (deleteExtraNodes stdPlatform mockEnv testConfig ⟨nonDedicatedPool, []⟩).2 ∧
        t + 0 < now :=
  deleteExtraNodes_deletes_only_eligible stdPlatform mockEnv testConfig ⟨nonDedicatedPool, []⟩
    ⟨nonDedicatedPool.nodes⟩ rfl ["test-node-2"] (by decide) "test-node-2" (by decide)

/-- C4. Deletion respects the minimum: on a node list no longer than
`MinimumNode`, `deleteExtraNodes` only reads the nodes and makes no `DeleteNodes`
call; in every case a list it passes to `DeleteNodes` has at most
`len(Nodes) - MinimumNode` names. -/
theorem deleteExtraNodes_respects_minimum {σ : Type} (P : Platform) (E : Env σ) (cfg : Config)
    (s : Sys σ) (nodes : NodeList)
    (hread : (E.Nodes cfg.NodeSelector s.st).1 = Except.ok nodes) :
    ((nodes.Nodes.length : Int) ≤ cfg.MinimumNode →
      callsSince s (deleteExtraNodes P E cfg s).2 = [Call.Nodes cfg.NodeSelector]) ∧
    ∀ ids, Call.DeleteNodes ids ∈ callsSince s (deleteExtraNodes P E cfg s).2 →
      (ids.length : Int) ≤ nodes.Nodes.length - cfg.MinimumNode :=
  ⟨(deleteExtraNodes_spec P E cfg s nodes hread).1,
    fun ids h => ((deleteExtraNodes_spec P E cfg s nodes hread).2 ids h).1⟩

/-- Two cordoned, empty, expired nodes in a pool of three with a minimum of 2:
one name is passed to `DeleteNodes`. -/
theorem deleteExtraNodes_respects_minimum_witness :
    ((3 : Int) ≤ 2 →
      callsSince ⟨twoExpiredPool, []⟩
        (deleteExtraNodes stdPlatform mockEnv testConfig ⟨twoExpiredPool, []⟩).2
        = [Call.Nodes "role=scalable"]) ∧
    ∀ ids, Call.DeleteNodes ids ∈ callsSince ⟨twoExpiredPool, []⟩
        (deleteExtraNodes stdPlatform mockEnv testConfig ⟨twoExpiredPool, []⟩).2 →
      (ids.length : Int) ≤ 3 - 2 :=
  deleteExtraNodes_respects_minimum stdPlatform mockEnv testConfig ⟨twoExpiredPool, []⟩
    ⟨twoExpiredPool.nodes⟩ rfl

/-- C5. Insufficient-capacity sentinel: on a node list without a cordoned node
`checkForScheduling` returns `ErrNotEnoughResources` and makes no call at all;
and when `scale()` reads such a list with `availableSlot < BufferSlotSize`, it
does not return the sentinel but reads the nodes again and, the second list
being non-empty, calls `ResizeNode` with the size `increaseNodePoolSize` computes. -/
theorem scale_swallows_sentinel {σ : Type} (P : Platform) (E : Env σ) (cfg : Config) (s : Sys σ)
    (nodes nodes2 : NodeList) (a : Int)
    (hread : (E.Nodes cfg.NodeSelector s.st).1 = Except.ok nodes)
    (hnone : ∀ node ∈ nodes.Nodes, node.Unschedulable = false)
    (hmin : ¬ (nodes.Nodes.length : Int) < cfg.MinimumNode)
    (hslot : nodes.AvailableSlot ⟨ResourceCPU, cfg.PodCPURequest⟩ = some a)
    (hshort : a < cfg.BufferSlotSize)
    (hread2 : (E.Nodes cfg.NodeSelector (E.Nodes cfg.NodeSelector s.st).2).1 = Except.ok nodes2)
    (hne : nodes2.Nodes ≠ []) :
    (∀ (need : Resource) (rest : List Resource) (s0 : Sys σ),
      checkForScheduling P E nodes (need :: rest) s0
        = (Outcome.ret (some ErrNotEnoughResources), s0)) ∧
    ∃ a2 size tail, nodes2.AvailableSlot ⟨ResourceCPU, cfg.PodCPURequest⟩ = some a2 ∧
      resizeTarget P cfg nodes2
        [⟨ResourceCPU, wrap64 (cfg.PodCPURequest * wrap64 (cfg.BufferSlotSize - a2))⟩]
        = some size ∧
      callsSince s (scale P E cfg s).2
        = [Call.Nodes cfg.NodeSelector, Call.Nodes cfg.NodeSelector, Call.ResizeNode size]
            ++ tail := by
  refine ⟨fun need rest s0 => checkForScheduling_no_cordoned P E nodes hnone need rest s0, ?_⟩
  obtain ⟨a2, ha2⟩ := availableSlot_isSome nodes nodes2 _ a hslot
  obtain ⟨size, hsize⟩ := resizeTarget_isSome P cfg nodes2
    [⟨ResourceCPU, wrap64 (cfg.PodCPURequest * wrap64 (cfg.BufferSlotSize - a2))⟩] hne
  have hup := scaleUp_resizes P E cfg (callNodes E cfg.NodeSelector s).2 nodes2 a2 size
    (by simpa [callNodes] using hread2) ha2 hsize
  obtain ⟨tail, htail⟩ := deleteExtraNodes_calls P E cfg
    ⟨(E.ResizeNode size (E.Nodes cfg.NodeSelector (callNodes E cfg.NodeSelector s).2.st).2).2,
        (callNodes E cfg.NodeSelector s).2.calls ++ [Call.Nodes cfg.NodeSelector, Call.ResizeNode size]⟩
  refine ⟨a2, size, tail, ha2, hsize, callsSince_append _ _ _ ?_⟩
  have hsc : scale P E cfg s = scaleUp P E cfg (callNodes E cfg.NodeSelector s).2 := by
    rw [scale]
    simp only [callNodes, hread] 
    simp [hmin, hslot, hshort, checkForScheduling_no_cordoned P E nodes hnone,
      ErrNotEnoughResources, Error.isNotEnoughResources]
  rw [hsc, hup, htail]
  simp [callNodes]

/-- Scenario `scale_up`: two nodes with 9 and 8 pods of 100m on 1000m nodes and
a buffer of 4 (3 slots available) are resized to 3. -/
theorem scale_swallows_sentinel_witness :
    ((∀ (need : Resource) (rest : List Resource) (s0 : Sys Pool),
        checkForScheduling stdPlatform mockEnv ⟨scaleUpPool.nodes⟩ (need :: rest) s0
          = (Outcome.ret (some ErrNotEnoughResources), s0)) ∧
      ∃ a2 size tail,
        NodeList.AvailableSlot ⟨scaleUpPool.nodes⟩ ⟨ResourceCPU, 100⟩ = some a2 ∧
        resizeTarget stdPlatform testConfig ⟨scaleUpPool.nodes⟩
          [⟨ResourceCPU, wrap64 (100 * wrap64 (4 - a2))⟩] = some size ∧
        callsSince ⟨scaleUpPool, []⟩ (scale stdPlatform mockEnv testConfig ⟨scaleUpPool, []⟩).2
          = [Call.Nodes "role=scalable", Call.Nodes "role=scalable", Call.ResizeNode size]
              ++ tail) ∧
    NodeList.AvailableSlot ⟨scaleUpPool.nodes⟩ ⟨ResourceCPU, 100⟩ = some 3 ∧
    callsSince ⟨scaleUpPool, []⟩ (scale stdPlatform mockEnv testConfig ⟨scaleUpPool, []⟩).2
      = [Call.Nodes "role=scalable", Call.Nodes "role=scalable", Call.ResizeNode 3,
          Call.Nodes "role=scalable", Call.DeleteNodes []] :=
  ⟨scale_swallows_sentinel stdPlatform mockEnv testConfig ⟨scaleUpPool, []⟩
      ⟨scaleUpPool.nodes⟩ ⟨scaleUpPool.nodes⟩ 3 rfl (by decide) (by decide) (by decide)
      (by decide) rfl (by decide),
    by decide, by decide⟩

/-- C6, as stated, fails on scenario `scale_up_schedule`: `checkForScheduling`
uncordons the third node and returns `nil`, the nodes read again offer 12 slots
for a buffer of 4, and `scale()` still calls `ResizeNode(3)`. -/
theorem scale_resizes_although_uncordon_suffices :
    ∃ s1 nodes2,
      checkForScheduling stdPlatform mockEnv ⟨scaleUpSchedulePool.nodes⟩ [⟨ResourceCPU, 400⟩]
          ⟨scaleUpSchedulePool, [Call.Nodes "role=scalable"]⟩ = (Outcome.ret none, s1) ∧
      (mockEnv.Nodes "role=scalable" s1.st).1 = Except.ok nodes2 ∧
      nodes2.AvailableSlot ⟨ResourceCPU, testConfig.PodCPURequest⟩ = some 12 ∧
      testConfig.BufferSlotSize ≤ 12 ∧
      Call.ResizeNode 3 ∈ callsSince ⟨scaleUpSchedulePool, []⟩
        (scale stdPlatform mockEnv testConfig ⟨scaleUpSchedulePool, []⟩).2 :=
  ⟨(checkForScheduling stdPlatform mockEnv ⟨scaleUpSchedulePool.nodes⟩ [⟨ResourceCPU, 400⟩]
      ⟨scaleUpSchedulePool, [Call.Nodes "role=scalable"]⟩).2,
    ⟨(checkForScheduling stdPlatform mockEnv ⟨scaleUpSchedulePool.nodes⟩ [⟨ResourceCPU, 400⟩]
      ⟨scaleUpSchedulePool, [Call.Nodes "role=scalable"]⟩).2.st.nodes⟩,
    Prod.ext (by decide) rfl, rfl, by decide, by decide, by decide⟩


/-- C6, amended. In the scale-up branch of `scale()`, once `checkForScheduling`
has returned `nil` or the sentinel and the nodes are read again (a non-empty
list), `increaseNodePoolSize` and so `ResizeNode` is called whether or not the
recomputed `availableSlot` is still below `BufferSlotSize`; when it is at least
`BufferSlotSize` (positive `PodCPURequest`, positive first-node capacity, values
in the exact range) the number of needed nodes it computes is 0, so the call
asks for no additional node. -/
theorem scale_up_always_resizes {σ : Type} (P : Platform) (E : Env σ) (cfg : Config) (s : Sys σ)
    (nodes nodes2 : NodeList) (a : Int) (err : Option Error) (s2 : Sys σ) (first : Node)
    (rest : List Node)
    (hread : (E.Nodes cfg.NodeSelector s.st).1 = Except.ok nodes)
    (hmin : ¬ (nodes.Nodes.length : Int) < cfg.MinimumNode)
    (hslot : nodes.AvailableSlot ⟨ResourceCPU, cfg.PodCPURequest⟩ = some a)
    (hshort : a < cfg.BufferSlotSize)
    (hcheck : checkForScheduling P E nodes
      [⟨ResourceCPU, wrap64 (cfg.PodCPURequest * cfg.BufferSlotSize)⟩]
      (callNodes E cfg.NodeSelector s).2 = (Outcome.ret err, s2))
    (hswallow : ∀ e, err = some e → e.isNotEnoughResources = true)
    (hread2 : (E.Nodes cfg.NodeSelector s2.st).1 = Except.ok nodes2)
    (hne : nodes2.Nodes = first :: rest) :
    ∃ a2 size, nodes2.AvailableSlot ⟨ResourceCPU, cfg.PodCPURequest⟩ = some a2 ∧
      resizeTarget P cfg nodes2
        [⟨ResourceCPU, wrap64 (cfg.PodCPURequest * wrap64 (cfg.BufferSlotSize - a2))⟩]
        = some size ∧
      Call.ResizeNode size ∈ callsSince s (scale P E cfg s).2 ∧
      (cfg.BufferSlotSize ≤ a2 → 0 < cfg.PodCPURequest →
        cfg.PodCPURequest * (a2 - cfg.BufferSlotSize) < f64Exact →
        0 < first.ResourceCapacity ResourceCPU → first.ResourceCapacity ResourceCPU < f64Exact →
        maxNeededNodes P first
          [⟨ResourceCPU, wrap64 (cfg.PodCPURequest * wrap64 (cfg.BufferSlotSize - a2))⟩] 0 = 0) := by
  obtain ⟨a2, ha2⟩ := availableSlot_isSome nodes nodes2 _ a hslot
  obtain ⟨size, hsize⟩ := resizeTarget_isSome P cfg nodes2
    [⟨ResourceCPU, wrap64 (cfg.PodCPURequest * wrap64 (cfg.BufferSlotSize - a2))⟩]
    (by rw [hne]; exact List.cons_ne_nil _ _)
  have hup := scaleUp_resizes P E cfg s2 nodes2 a2 size hread2 ha2 hsize
  obtain ⟨ext, hext, -⟩ := checkForScheduling_calls P E nodes
    [⟨ResourceCPU, wrap64 (cfg.PodCPURequest * cfg.BufferSlotSize)⟩]
    (callNodes E cfg.NodeSelector s).2
  rw [hcheck] at hext
  simp only at hext
  obtain ⟨tail, htail⟩ := deleteExtraNodes_calls P E cfg
    ⟨(E.ResizeNode size (E.Nodes cfg.NodeSelector s2.st).2).2,
        s2.calls ++ [Call.Nodes cfg.NodeSelector, Call.ResizeNode size]⟩
  have hany : err.any (fun e => !e.isNotEnoughResources) = false := by
    cases err with
    | none => rfl
    | some e => simp [hswallow e rfl]
  have hsc : scale P E cfg s = scaleUp P E cfg s2 := by
    rw [scale]
    simp only [callNodes, hread] at hcheck ⊢
    simp [hmin, hslot, hshort, hcheck, hany]
  refine ⟨a2, size, ha2, hsize, ?_, ?_⟩
  · rw [hsc, hup, callsSince_append _ _
      (Call.Nodes cfg.NodeSelector :: (ext ++ [Call.Nodes cfg.NodeSelector, Call.ResizeNode size] ++ tail))
      (by rw [htail, hext]; simp [callNodes])]
    simp
  · intro hbuf hreq hrange hcap hcap2
    have ha2r : -9223372036854775808 ≤ a2 ∧ a2 < 9223372036854775808 := by
      unfold NodeList.AvailableSlot at ha2
      split at ha2
      · exact Option.noConfusion ha2
      · simp only [Option.some.injEq] at ha2
        rw [← ha2]
        unfold wrap64
        omega
    have hd : a2 - cfg.BufferSlotSize < f64Exact := by
      by_contra hcon
      have : f64Exact ≤ a2 - cfg.BufferSlotSize := by omega
      have h1 : 1 * (a2 - cfg.BufferSlotSize) ≤ cfg.PodCPURequest * (a2 - cfg.BufferSlotSize) :=
        Int.mul_le_mul_of_nonneg_right (by omega) (by omega)
      omega
    unfold f64Exact at hd hrange hcap2
    have hw1 : wrap64 (cfg.BufferSlotSize - a2) = cfg.BufferSlotSize - a2 :=
      wrap64_of_range _ (by omega) (by omega)
    have hprod : cfg.PodCPURequest * (cfg.BufferSlotSize - a2)
        = -(cfg.PodCPURequest * (a2 - cfg.BufferSlotSize)) := by ring
    have hnn : 0 ≤ cfg.PodCPURequest * (a2 - cfg.BufferSlotSize) :=
      Int.mul_nonneg (by omega) (by omega)
    have hw2 : wrap64 (cfg.PodCPURequest * (cfg.BufferSlotSize - a2))
        = cfg.PodCPURequest * (cfg.BufferSlotSize - a2) :=
      wrap64_of_range _ (by omega) (by omega)
    rw [hw1, hw2]
    have hceil : ceilDiv P (cfg.PodCPURequest * (cfg.BufferSlotSize - a2))
        (first.ResourceCapacity ResourceCPU) ≤ 0 :=
      ceilDiv_nonpos P _ _ (by omega) (by unfold f64Exact; omega) hcap (by unfold f64Exact; omega)
    exact maxNeededNodes_single_nonpos P first _ hceil

/-- Scenario `scale_up_schedule`: the third node is uncordoned, 12 slots are
available for a buffer of 4, and `ResizeNode` is still called, for no additional node. -/
theorem scale_up_always_resizes_witness :
    ∃ a2 size,
      NodeList.AvailableSlot
          ⟨(checkForScheduling stdPlatform mockEnv ⟨scaleUpSchedulePool.nodes⟩
            [⟨ResourceCPU, 400⟩] ⟨scaleUpSchedulePool, [Call.Nodes "role=scalable"]⟩).2.st.nodes⟩
          ⟨ResourceCPU, testConfig.PodCPURequest⟩ = some a2 ∧
      resizeTarget stdPlatform testConfig
          ⟨(checkForScheduling stdPlatform mockEnv ⟨scaleUpSchedulePool.nodes⟩
            [⟨ResourceCPU, 400⟩] ⟨scaleUpSchedulePool, [Call.Nodes "role=scalable"]⟩).2.st.nodes⟩
          [⟨ResourceCPU, wrap64 (testConfig.PodCPURequest * wrap64 (testConfig.BufferSlotSize - a2))⟩]
        = some size ∧
      Call.ResizeNode size ∈ callsSince ⟨scaleUpSchedulePool, []⟩
        (scale stdPlatform mockEnv testConfig ⟨scaleUpSchedulePool, []⟩).2 ∧
      (testConfig.BufferSlotSize ≤ a2 → 0 < testConfig.PodCPURequest →
        testConfig.PodCPURequest * (a2 - testConfig.BufferSlotSize) < f64Exact →
        0 < (newNode "test-node-0" (workloadPods 9)).ResourceCapacity ResourceCPU →
        (newNode "test-node-0" (workloadPods 9)).ResourceCapacity ResourceCPU < f64Exact →
        maxNeededNodes stdPlatform (newNode "test-node-0" (workloadPods 9))
          [⟨ResourceCPU, wrap64 (testConfig.PodCPURequest * wrap64 (testConfig.BufferSlotSize - a2))⟩]
          0 = 0) :=
  scale_up_always_resizes stdPlatform mockEnv testConfig ⟨scaleUpSchedulePool, []⟩
    ⟨scaleUpSchedulePool.nodes⟩
    ⟨(checkForScheduling stdPlatform mockEnv ⟨scaleUpSchedulePool.nodes⟩
      [⟨ResourceCPU, 400⟩] ⟨scaleUpSchedulePool, [Call.Nodes "role=scalable"]⟩).2.st.nodes⟩
    3 none
    (checkForScheduling stdPlatform mockEnv ⟨scaleUpSchedulePool.nodes⟩
      [⟨ResourceCPU, 400⟩] ⟨scaleUpSchedulePool, [Call.Nodes "role=scalable"]⟩).2
    (newNode "test-node-0" (workloadPods 9)) _ rfl (by decide) (by decide) (by decide)
    (Prod.ext (by decide) rfl) (fun e h => Option.noConfusion h) rfl rfl

/-- C7, as stated, fails: on one node of 1000 milli-CPU and the extra
(cpu, 2000), `k = 2` exceeds the length of the list and `checkForUnscheduling`
panics at the slice without updating a node; and on two nodes with an
orchestrator whose `UpdateNode` fails it stops after the first update, so one
node is updated, not `k = 2`. -/
theorem checkForUnscheduling_not_exactly_k :
    floorDiv stdPlatform 2000 ((newNode "test-node-0" []).ResourceCapacity ResourceCPU) = 2 ∧
    checkForUnscheduling stdPlatform mockEnv ⟨singleNodePool.nodes⟩ [⟨ResourceCPU, 2000⟩]
        ⟨singleNodePool, []⟩ = (Outcome.panic, ⟨singleNodePool, []⟩) ∧
    (checkForUnscheduling stdPlatform failingUpdateEnv ⟨twoNodePool.nodes⟩ [⟨ResourceCPU, 2000⟩]
        ⟨twoNodePool, []⟩).1 = Outcome.ret (some (Error.other "update failed")) ∧
    (updatedNodes (checkForUnscheduling stdPlatform failingUpdateEnv ⟨twoNodePool.nodes⟩
        [⟨ResourceCPU, 2000⟩] ⟨twoNodePool, []⟩).2.calls).length = 1 := by
  refine ⟨by decide, ?_, by decide, by decide⟩
  exact Prod.ext (by decide) rfl


/-- C7, amended. For a non-empty node list and a single extra `(r, v)`, with
`k = floor(v / capacity(r, first node))`: when `k ≤ 0`, `checkForUnscheduling`
returns `nil` and makes no call; when `0 < k ≤ len(Nodes)` and every cordon step
succeeds (annotation maps present, the clock reading marshals, `UpdateNode`
returns `nil`), it returns `nil` and the nodes it persists with `UpdateNode` are
the cordoned forms, in order, of exactly `k` nodes of the list, each with a pod
count no larger than that of every node left untouched. -/
theorem checkForUnscheduling_cordons_least_loaded {σ : Type} (P : Platform) (E : Env σ)
    (nodes : NodeList) (r : Resource) (s : Sys σ) (first : Node) (rest : List Node)
    (hne : nodes.Nodes = first :: rest) :
    (floorDiv P r.Value (first.ResourceCapacity r.Name) ≤ 0 →
      checkForUnscheduling P E nodes [r] s = (Outcome.ret none, s)) ∧
    (0 < floorDiv P r.Value (first.ResourceCapacity r.Name) →
      floorDiv P r.Value (first.ResourceCapacity r.Name) ≤ nodes.Nodes.length →
      (∀ n ∈ nodes.Nodes, n.Annotations ≠ none) →
      (∀ st, ∃ txt, P.marshalText (E.Now st).1 = Except.ok txt) →
      (∀ n st, (E.UpdateNode n st).1 = none) →
      (checkForUnscheduling P E nodes [r] s).1 = Outcome.ret none ∧
      ∃ chosen others, (chosen ++ others).Perm nodes.Nodes ∧
        (chosen.length : Int) = floorDiv P r.Value (first.ResourceCapacity r.Name) ∧
        (∀ a ∈ chosen, ∀ b ∈ others, a.Pods.length ≤ b.Pods.length) ∧
        List.Forall₂ (CordonOf P) chosen
          (updatedNodes (callsSince s (checkForUnscheduling P E nodes [r] s).2))) := by
  have hk : minExtraNodes P first [r] 0 = floorDiv P r.Value (first.ResourceCapacity r.Name) := by
    simp [minExtraNodes]
  constructor
  · intro hle
    simp [checkForUnscheduling, hne, hk, hle]
  · intro hpos hlen hann hm hu
    have hsplit := sortNodesByPods_split P nodes.Nodes
      (floorDiv P r.Value (first.ResourceCapacity r.Name)).toNat
    have hperm : (SortNodesByPods P nodes.Nodes).Perm nodes.Nodes := P.sortSlice_perm _ _
    have hannk : ∀ n ∈ (SortNodesByPods P nodes.Nodes).take
        (floorDiv P r.Value (first.ResourceCapacity r.Name)).toNat, n.Annotations ≠ none :=
      fun n hn => hann n (hperm.subset (List.mem_of_mem_take hn))
    obtain ⟨hres, ext, hext, hall⟩ := cordonLoop_success P E hm hu _ s hannk
    have hrun : checkForUnscheduling P E nodes [r] s = cordonLoop P E
        ((SortNodesByPods P nodes.Nodes).take
          (floorDiv P r.Value (first.ResourceCapacity r.Name)).toNat) s := by
      simp only [hne] at hlen
      simp only [checkForUnscheduling, hne, hk]
      rw [if_neg (by omega), if_neg (by omega)]
    rw [hrun]
    refine ⟨hres, _, _, hsplit.1, ?_, hsplit.2, ?_⟩
    · rw [List.length_take, hperm.length_eq]
      omega
    · rw [callsSince_append _ _ ext hext]
      exact hall


/-- Scenario `scale_down_unschedule`: of three nodes with 8, 7 and 1 pods and
an excess of 1000 milli-CPU (`k = 1`), one node is cordoned and persisted. -/
theorem checkForUnscheduling_cordons_least_loaded_witness :
    (checkForUnscheduling stdPlatform mockEnv ⟨scaleDownUnschedulePool.nodes⟩
        [⟨ResourceCPU, 1000⟩] ⟨scaleDownUnschedulePool, []⟩).1 = Outcome.ret none ∧
      ∃ chosen others, (chosen ++ others).Perm scaleDownUnschedulePool.nodes ∧
        (chosen.length : Int) = floorDiv stdPlatform 1000
          ((newNode "test-node-0" (workloadPods 8)).ResourceCapacity ResourceCPU) ∧
        (∀ a ∈ chosen, ∀ b ∈ others, a.Pods.length ≤ b.Pods.length) ∧
        List.Forall₂ (CordonOf stdPlatform) chosen
          (updatedNodes (callsSince ⟨scaleDownUnschedulePool, []⟩
            (checkForUnscheduling stdPlatform mockEnv ⟨scaleDownUnschedulePool.nodes⟩
              [⟨ResourceCPU, 1000⟩] ⟨scaleDownUnschedulePool, []⟩).2)) :=
  (checkForUnscheduling_cordons_least_loaded stdPlatform mockEnv ⟨scaleDownUnschedulePool.nodes⟩
    ⟨ResourceCPU, 1000⟩ ⟨scaleDownUnschedulePool, []⟩ (newNode "test-node-0" (workloadPods 8)) _
    rfl).2 (by decide) (by decide) (by decide)
    (fun st => ⟨String.mk (Nat.toDigits 10 st.clock), by simp [stdPlatform, mockEnv]⟩)
    (fun _ _ => rfl)

/-- C8. The remaining need is not accumulated: with a need of 400 milli-CPU and
two cordoned nodes with 300 available each, `checkForScheduling` uncordons both
(600 available in total) and returns the error "not enough resource", not success. -/
theorem checkForScheduling_does_not_accumulate :
    (twoCordonedPool.nodes.map (fun n => n.AvailableResource ResourceCPU)) = [300, 300] ∧
    (checkForScheduling stdPlatform mockEnv ⟨twoCordonedPool.nodes⟩ [⟨ResourceCPU, 400⟩]
        ⟨twoCordonedPool, []⟩).1 = Outcome.ret (some (Error.other "not enough resource")) ∧
    (updatedNodes (checkForScheduling stdPlatform mockEnv ⟨twoCordonedPool.nodes⟩
        [⟨ResourceCPU, 400⟩] ⟨twoCordonedPool, []⟩).2.calls).map
          (fun n => (n.Name, n.Unschedulable))
      = [("test-node-0", false), ("test-node-1", false)] := by
  decide

/-- C9, as stated, fails: with a cordoned node that has nothing available,
`checkForScheduling` returns the generic error and `scale()` returns it at once;
the calls of the pass are the read of the nodes, one clock reading and one
`UpdateNode`: the nodes are not read again and `ResizeNode` is not called. -/
theorem scale_aborts_on_exhausted_cordoned :
    (scale stdPlatform mockEnv testConfig ⟨exhaustedPool, []⟩).1
      = Outcome.ret (some (Error.other "not enough resource")) ∧
    callsSince ⟨exhaustedPool, []⟩ (scale stdPlatform mockEnv testConfig ⟨exhaustedPool, []⟩).2
      = [Call.Nodes "role=scalable", Call.Now 5,
          Call.UpdateNode (Node.withMark (newNode "test-node-2" (workloadPods 10)) false
            [( timestampAnnotation, "3")] "5")] := by
  decide


/-- C9, amended. When `scale()` is short of slots, cordoned nodes exist, every
uncordon step succeeds and `checkForScheduling` does not return `nil`, the error
it returns is the generic "not enough resource", distinct from the sentinel
`ErrNotEnoughResources`, and `scale()` does not treat it like the sentinel: it
returns that error at once, and the calls of the pass are the read of the nodes
followed by clock readings and `UpdateNode` calls only (the nodes are not read
again, `ResizeNode` is not called). -/
theorem scale_aborts_when_cordoned_exhausted {σ : Type} (P : Platform) (E : Env σ)
    (cfg : Config) (s : Sys σ) (nodes : NodeList) (a : Int)
    (hread : (E.Nodes cfg.NodeSelector s.st).1 = Except.ok nodes)
    (hmin : ¬ (nodes.Nodes.length : Int) < cfg.MinimumNode)
    (hslot : nodes.AvailableSlot ⟨ResourceCPU, cfg.PodCPURequest⟩ = some a)
    (hshort : a < cfg.BufferSlotSize)
    (hex : ∃ n ∈ nodes.Nodes, n.Unschedulable = true)
    (hann : ∀ n ∈ nodes.Nodes, n.Annotations ≠ none)
    (hm : ∀ st, ∃ txt, P.marshalText (E.Now st).1 = Except.ok txt)
    (hu : ∀ n st, (E.UpdateNode n st).1 = none)
    (hfail : (checkForScheduling P E nodes
      [⟨ResourceCPU, wrap64 (cfg.PodCPURequest * cfg.BufferSlotSize)⟩]
      (callNodes E cfg.NodeSelector s).2).1 ≠ Outcome.ret none) :
    (checkForScheduling P E nodes
      [⟨ResourceCPU, wrap64 (cfg.PodCPURequest * cfg.BufferSlotSize)⟩]
      (callNodes E cfg.NodeSelector s).2).1
        = Outcome.ret (some (Error.other "not enough resource")) ∧
    Error.other "not enough resource" ≠ ErrNotEnoughResources ∧
    (scale P E cfg s).1 = Outcome.ret (some (Error.other "not enough resource")) ∧
    ∃ ext, callsSince s (scale P E cfg s).2 = Call.Nodes cfg.NodeSelector :: ext ∧
      ∀ c ∈ ext, c.isMark := by
  have hne : ¬ nodes.UnschedulableNodes.length = 0 := by
    obtain ⟨n, hn, hun⟩ := hex
    have : n ∈ nodes.UnschedulableNodes := by
      simp [NodeList.UnschedulableNodes, List.mem_filter, hn, Node.IsSchedulable, hun]
    intro h0
    rw [List.length_eq_zero] at h0
    rw [h0] at this
    exact List.not_mem_nil _ this
  have hannU : ∀ n ∈ SortNodesByPodsDesc P nodes.UnschedulableNodes, n.Annotations ≠ none := by
    intro n hn
    have h1 : n ∈ nodes.UnschedulableNodes := (P.sortSlice_perm _ _).subset hn
    exact hann n (List.mem_of_mem_filter h1)
  have hres : (checkForScheduling P E nodes
      [⟨ResourceCPU, wrap64 (cfg.PodCPURequest * cfg.BufferSlotSize)⟩]
      (callNodes E cfg.NodeSelector s).2).1
        = Outcome.ret (some (Error.other "not enough resource")) := by
    have hcs : checkForScheduling P E nodes
        [⟨ResourceCPU, wrap64 (cfg.PodCPURequest * cfg.BufferSlotSize)⟩]
        (callNodes E cfg.NodeSelector s).2
        = uncordonLoop P E
            ([⟨ResourceCPU, wrap64 (cfg.PodCPURequest * cfg.BufferSlotSize)⟩].foldl
              (fun m (need : Resource) => mapSet m need.Name need.Value) []) 1
            (SortNodesByPodsDesc P nodes.UnschedulableNodes) []
            (callNodes E cfg.NodeSelector s).2 := by
      simp [checkForScheduling, hne]
    rw [hcs] at hfail ⊢
    rcases uncordonLoop_result P E hm hu _ 1 _ [] (callNodes E cfg.NodeSelector s).2 hannU
      with h | h
    · exact absurd h hfail
    · exact h
  obtain ⟨ext, hext, hmark⟩ := checkForScheduling_calls P E nodes
    [⟨ResourceCPU, wrap64 (cfg.PodCPURequest * cfg.BufferSlotSize)⟩]
    (callNodes E cfg.NodeSelector s).2
  have hsc : scale P E cfg s = (Outcome.ret (some (Error.other "not enough resource")),
      (checkForScheduling P E nodes
        [⟨ResourceCPU, wrap64 (cfg.PodCPURequest * cfg.BufferSlotSize)⟩]
        (callNodes E cfg.NodeSelector s).2).2) := by
    rw [scale]
    cases hc : checkForScheduling P E nodes
        [⟨ResourceCPU, wrap64 (cfg.PodCPURequest * cfg.BufferSlotSize)⟩]
        (callNodes E cfg.NodeSelector s).2 with
    | mk r s2 =>
      rw [hc] at hres
      simp only at hres
      subst hres
      simp only [callNodes, hread] at hc ⊢
      simp [hmin, hslot, hshort, hc, Error.isNotEnoughResources]
  refine ⟨hres, ?_, by rw [hsc], ext, ?_, hmark⟩
  · intro h
    exact Error.noConfusion h
  · rw [hsc]
    apply callsSince_append
    simp only
    rw [hext]
    simp [callNodes]


/-- Three nodes with 9, 8 and 10 pods, the third cordoned: `scale()` returns the
generic error after uncordoning the third node. -/
theorem scale_aborts_when_cordoned_exhausted_witness :
    (checkForScheduling stdPlatform mockEnv ⟨exhaustedPool.nodes⟩
      [⟨ResourceCPU, wrap64 (testConfig.PodCPURequest * testConfig.BufferSlotSize)⟩]
      (callNodes mockEnv testConfig.NodeSelector ⟨exhaustedPool, []⟩).2).1
        = Outcome.ret (some (Error.other "not enough resource")) ∧
    Error.other "not enough resource" ≠ ErrNotEnoughResources ∧
    (scale stdPlatform mockEnv testConfig ⟨exhaustedPool, []⟩).1
      = Outcome.ret (some (Error.other "not enough resource")) ∧
    ∃ ext, callsSince ⟨exhaustedPool, []⟩ (scale stdPlatform mockEnv testConfig ⟨exhaustedPool, []⟩).2
        = Call.Nodes testConfig.NodeSelector :: ext ∧
      ∀ c ∈ ext, c.isMark :=
  scale_aborts_when_cordoned_exhausted stdPlatform mockEnv testConfig ⟨exhaustedPool, []⟩
    ⟨exhaustedPool.nodes⟩ 3 rfl (by decide) (by decide) (by decide) (by decide) (by decide)
    (fun st => ⟨String.mk (Nat.toDigits 10 st.clock), by simp [stdPlatform, mockEnv]⟩)
    (fun _ _ => rfl) (by decide)

/-- C10. A failed resize is not reported: on scenario `scale_up` with a provider
whose `ResizeNode` fails, `scale()` calls `ResizeNode(3)`, drops its error, goes
on to `deleteExtraNodes` and returns `nil`. -/
theorem scale_drops_resize_error :
    (failingResizeEnv.ResizeNode 3 scaleUpPool).1 = some (Error.other "resize failed") ∧
    callsSince ⟨scaleUpPool, []⟩
        (scale stdPlatform failingResizeEnv testConfig ⟨scaleUpPool, []⟩).2
      = [Call.Nodes "role=scalable", Call.Nodes "role=scalable", Call.ResizeNode 3,
          Call.Nodes "role=scalable"] ∧
    (scale stdPlatform failingResizeEnv testConfig ⟨scaleUpPool, []⟩).1 = Outcome.ret none := by
  decide

/-- C11, as stated, fails: one node of 1000 milli-CPU with 11 pods of 100
milli-CPU has -100 available; for the need (cpu, 300) `AvailableSlot` is 0, the
quotient truncated toward zero, while the floor of -100/300 is -1. -/
theorem availableSlot_not_floor_when_negative :
    NodeList.AvailableResource ⟨overcommittedPool.nodes⟩ ResourceCPU = -100 ∧
    NodeList.AvailableSlot ⟨overcommittedPool.nodes⟩ ⟨ResourceCPU, 300⟩ = some 0 ∧
    Int.fdiv (-100) 300 = -1 ∧ ¬ ((0 : Int) * 300 ≤ -100) := by
  decide

/-- C11, amended. For every node list and every need `(r, v)` with `v > 0`,
`AvailableSlot` is the quotient of `AvailableResource(r)` by `v` truncated toward
zero: it is `floor(AvailableResource(r) / v)` when `AvailableResource(r)` is not
negative, and `-floor(-AvailableResource(r) / v)` when it is negative. -/
theorem availableSlot_truncates (n : NodeList) (need : Resource) (hv : 0 < need.Value) :
    (0 ≤ n.AvailableResource need.Name →
      n.AvailableSlot need = some (Int.fdiv (n.AvailableResource need.Name) need.Value)) ∧
    (n.AvailableResource need.Name < 0 →
      n.AvailableSlot need = some (-(Int.fdiv (-(n.AvailableResource need.Name)) need.Value))) := by
  have hr := availableResource_range n need.Name
  have hne : need.Value ≠ 0 := by omega
  constructor
  · intro h0
    have hq : Int.tdiv (n.AvailableResource need.Name) need.Value
        = Int.fdiv (n.AvailableResource need.Name) need.Value :=
      (Int.fdiv_eq_tdiv h0 (by omega)).symm
    have hle : Int.fdiv (n.AvailableResource need.Name) need.Value
        ≤ n.AvailableResource need.Name := by
      rw [Int.fdiv_eq_ediv _ (by omega : (0:Int) ≤ need.Value)]
      exact Int.ediv_le_self _ h0
    have hge : 0 ≤ Int.fdiv (n.AvailableResource need.Name) need.Value :=
      Int.fdiv_nonneg h0 (by omega)
    simp only [NodeList.AvailableSlot, hne, if_false, hq]
    rw [wrap64_of_range _ (by omega) (by omega)]
  · intro hneg
    have hq : Int.tdiv (n.AvailableResource need.Name) need.Value
        = -(Int.fdiv (-(n.AvailableResource need.Name)) need.Value) := by
      rw [Int.fdiv_eq_tdiv (by omega) (by omega), Int.neg_tdiv, Int.neg_neg]
    have hle : Int.fdiv (-(n.AvailableResource need.Name)) need.Value
        ≤ -(n.AvailableResource need.Name) := by
      rw [Int.fdiv_eq_ediv _ (by omega : (0:Int) ≤ need.Value)]
      exact Int.ediv_le_self _ (by omega)
    have hge : 0 ≤ Int.fdiv (-(n.AvailableResource need.Name)) need.Value :=
      Int.fdiv_nonneg (by omega) (by omega)
    simp only [NodeList.AvailableSlot, hne, if_false, hq]
    rw [wrap64_of_range _ (by omega) (by omega)]

/-- Scenario `scale_up`: 300 milli-CPU available, need (cpu, 100): 3 slots, the floor. -/
theorem availableSlot_truncates_witness :
    (0 ≤ NodeList.AvailableResource ⟨scaleUpPool.nodes⟩ ResourceCPU →
      NodeList.AvailableSlot ⟨scaleUpPool.nodes⟩ ⟨ResourceCPU, 100⟩
        = some (Int.fdiv (NodeList.AvailableResource ⟨scaleUpPool.nodes⟩ ResourceCPU) 100)) ∧
    (NodeList.AvailableResource ⟨scaleUpPool.nodes⟩ ResourceCPU < 0 →
      NodeList.AvailableSlot ⟨scaleUpPool.nodes⟩ ⟨ResourceCPU, 100⟩
        = some (-(Int.fdiv (-(NodeList.AvailableResource ⟨scaleUpPool.nodes⟩ ResourceCPU)) 100))) :=
  availableSlot_truncates ⟨scaleUpPool.nodes⟩ ⟨ResourceCPU, 100⟩ (by decide)

/-- C12. Available resource: `NodeList.AvailableResource(r)` is the sum, over
the nodes that are both ready and schedulable, of `capacity(r)` minus the sum of
the `r` limits of every container of every pod of the node, taken in `int64`
(so exactly that sum whenever it fits in an `int64`); nodes that are not ready
or are cordoned contribute nothing, whatever their capacity and pods. -/
theorem availableResource_is_sum_over_available (n : NodeList) (r : ResourceName) :
    n.AvailableResource r = wrap64 (specAvailableResource n r) ∧
    (-9223372036854775808 ≤ specAvailableResource n r →
      specAvailableResource n r < 9223372036854775808 →
      n.AvailableResource r = specAvailableResource n r) ∧
    n.AvailableResource r
      = NodeList.AvailableResource
          ⟨n.Nodes.filter (fun node => node.IsReady && !node.Unschedulable)⟩ r := by
  have hmain : n.AvailableResource r = wrap64 (specAvailableResource n r) := by
    have hr := availableResource_range n r
    rw [← wrap64_of_range _ hr.1 hr.2]
    unfold NodeList.AvailableResource
    rw [foldl_wrap64_sum (fun node => node.AvailableResource r) n.AvailableNodes 0, zero_add]
    have hfun : (fun node : Node => node.AvailableResource r)
        = fun node => wrap64 (node.ResourceCapacity r - specUsingResources node r) := by
      funext node
      exact node_availableResource_eq node r
    rw [hfun, wrap64_sum_map]
    unfold NodeList.AvailableNodes specAvailableResource
    rw [sum_filter_map (fun node : Node => node.IsReady && node.IsSchedulable)
      (fun node : Node => node.IsReady = true ∧ node.Unschedulable = false)]
    intro x
    simp [Node.IsSchedulable]
  refine ⟨hmain, fun h1 h2 => by rw [hmain, wrap64_of_range _ h1 h2], ?_⟩
  unfold NodeList.AvailableResource NodeList.AvailableNodes
  simp only [Node.IsSchedulable, List.filter_filter, Bool.and_self]

/-- C13, as stated, fails: with one available node of 1000 milli-CPU and the
single need (cpu, -1500), `ceil(-1500 / 1000) = -1` and the claimed count is
`min(6, -1 + 1) = 0`, but `increaseNodePoolSize` calls `ResizeNode(1)`: the
running maximum starts at 0. -/
theorem increaseNodePoolSize_floors_need_at_zero :
    -(Int.fdiv (-(-1500)) ((newNode "test-node-0" []).ResourceCapacity ResourceCPU)) = -1 ∧
    min testConfig.MaximumNode
      (-1 + ((NodeList.AvailableNodes ⟨singleNodePool.nodes⟩).length : Int)) = 0 ∧
    callsSince ⟨singleNodePool, []⟩
      (increaseNodePoolSize stdPlatform mockEnv testConfig ⟨singleNodePool.nodes⟩
        [⟨ResourceCPU, -1500⟩] ⟨singleNodePool, []⟩).2 = [Call.ResizeNode 1] := by
  decide

/-- C13, amended. For every non-empty node list and every non-empty list of
needs, `increaseNodePoolSize` makes exactly one call, `ResizeNode` with
`min(MaximumNode, max(0, max over needs (r, v) of ceil(v / capacity(r, first node))) + len(AvailableNodes))`
computed in `int64`, and returns its result; when every need and capacity is
below 2^53 in magnitude with a positive capacity, and the sum fits in an
`int64`, the ceilings and the sum are the exact ones. -/
theorem increaseNodePoolSize_resize_target {σ : Type} (P : Platform) (E : Env σ) (cfg : Config)
    (nodes : NodeList) (s : Sys σ) (first : Node) (rest : List Node) (need : Resource)
    (needs : List Resource) (hne : nodes.Nodes = first :: rest) :
    callsSince s (increaseNodePoolSize P E cfg nodes (need :: needs) s).2
      = [Call.ResizeNode (min cfg.MaximumNode (wrap64
          (((need :: needs).map (fun r => ceilDiv P r.Value (first.ResourceCapacity r.Name))).foldl
            max 0 + nodes.AvailableNodes.length)))] ∧
    (increaseNodePoolSize P E cfg nodes (need :: needs) s).1
      = Outcome.ret (E.ResizeNode (min cfg.MaximumNode (wrap64
          (((need :: needs).map (fun r => ceilDiv P r.Value (first.ResourceCapacity r.Name))).foldl
            max 0 + nodes.AvailableNodes.length))) s.st).1 ∧
    ((∀ r ∈ need :: needs, |r.Value| < f64Exact ∧ 0 < first.ResourceCapacity r.Name ∧
        first.ResourceCapacity r.Name < f64Exact) →
      ((need :: needs).map (fun r =>
          -(Int.fdiv (-r.Value) (first.ResourceCapacity r.Name)))).foldl max 0
        + nodes.AvailableNodes.length < 9223372036854775808 →
      callsSince s (increaseNodePoolSize P E cfg nodes (need :: needs) s).2
        = [Call.ResizeNode (min cfg.MaximumNode
            (((need :: needs).map (fun r =>
              -(Int.fdiv (-r.Value) (first.ResourceCapacity r.Name)))).foldl max 0
              + nodes.AvailableNodes.length))]) := by
  have htarget : resizeTarget P cfg nodes (need :: needs)
      = some (min cfg.MaximumNode (wrap64
          (((need :: needs).map (fun r => ceilDiv P r.Value (first.ResourceCapacity r.Name))).foldl
            max 0 + nodes.AvailableNodes.length))) := by
    simp only [resizeTarget, hne]
    rw [maxNeededNodes_eq_foldl, min_comm]
  have hcalls : callsSince s (increaseNodePoolSize P E cfg nodes (need :: needs) s).2
      = [Call.ResizeNode (min cfg.MaximumNode (wrap64
          (((need :: needs).map (fun r => ceilDiv P r.Value (first.ResourceCapacity r.Name))).foldl
            max 0 + nodes.AvailableNodes.length)))] := by
    apply callsSince_append
    simp [increaseNodePoolSize, htarget, callResizeNode]
  refine ⟨hcalls, by simp [increaseNodePoolSize, htarget, callResizeNode], ?_⟩
  intro hexact hfit
  have hmap : (need :: needs).map (fun r => ceilDiv P r.Value (first.ResourceCapacity r.Name))
      = (need :: needs).map (fun r => -(Int.fdiv (-r.Value) (first.ResourceCapacity r.Name))) := by
    apply List.map_congr_left
    intro r hr
    obtain ⟨h1, h2, h3⟩ := hexact r hr
    have h4 : |first.ResourceCapacity r.Name| < f64Exact := by rw [abs_of_pos h2]; exact h3
    have h5 : first.ResourceCapacity r.Name ≠ 0 := by omega
    simp [ceilDiv, h1, h4, h5]
  have hnonneg : ∀ (xs : List Int) (m : Int), 0 ≤ m → 0 ≤ xs.foldl max m := by
    intro xs
    induction xs with
    | nil => intro m hm; simpa using hm
    | cons x rest ih => intro m hm; exact ih _ (le_trans hm (le_max_left _ _))
  rw [hcalls, hmap, wrap64_of_range _ _ hfit]
  have := hnonneg ((need :: needs).map (fun r =>
    -(Int.fdiv (-r.Value) (first.ResourceCapacity r.Name)))) 0 (le_refl 0)
  omega

/-- Scenario `scale_up`, one slot short: the need (cpu, 100) on two available
nodes of 1000 milli-CPU gives `ResizeNode(min(6, 1 + 2))`. -/
theorem increaseNodePoolSize_resize_target_witness :
    callsSince ⟨scaleUpPool, []⟩
        (increaseNodePoolSize stdPlatform mockEnv testConfig ⟨scaleUpPool.nodes⟩
          [⟨ResourceCPU, 100⟩] ⟨scaleUpPool, []⟩).2
      = [Call.ResizeNode (min testConfig.MaximumNode (wrap64
          (([⟨ResourceCPU, 100⟩].map (fun (r : Resource) => ceilDiv stdPlatform r.Value
            ((newNode "test-node-0" (workloadPods 9)).ResourceCapacity r.Name))).foldl
            max 0 + (NodeList.AvailableNodes ⟨scaleUpPool.nodes⟩).length)))] ∧
    callsSince ⟨scaleUpPool, []⟩
        (increaseNodePoolSize stdPlatform mockEnv testConfig ⟨scaleUpPool.nodes⟩
          [⟨ResourceCPU, 100⟩] ⟨scaleUpPool, []⟩).2 = [Call.ResizeNode 3] :=
  ⟨(increaseNodePoolSize_resize_target stdPlatform mockEnv testConfig ⟨scaleUpPool.nodes⟩
      ⟨scaleUpPool, []⟩ (newNode "test-node-0" (workloadPods 9)) _ ⟨ResourceCPU, 100⟩ [] rfl).1,
    by decide⟩

/-- C15, as stated, fails at the boundary: a cordoned node without pods whose
timestamp is 6, with `EmptyNodeExpiration = 0`, checked when the clock reads
exactly 6 (pool of 3, minimum 2) is not added: `DeleteNodes` gets the empty list. -/
theorem deleteExtraNodes_keeps_node_at_boundary :
    Node.SchedulingMarkTimestamp stdPlatform (cordonedAt (newNode "test-node-2" []) "6")
      = Except.ok 6 ∧
    callsSince ⟨boundaryPool, []⟩
        (deleteExtraNodes stdPlatform mockEnv testConfig ⟨boundaryPool, []⟩).2
      = [Call.Nodes "role=scalable", Call.Now 5, Call.Now 6, Call.DeleteNodes []] ∧
    (6 : Int) ≥ 6 + testConfig.EmptyNodeExpiration :=
  ⟨rfl, by decide, by decide⟩

/-- C15, amended. At any iteration of the loop of `deleteExtraNodes`, for a
cordoned node with zero workload-label pods whose timestamp parses to `t`, with
`now` the clock reading of the condition: when `now > t + EmptyNodeExpiration`
the node is added to the delete set (it is in the list the loop ends with); when
`now ≤ t + EmptyNodeExpiration`, the instant `now = t + EmptyNodeExpiration`
included, the node is skipped and the live counter stays as it is. -/
theorem deleteLoop_expiration_is_strict {σ : Type} (P : Platform) (E : Env σ) (cfg : Config)
    (node : Node) (rest : List Node) (l : Int) (acc : List String) (s : Sys σ) (t : Int)
    (ht : node.SchedulingMarkTimestamp P = Except.ok t)
    (hpods : ∀ p ∈ node.Pods, mapGet p.Labels cfg.PodLabelName ≠ some cfg.PodLabelValue) :
    (t + cfg.EmptyNodeExpiration < (E.Now (E.Now s.st).2).1 →
      ∀ ids s1, deleteLoop P E cfg (node :: rest) l acc s = (Except.ok ids, s1) →
        node.Name ∈ ids) ∧
    ((E.Now (E.Now s.st).2).1 ≤ t + cfg.EmptyNodeExpiration →
      deleteLoop P E cfg (node :: rest) l acc s
        = deleteLoop P E cfg rest l acc (callNow E (callNow E s).2).2) := by
  have hzero : (filterPods cfg node.Pods).length = 0 := by
    rw [List.length_eq_zero]
    simp only [filterPods, List.filter_eq_nil_iff, decide_eq_true_eq]
    exact hpods
  constructor
  · intro hexp ids s1 h
    rw [deleteLoop] at h
    simp only [ht, hzero, if_true] at h
    have hexp2 : t + cfg.EmptyNodeExpiration < (callNow E (callNow E s).2).1 := by
      simpa [callNow] using hexp
    rw [if_pos hexp2] at h
    split at h
    · simp only [Prod.mk.injEq, Except.ok.injEq] at h
      rw [← h.1]; simp
    · exact deleteLoop_acc_subset P E cfg _ _ _ _ _ _ h node.Name (by simp)
  · intro hnot
    rw [deleteLoop]
    simp only [ht, hzero, if_true]
    have hexp2 : ¬ t + cfg.EmptyNodeExpiration < (callNow E (callNow E s).2).1 := by
      simp only [callNow]; omega
    rw [if_neg hexp2]

/-- Scenario `scale_down_unschedule_non_dedicated`: the cordoned node, marked at
instant 3 and checked when the clock reads 6, is in the delete set. -/
theorem deleteLoop_expiration_is_strict_witness :
    (3 + testConfig.EmptyNodeExpiration
        < (mockEnv.Now (mockEnv.Now nonDedicatedPool).2).1 →
      ∀ ids s1, deleteLoop stdPlatform mockEnv testConfig
          [cordonedAt (newNode "test-node-2" [newPod 100 false]) "3"] 3 []
          ⟨nonDedicatedPool, []⟩ = (Except.ok ids, s1) →
        "test-node-2" ∈ ids) ∧
    ((mockEnv.Now (mockEnv.Now nonDedicatedPool).2).1 ≤ 3 + testConfig.EmptyNodeExpiration →
      deleteLoop stdPlatform mockEnv testConfig
          [cordonedAt (newNode "test-node-2" [newPod 100 false]) "3"] 3 []
          ⟨nonDedicatedPool, []⟩
        = deleteLoop stdPlatform mockEnv testConfig [] 3 []
            (callNow mockEnv (callNow mockEnv ⟨nonDedicatedPool, []⟩).2).2) :=
  deleteLoop_expiration_is_strict stdPlatform mockEnv testConfig
    (cordonedAt (newNode "test-node-2" [newPod 100 false]) "3") [] 3 [] ⟨nonDedicatedPool, []⟩ 3
    rfl (by decide)

/-- C16. No headroom after a scale-up over nodes that are not ready: with the
test configuration and three nodes that are not ready (0 slots available, buffer
4), `scale()` succeeds and calls `ResizeNode(1)`, a size below `MaximumNode = 6`
and below the 3 nodes of the pool, so no node is added and the resulting pool
still offers 0 slots. -/
theorem scale_up_leaves_buffer_short :
    NodeList.AvailableSlot ⟨notReadyPool.nodes⟩ ⟨ResourceCPU, testConfig.PodCPURequest⟩ = some 0 ∧
    (scale stdPlatform mockEnv testConfig ⟨notReadyPool, []⟩).1 = Outcome.ret none ∧
    callsSince ⟨notReadyPool, []⟩ (scale stdPlatform mockEnv testConfig ⟨notReadyPool, []⟩).2
      = [Call.Nodes "role=scalable", Call.Nodes "role=scalable", Call.ResizeNode 1,
          Call.Nodes "role=scalable", Call.DeleteNodes []] ∧
    (1 : Int) < testConfig.MaximumNode ∧
    NodeList.AvailableSlot ⟨(scale stdPlatform mockEnv testConfig ⟨notReadyPool, []⟩).2.st.nodes⟩
      ⟨ResourceCPU, testConfig.PodCPURequest⟩ = some 0 ∧
    (0 : Int) < testConfig.BufferSlotSize := by
  decide

/-- C14, as stated, fails: `MarkAsUnschedulable` on a node already cordoned at
instant 3 keeps the flag and rewrites the timestamp to the current instant 5;
and `checkForUnscheduling` on three nodes without pods, the first already
cordoned, cordons that node again and persists it with the timestamp 5. -/
theorem mark_rewrites_timestamp_without_flip :
    (cordonedAt (newNode "test-node-0" []) "3").Unschedulable = true ∧
    (Node.MarkAsUnschedulable stdPlatform mockEnv (cordonedAt (newNode "test-node-0" []) "3")
        ⟨recordonPool, []⟩).1
      = Outcome.ret (cordonedAt (newNode "test-node-0" []) "5", none) ∧
    callsSince ⟨recordonPool, []⟩
        (checkForUnscheduling stdPlatform mockEnv ⟨recordonPool.nodes⟩ [⟨ResourceCPU, 1600⟩]
          ⟨recordonPool, []⟩).2
      = [Call.Now 5, Call.UpdateNode (cordonedAt (newNode "test-node-0" []) "5")] := by
  decide

/-- C14, amended. Every successful `MarkAsSchedulable` or `MarkAsUnschedulable`
sets the flag and rewrites the `kubescaler/timestamp` annotation with the text of
the current instant, whether or not the flag changes value (so a flip always
rewrites the timestamp, and so does cordoning a node that is already cordoned);
and every node that `checkForUnscheduling`, `checkForScheduling` or a whole
`scale()` pass persists with `UpdateNode` carries the text of a clock reading of
that operation as its timestamp. -/
theorem mark_always_rewrites_timestamp {σ : Type} (P : Platform) (E : Env σ) (cfg : Config) :
    (∀ (b : Bool) (n : Node) (s : Sys σ) (m : List (String × String)) (txt : String),
      n.Annotations = some m → P.marshalText (E.Now s.st).1 = Except.ok txt →
      (Node.MarkAsSchedulable P E n s).1 = Outcome.ret (Node.withMark n false m txt, none) ∧
      (Node.MarkAsUnschedulable P E n s).1 = Outcome.ret (Node.withMark n true m txt, none) ∧
      (Node.withMark n b m txt).Unschedulable = b ∧
      mapGet ((Node.withMark n b m txt).Annotations.getD []) timestampAnnotation = some txt) ∧
    (∀ (nodes : NodeList) (extra : List Resource) (s : Sys σ) (u : Node),
      Call.UpdateNode u ∈ callsSince s (checkForUnscheduling P E nodes extra s).2 →
      u.Unschedulable = true ∧ ∃ t txt,
        Call.Now t ∈ callsSince s (checkForUnscheduling P E nodes extra s).2 ∧
        P.marshalText t = Except.ok txt ∧
        mapGet (u.Annotations.getD []) timestampAnnotation = some txt) ∧
    (∀ (nodes : NodeList) (needs : List Resource) (s : Sys σ) (u : Node),
      Call.UpdateNode u ∈ callsSince s (checkForScheduling P E nodes needs s).2 →
      u.Unschedulable = false ∧ ∃ t txt,
        Call.Now t ∈ callsSince s (checkForScheduling P E nodes needs s).2 ∧
        P.marshalText t = Except.ok txt ∧
        mapGet (u.Annotations.getD []) timestampAnnotation = some txt) ∧
    (∀ (s : Sys σ) (u : Node), Call.UpdateNode u ∈ callsSince s (scale P E cfg s).2 →
      ∃ t txt, Call.Now t ∈ callsSince s (scale P E cfg s).2 ∧
        P.marshalText t = Except.ok txt ∧
        mapGet (u.Annotations.getD []) timestampAnnotation = some txt) := by
  refine ⟨?_, ?_, ?_, ?_⟩
  · intro b n s m txt hann htxt
    refine ⟨?_, ?_, rfl, by simp [Node.withMark, mapGet_mapSet_self]⟩
    · simp [Node.MarkAsSchedulable, Node.mark, callNow, htxt, hann, Node.withMark]
    · simp [Node.MarkAsUnschedulable, Node.mark, callNow, htxt, hann, Node.withMark]
  · intro nodes extra s u hu
    obtain ⟨ext, hext, hmarks⟩ := checkForUnscheduling_marks P E nodes extra s
    rw [callsSince_append _ _ ext hext] at hu ⊢
    exact hmarks.2 u hu
  · intro nodes needs s u hu
    obtain ⟨ext, hext, hmarks⟩ := checkForScheduling_marks P E nodes needs s
    rw [callsSince_append _ _ ext hext] at hu ⊢
    exact hmarks.2 u hu
  · intro s u hu
    exact (passShape_facts P cfg _ (scale_shape P E cfg s)).1 u hu

/-- C18, as stated, fails: on scenario `scale_up_schedule` one pass uncordons a
node and resizes; on scenario `scale_down` one pass cordons a node and deletes it. -/
theorem scale_mixes_action_kinds :
    callsSince ⟨scaleUpSchedulePool, []⟩
        (scale stdPlatform mockEnv testConfig ⟨scaleUpSchedulePool, []⟩).2
      = [Call.Nodes "role=scalable", Call.Now 5,
          Call.UpdateNode (Node.withMark (newNode "test-node-2" (workloadPods 1)) false
            [( timestampAnnotation, "3")] "5"),
          Call.Nodes "role=scalable", Call.ResizeNode 3, Call.Nodes "role=scalable",
          Call.DeleteNodes []] ∧
    callsSince ⟨scaleDownPool, []⟩ (scale stdPlatform mockEnv testConfig ⟨scaleDownPool, []⟩).2
      = [Call.Nodes "role=scalable", Call.Now 5,
          Call.UpdateNode (Node.withMark (newNode "test-node-2" []) true [] "5"),
          Call.Nodes "role=scalable", Call.Now 6, Call.Now 7,
          Call.DeleteNodes ["test-node-2"]] := by
  decide

/-- C18, amended. A single `scale()` pass never both cordons and uncordons
(the nodes it updates are all uncordoned or all cordoned), never resizes in a
pass in which it cordons, and makes at most one `ResizeNode` call and at most
one `DeleteNodes` call; it can uncordon and resize in the same pass, and it can
delete after having uncordoned, resized or cordoned. -/
theorem scale_action_kinds {σ : Type} (P : Platform) (E : Env σ) (cfg : Config) (s : Sys σ) :
    ((∀ u, Call.UpdateNode u ∈ callsSince s (scale P E cfg s).2 → u.Unschedulable = false) ∨
      ((∀ u, Call.UpdateNode u ∈ callsSince s (scale P E cfg s).2 → u.Unschedulable = true) ∧
        ∀ k, Call.ResizeNode k ∉ callsSince s (scale P E cfg s).2)) ∧
    (callsSince s (scale P E cfg s).2).countP Call.isResize ≤ 1 ∧
    (callsSince s (scale P E cfg s).2).countP Call.isDelete ≤ 1 :=
  (passShape_facts P cfg _ (scale_shape P E cfg s)).2

/-- C20. Timestamp round trip: where the text form of an instant parses back to
that instant, after `MarkAsSchedulable` or `MarkAsUnschedulable` returns `nil`
at the instant `t` read from the clock, `SchedulingMarkTimestamp` on the node
returns `t`; hence every node that a `scale()` pass persists (cordoned or
uncordoned) has a `kubescaler/timestamp` that parses, to a clock reading of the pass. -/
theorem timestamp_round_trip {σ : Type} (P : Platform) (E : Env σ) (cfg : Config)
    (hrt : ∀ t txt, P.marshalText t = Except.ok txt → P.unmarshalText txt = Except.ok t) :
    (∀ (n n1 : Node) (s : Sys σ),
      (Node.MarkAsUnschedulable P E n s).1 = Outcome.ret (n1, none) →
      n1.SchedulingMarkTimestamp P = Except.ok (E.Now s.st).1) ∧
    (∀ (n n1 : Node) (s : Sys σ),
      (Node.MarkAsSchedulable P E n s).1 = Outcome.ret (n1, none) →
      n1.SchedulingMarkTimestamp P = Except.ok (E.Now s.st).1) ∧
    (∀ (s : Sys σ) (u : Node), Call.UpdateNode u ∈ callsSince s (scale P E cfg s).2 →
      ∃ t, Call.Now t ∈ callsSince s (scale P E cfg s).2 ∧
        u.SchedulingMarkTimestamp P = Except.ok t) := by
  have hmark : ∀ (b : Bool) (n n1 : Node) (s : Sys σ),
      (Node.mark P E b n s).1 = Outcome.ret (n1, none) →
      n1.SchedulingMarkTimestamp P = Except.ok (E.Now s.st).1 := by
    intro b n n1 s h
    unfold Node.mark at h
    cases hm : P.marshalText (callNow E s).1 with
    | error err => simp [hm] at h
    | ok txt =>
      cases ha : n.Annotations with
      | none => simp [hm, ha] at h
      | some m =>
        simp only [hm, ha, Outcome.ret.injEq, Prod.mk.injEq, and_true] at h
        subst h
        simp only [Node.SchedulingMarkTimestamp, Option.getD_some, mapGet_mapSet_self]
        exact hrt _ _ (by simpa [callNow] using hm)
  refine ⟨fun n n1 s h => hmark true n n1 s h, fun n n1 s h => hmark false n n1 s h, ?_⟩
  intro s u hu
  obtain ⟨t, txt, h1, h2, h3⟩ := (passShape_facts P cfg _ (scale_shape P E cfg s)).1 u hu
  refine ⟨t, h1, ?_⟩
  simp only [Node.SchedulingMarkTimestamp, h3, Option.getD_some]
  exact hrt t txt h2

/-- The decimal text form of `stdPlatform` reads back as the instant written:
on the collaborators of the tests every node marked or persisted by a pass has a
timestamp that parses to the clock reading. -/
theorem timestamp_round_trip_witness :
    (∀ (n n1 : Node) (s : Sys Pool),
      (Node.MarkAsUnschedulable stdPlatform mockEnv n s).1 = Outcome.ret (n1, none) →
      n1.SchedulingMarkTimestamp stdPlatform = Except.ok (mockEnv.Now s.st).1) ∧
    (∀ (n n1 : Node) (s : Sys Pool),
      (Node.MarkAsSchedulable stdPlatform mockEnv n s).1 = Outcome.ret (n1, none) →
      n1.SchedulingMarkTimestamp stdPlatform = Except.ok (mockEnv.Now s.st).1) ∧
    (∀ (s : Sys Pool) (u : Node),
      Call.UpdateNode u ∈ callsSince s (scale stdPlatform mockEnv testConfig s).2 →
      ∃ t, Call.Now t ∈ callsSince s (scale stdPlatform mockEnv testConfig s).2 ∧
        u.SchedulingMarkTimestamp stdPlatform = Except.ok t) :=
  timestamp_round_trip stdPlatform mockEnv testConfig stdPlatform_round_trip

/-- C19. Never uncordoned and deleted together: over an orchestrator that
persists (`Nodes` returns the stored nodes, `UpdateNode` replaces the stored node
of that name) and a provider whose resize leaves the stored nodes it keeps as
they are and adds only schedulable nodes, the name of a node that a `scale()`
pass uncordons is not in the list the same pass passes to `DeleteNodes`. -/
theorem uncordoned_never_deleted (P : Platform)
    (resize : Int → List Node → Option Error × List Node)
    (delete : List String → List Node → Option Error × List Node) (cfg : Config)
    (hres : ∀ count l n, n ∈ (resize count l).2 → n.Unschedulable = true → n ∈ l)
    (s : Sys Pool) (u : Node) (ids : List String)
    (hu : Call.UpdateNode u ∈ callsSince s (scale P (persistentEnv resize delete) cfg s).2)
    (hflag : u.Unschedulable = false)
    (hd : Call.DeleteNodes ids ∈ callsSince s (scale P (persistentEnv resize delete) cfg s).2) :
    u.Name ∉ ids := by
  revert hu hd
  rw [scale]
  split
  · rename_i err s1 h
    simp [callNodes, persistentEnv] at h
  · rename_i nodes s1 h
    have hs1 : s1 = ⟨s.st, s.calls ++ [Call.Nodes cfg.NodeSelector]⟩ := by
      have : s1 = (callNodes (persistentEnv resize delete) cfg.NodeSelector s).2 := by rw [h]
      rw [this]; rfl
    have hs1c : s1.calls = s.calls ++ [Call.Nodes cfg.NodeSelector] := by rw [hs1]
    split
    · rw [callsSince_append s _ [Call.Nodes cfg.NodeSelector, Call.ResizeNode cfg.MinimumNode]
        (by simp [callResizeNode, hs1c])]
      intro hu; simp at hu
    · split
      · rw [callsSince_append s _ _ hs1c]
        intro hu; simp at hu
      · rename_i a ha
        split
        · obtain ⟨ext, hext, hmarks, hapart⟩ := checkForScheduling_apart P resize delete nodes
            [⟨ResourceCPU, wrap64 (cfg.PodCPURequest * cfg.BufferSlotSize)⟩] s1
          have hstop : ∀ (r : Outcome (Option Error)) (s2 : Sys Pool),
              s2.calls = s1.calls ++ ext →
              Call.UpdateNode u ∈ callsSince s (r, s2).2 →
              Call.DeleteNodes ids ∈ callsSince s (r, s2).2 → u.Name ∉ ids := by
            intro r s2 h2 _ hd
            rw [callsSince_append s _ (Call.Nodes cfg.NodeSelector :: ext)
              (by simp [h2, hs1c])] at hd
            simp only [List.mem_cons] at hd
            rcases hd with hd | hd
            · exact Call.noConfusion hd
            · exact absurd hd (marks_no_delete P false ext hmarks ids)
          split
          · rename_i s2 h2
            rw [h2] at hext
            exact hstop _ s2 hext
          · rename_i err s2 h2
            rw [h2] at hext hapart
            simp only at hext hapart
            split
            · exact hstop _ s2 hext
            · obtain ⟨hnoup, hdel⟩ := scaleUp_deletes_cordoned P resize delete cfg hres s2
              obtain ⟨rest, hrest, -⟩ := scaleUp_shape P (persistentEnv resize delete) cfg s2
              rw [callsSince_append s2 _ rest hrest] at hnoup hdel
              rw [callsSince_append s _ (Call.Nodes cfg.NodeSelector :: (ext ++ rest))
                (by simp [hrest, hext, hs1c])]
              intro hu hd hin
              simp only [List.mem_cons, List.mem_append] at hu hd
              have hu1 : Call.UpdateNode u ∈ ext := by
                rcases hu with hu | hu | hu
                · exact Call.noConfusion hu
                · exact hu
                · exact absurd hu (hnoup u)
              have hd1 : Call.DeleteNodes ids ∈ rest := by
                rcases hd with hd | hd | hd
                · exact Call.noConfusion hd
                · exact absurd hd (marks_no_delete P false ext hmarks ids)
                · exact hd
              obtain ⟨node, hnode, hname, hcord⟩ := hdel ids hd1 u.Name hin
              exact (hapart node hnode hcord).2 u hu1 hname
        · split
          · obtain ⟨ext, hext, hmarks⟩ := checkForUnscheduling_marks P
              (persistentEnv resize delete) nodes
              [⟨ResourceCPU, wrap64 (cfg.PodCPURequest * wrap64 (a - cfg.BufferSlotSize))⟩] s1
            have hcord : ∀ (rest : List Call), (∀ v, Call.UpdateNode v ∉ rest) →
                Call.UpdateNode u ∈ Call.Nodes cfg.NodeSelector :: (ext ++ rest) → False := by
              intro rest hrest hu
              simp only [List.mem_cons, List.mem_append] at hu
              rcases hu with hu | hu | hu
              · exact Call.noConfusion hu
              · have := (hmarks.2 u hu).1
                rw [hflag] at this
                exact Bool.noConfusion this
              · exact hrest u hu
            split
            · rename_i s2 h2
              rw [h2] at hext
              simp only at hext
              rw [callsSince_append s _ (Call.Nodes cfg.NodeSelector :: (ext ++ []))
                (by simp [hext, hs1c])]
              intro hu
              exact absurd (hcord [] (by simp) hu) id
            · rename_i err s2 h2
              rw [h2] at hext
              simp only at hext
              rw [callsSince_append s _ (Call.Nodes cfg.NodeSelector :: (ext ++ []))
                (by simp [hext, hs1c])]
              intro hu
              exact absurd (hcord [] (by simp) hu) id
            · rename_i s2 h2
              rw [h2] at hext
              simp only at hext
              obtain ⟨tail, htail, hshape⟩ := deleteExtraNodes_tail P
                (persistentEnv resize delete) cfg s2
              rw [callsSince_append s _ (Call.Nodes cfg.NodeSelector :: (ext ++ tail))
                (by simp [htail, hext, hs1c])]
              intro hu
              exact absurd (hcord tail (deleteTail_facts _ _ hshape).1 hu) id
          · obtain ⟨tail, htail, hshape⟩ := deleteExtraNodes_tail P
              (persistentEnv resize delete) cfg s1
            rw [callsSince_append s _ (Call.Nodes cfg.NodeSelector :: tail)
              (by simp [htail, hs1c])]
            intro hu
            simp only [List.mem_cons] at hu
            rcases hu with hu | hu
            · exact Call.noConfusion hu
            · exact absurd hu ((deleteTail_facts _ _ hshape).1 u)

/-- C17, as stated, fails on scenario `minimum_scale`: the first `scale()` on
the empty pool succeeds and resizes to 2 fresh nodes, none cordoned; the second
`scale()` finds 20 slots for a buffer of 4 and cordons `test-node-0`. -/
theorem scale_not_idempotent :
    (scale stdPlatform mockEnv testConfig ⟨minimumScalePool, []⟩).1 = Outcome.ret none ∧
    (scale stdPlatform mockEnv testConfig ⟨minimumScalePool, []⟩).2.st.nodes.length = 2 ∧
    cordonedNames (scale stdPlatform mockEnv testConfig ⟨minimumScalePool, []⟩).2.st = [] ∧
    (scale stdPlatform mockEnv testConfig
      (scale stdPlatform mockEnv testConfig ⟨minimumScalePool, []⟩).2).1 = Outcome.ret none ∧
    cordonedNames (scale stdPlatform mockEnv testConfig
      (scale stdPlatform mockEnv testConfig ⟨minimumScalePool, []⟩).2).2.st
      = ["test-node-0"] := by
  decide

/-- Four nodes with 9, 8, 1 and 0 pods, the last two cordoned: the pass
uncordons `test-node-2` and deletes `test-node-3`. -/
theorem uncordoned_never_deleted_witness :
    callsSince ⟨uncordonAndDeletePool, []⟩
        (scale stdPlatform (persistentEnv mockResize mockDelete) testConfig
          ⟨uncordonAndDeletePool, []⟩).2
      = [Call.Nodes "role=scalable", Call.Now 5,
          Call.UpdateNode (Node.withMark (newNode "test-node-2" (workloadPods 1)) false
            [( timestampAnnotation, "3")] "5"),
          Call.Nodes "role=scalable", Call.ResizeNode 3, Call.Nodes "role=scalable",
          Call.Now 6, Call.Now 7, Call.DeleteNodes ["test-node-3"]] ∧
    "test-node-2" ∉ ["test-node-3"] :=
  ⟨by decide,
    uncordoned_never_deleted stdPlatform mockResize mockDelete testConfig mockResize_keeps
      ⟨uncordonAndDeletePool, []⟩
      (Node.withMark (newNode "test-node-2" (workloadPods 1)) false
        [( timestampAnnotation, "3")] "5")
      ["test-node-3"] (by decide) rfl (by decide)⟩

/-- C22. The DigitalOcean `DeleteNodes` stops after the first id: for the ids
`a`, `b`, `c` and a client whose delete request succeeds, it issues the single
request for `a` and returns `nil`; the ids `b` and `c` are never requested. -/
theorem digitalocean_deleteNodes_only_first :
    digitalocean.Provider.DeleteNodes (fun _ (u : Unit) => (none, u)) ["a", "b", "c"] ((), [])
      = (none, ((), ["a"])) := by
  rfl

/-- C23. Readiness: `IsReady` is true exactly when the condition list holds a
condition of type `Ready` with status `True`; a node without conditions, or
whose `Ready` conditions all have another status, is not ready; and a node that
is not ready is in the `AvailableNodes` of no node list. -/
theorem isReady_iff (n : Node) :
    (n.IsReady = true ↔ ∃ c ∈ n.Conditions, c.CType = "Ready" ∧ c.Status = "True") ∧
    (n.Conditions = [] → n.IsReady = false) ∧
    ((∀ c ∈ n.Conditions, c.CType = "Ready" → c.Status ≠ "True") → n.IsReady = false) ∧
    (n.IsReady = false → ∀ nl : NodeList, n ∉ nl.AvailableNodes) := by
  have hiff : n.IsReady = true ↔ ∃ c ∈ n.Conditions, c.CType = "Ready" ∧ c.Status = "True" := by
    simp [Node.IsReady, List.any_eq_true]
  refine ⟨hiff, ?_, ?_, ?_⟩
  · intro h
    simp [Node.IsReady, h]
  · intro h
    cases hr : n.IsReady with
    | false => rfl
    | true =>
      obtain ⟨c, hc, h1, h2⟩ := hiff.mp hr
      exact absurd h2 (h c hc h1)
  · intro h nl hmem
    simp only [NodeList.AvailableNodes, List.mem_filter, Bool.and_eq_true] at hmem
    rw [h] at hmem
    exact Bool.noConfusion hmem.2.1

/-- C24, amended. For every list of nodes, `SortNodesByPods` yields a
permutation of the input ordered ascending by pod count and
`SortNodesByPodsDesc` one ordered descending by pod count; the relative order of
nodes with equal pod counts is the one `sort.Slice` produces, which is not fixed. -/
theorem sortNodesByPods_sorted_perm (P : Platform) (nodes : List Node) :
    (SortNodesByPods P nodes).Perm nodes ∧
    List.Pairwise (fun a b => a.Pods.length ≤ b.Pods.length) (SortNodesByPods P nodes) ∧
    (SortNodesByPodsDesc P nodes).Perm nodes ∧
    List.Pairwise (fun a b => b.Pods.length ≤ a.Pods.length) (SortNodesByPodsDesc P nodes) := by
  have hdesc : IsOrdering (fun a b => decide (b.Pods.length < a.Pods.length)) := by
    refine ⟨fun a => by simp, fun a b c h1 h2 => ?_, fun a b c h1 h2 => ?_⟩
    · simp only [decide_eq_true_eq] at h1 h2 ⊢; omega
    · simp only [decide_eq_false_iff_not] at h1 h2 ⊢; omega
  refine ⟨P.sortSlice_perm _ _, ?_, P.sortSlice_perm _ _, ?_⟩
  · refine List.Pairwise.imp ?_ (P.sortSlice_sorted _ nodes isOrdering_byPods)
    intro a b h
    simp only [decide_eq_false_iff_not] at h
    omega
  · refine List.Pairwise.imp ?_ (P.sortSlice_sorted _ nodes hdesc)
    intro a b h
    simp only [decide_eq_false_iff_not] at h
    omega

/-- C28. A genuine 0 is taken for "not yet set": on five nodes of 1000
milli-CPU and 1000 units of memory, with the extras (cpu, 500) and
(memory, 5000), the whole-node counts are 0 and 5, their minimum is 0, and
`checkForUnscheduling` cordons five nodes. -/
theorem checkForUnscheduling_zero_is_overwritten :
    floorDiv stdPlatform 500 ((twoResourceNode "test-node-0").ResourceCapacity ResourceCPU) = 0 ∧
    floorDiv stdPlatform 5000 ((twoResourceNode "test-node-0").ResourceCapacity "memory") = 5 ∧
    minExtraNodes stdPlatform (twoResourceNode "test-node-0")
      [⟨ResourceCPU, 500⟩, ⟨"memory", 5000⟩] 0 = 5 ∧
    (updatedNodes (checkForUnscheduling stdPlatform mockEnv ⟨twoResourcePool.nodes⟩
        [⟨ResourceCPU, 500⟩, ⟨"memory", 5000⟩] ⟨twoResourcePool, []⟩).2.calls).map
          (fun n => (n.Name, n.Unschedulable))
      = [("test-node-0", true), ("test-node-1", true), ("test-node-2", true),
          ("test-node-3", true), ("test-node-4", true)] := by
  decide

/-- C21, as stated, fails: the parse error ends the pass before `DeleteNodes` is
called. On four nodes with a minimum of 2, `test-node-1` is cordoned at instant
3, without pods and expired, and `test-node-2` is cordoned with a timestamp
that does not parse: `deleteExtraNodes` returns the parse error, its only calls
are the read of the nodes and the two clock readings for `test-node-1`, and
`test-node-1` is still in the pool. -/
theorem deleteExtraNodes_parse_error_deletes_nothing :
    (deleteExtraNodes stdPlatform mockEnv testConfig ⟨parseErrorPool, []⟩).1
      = Outcome.ret (some (Error.other "cannot parse")) ∧
    (deleteExtraNodes stdPlatform mockEnv testConfig ⟨parseErrorPool, []⟩).2.calls
      = [Call.Nodes "role=scalable", Call.Now 5, Call.Now 6] ∧
    (deleteExtraNodes stdPlatform mockEnv testConfig ⟨parseErrorPool, []⟩).2.st.nodes.map
        (fun n => n.Name)
      = ["test-node-0", "test-node-1", "test-node-2", "test-node-3"] := by
  decide

/-- C21, amended. If the cordoned nodes of the list read are `pre`, then a node
whose timestamp annotation is absent or malformed, then `post`, every
timestamp in `pre` parses, and `pre` has fewer nodes than the list has above
`MinimumNode` (so the loop reaches the affected node), then `deleteExtraNodes`
returns the parse error and does not call `DeleteNodes`: no node is deleted in
that pass, neither the affected one nor any other. -/
theorem deleteExtraNodes_aborts_on_parse_error {σ : Type} (P : Platform) (E : Env σ)
    (cfg : Config) (s : Sys σ) (nodes : NodeList) (pre : List Node) (bad : Node)
    (post : List Node) (err : Error)
    (hread : (E.Nodes cfg.NodeSelector s.st).1 = Except.ok nodes)
    (hsplit : nodes.UnschedulableNodes = pre ++ bad :: post)
    (hpre : ∀ n ∈ pre, ∃ t, n.SchedulingMarkTimestamp P = Except.ok t)
    (hbad : bad.SchedulingMarkTimestamp P = Except.error err)
    (hlen : cfg.MinimumNode + pre.length < nodes.Nodes.length) :
    (deleteExtraNodes P E cfg s).1 = Outcome.ret (some err) ∧
    ∀ ids, Call.DeleteNodes ids ∉ callsSince s (deleteExtraNodes P E cfg s).2 := by
  have hle : ¬ (nodes.Nodes.length : Int) ≤ cfg.MinimumNode := by omega
  have hloop := deleteLoop_reaches_error P E cfg bad post err hbad pre nodes.Nodes.length []
    (callNodes E cfg.NodeSelector s).2 hpre hlen
  rw [← hsplit] at hloop
  obtain ⟨extra, hcalls, hnow⟩ := deleteLoop_calls P E cfg nodes.UnschedulableNodes
    nodes.Nodes.length [] (callNodes E cfg.NodeSelector s).2
  cases hres : deleteLoop P E cfg nodes.UnschedulableNodes nodes.Nodes.length []
      (callNodes E cfg.NodeSelector s).2 with
  | mk r s2 =>
    rw [hres] at hcalls hloop
    simp only at hloop
    subst hloop
    have hc : callsSince s (deleteExtraNodes P E cfg s).2
        = Call.Nodes cfg.NodeSelector :: extra := by
      apply callsSince_append
      simp only [deleteExtraNodes]
      simp only [callNodes, hread] at hres hcalls ⊢
      simp [hle, hres, hcalls]
    constructor
    · simp only [deleteExtraNodes]
      simp only [callNodes, hread] at hres ⊢
      simp [hle, hres]
    · intro ids hmem
      rw [hc] at hmem
      simp at hmem
      obtain ⟨t, ht⟩ := hnow _ hmem
      exact Call.noConfusion ht

theorem deleteExtraNodes_aborts_on_parse_error_witness :
    (deleteExtraNodes stdPlatform mockEnv testConfig ⟨parseErrorPool, []⟩).1
      = Outcome.ret (some (Error.other "cannot parse")) ∧
    ∀ ids, Call.DeleteNodes ids ∉ callsSince ⟨parseErrorPool, []⟩
      (deleteExtraNodes stdPlatform mockEnv testConfig ⟨parseErrorPool, []⟩).2 :=
  deleteExtraNodes_aborts_on_parse_error stdPlatform mockEnv testConfig ⟨parseErrorPool, []⟩
    ⟨parseErrorPool.nodes⟩ [cordonedAt (newNode "test-node-1" []) "3"]
    (cordonedAt (newNode "test-node-2" []) "not-a-time") [] (Error.other "cannot parse")
    rfl rfl (by intro n hn; simp at hn; subst hn; exact ⟨3, rfl⟩) rfl (by decide)

/-- C27. No out-of-range access in `scale()`. With `MinimumNode >= 1`,
`PodCPURequest > 0`, `BufferSlotSize >= 0`, an orchestrator that persists and
whose stored nodes all have the CPU capacity `cap > 0`, an annotation map and
pod limits that are not negative (total capacity and total limits below 2^53
milli-units, where the arithmetic is exact): `scale()` does not panic, the
slot count never divides by zero, and the number of nodes
`checkForUnscheduling` slices off for the excess is at most the number of
available nodes and so at most `len(Nodes)`. -/
theorem scale_never_panics (P : Platform)
    (resize : Int → List Node → Option Error × List Node)
    (delete : List String → List Node → Option Error × List Node) (cfg : Config) (s : Sys Pool)
    (cap : Int)
    (hmin : 1 ≤ cfg.MinimumNode) (hreq : 0 < cfg.PodCPURequest) (hbuf : 0 ≤ cfg.BufferSlotSize)
    (hcap : ∀ n ∈ s.st.nodes, n.ResourceCapacity ResourceCPU = cap) (hcap0 : 0 < cap)
    (hann : ∀ n ∈ s.st.nodes, n.Annotations ≠ none)
    (hlim : ∀ n ∈ s.st.nodes, ∀ pod ∈ n.Pods, ∀ c ∈ pod.Containers,
      0 ≤ (mapGet c.Limits ResourceCPU).getD 0)
    (hsize : (s.st.nodes.length : Int) * cap < f64Exact)
    (huse : (s.st.nodes.map (fun n => specUsingResources n ResourceCPU)).sum < f64Exact) :
    (scale P (persistentEnv resize delete) cfg s).1 ≠ Outcome.panic ∧
    (∀ nl : NodeList, nl.AvailableSlot ⟨ResourceCPU, cfg.PodCPURequest⟩ ≠ none) ∧
    ∀ a first tl, s.st.nodes = first :: tl →
      NodeList.AvailableSlot ⟨s.st.nodes⟩ ⟨ResourceCPU, cfg.PodCPURequest⟩ = some a →
      cfg.BufferSlotSize < a →
      minExtraNodes P first
          [⟨ResourceCPU, wrap64 (cfg.PodCPURequest * wrap64 (a - cfg.BufferSlotSize))⟩] 0
        ≤ (NodeList.AvailableNodes ⟨s.st.nodes⟩).length ∧
      (NodeList.AvailableNodes ⟨s.st.nodes⟩).length ≤ s.st.nodes.length := by
  have hslice : ∀ a first tl, s.st.nodes = first :: tl →
      NodeList.AvailableSlot ⟨s.st.nodes⟩ ⟨ResourceCPU, cfg.PodCPURequest⟩ = some a →
      cfg.BufferSlotSize < a →
      minExtraNodes P first
          [⟨ResourceCPU, wrap64 (cfg.PodCPURequest * wrap64 (a - cfg.BufferSlotSize))⟩] 0
        ≤ (NodeList.AvailableNodes ⟨s.st.nodes⟩).length ∧
      (NodeList.AvailableNodes ⟨s.st.nodes⟩).length ≤ s.st.nodes.length := by
    intro a first tl hnodes hslot hgt
    exact ⟨(scaleDown_count P ⟨s.st.nodes⟩ first tl cap cfg.PodCPURequest cfg.BufferSlotSize a
      hnodes hcap hcap0 hlim hreq hbuf hsize huse hslot hgt).2.1, List.length_filter_le _ _⟩
  have hdiv : ∀ nl : NodeList, nl.AvailableSlot ⟨ResourceCPU, cfg.PodCPURequest⟩ ≠ none := by
    intro nl
    have : cfg.PodCPURequest ≠ 0 := by omega
    simp [NodeList.AvailableSlot, this]
  refine ⟨?_, hdiv, hslice⟩
  unfold scale
  have hread : callNodes (persistentEnv resize delete) cfg.NodeSelector s
      = (Except.ok ⟨s.st.nodes⟩, ⟨s.st, s.calls ++ [Call.Nodes cfg.NodeSelector]⟩) := rfl
  rw [hread]
  simp only
  split
  · simp
  · rename_i hlen
    have hne : s.st.nodes ≠ [] := by
      intro h
      rw [h] at hlen
      simp at hlen
      omega
    obtain ⟨first, tl, hnodes⟩ := List.exists_cons_of_ne_nil hne
    split
    · rename_i h
      exact absurd h (hdiv _)
    · rename_i a hslot
      split
      · obtain ⟨h1, h2⟩ := checkForScheduling_no_panic P resize delete ⟨s.st.nodes⟩
          ⟨ResourceCPU, wrap64 (cfg.PodCPURequest * cfg.BufferSlotSize)⟩ []
          ⟨s.st, s.calls ++ [Call.Nodes cfg.NodeSelector]⟩ hann
        split
        · rename_i s2 h
          rw [h] at h1
          exact absurd rfl h1
        · rename_i err s2 h
          rw [h] at h2
          split
          · simp
          · apply scaleUp_no_panic
            · intro h0
              rw [h0] at h2
              simp at h2
              exact hne (List.length_eq_zero.mp h2.symm)
            · omega
      · split
        · rename_i hgt
          have h1 := checkForUnscheduling_no_panic P (persistentEnv resize delete) ⟨s.st.nodes⟩
            first tl
            ⟨ResourceCPU, wrap64 (cfg.PodCPURequest * wrap64 (a - cfg.BufferSlotSize))⟩
            ⟨s.st, s.calls ++ [Call.Nodes cfg.NodeSelector]⟩ hnodes hann
            (by
              have := hslice a first tl hnodes hslot hgt
              have h3 : (((NodeList.AvailableNodes ⟨s.st.nodes⟩).length : Nat) : Int)
                  ≤ s.st.nodes.length := by exact_mod_cast this.2
              exact le_trans this.1 h3)
          split
          · rename_i s2 h
            rw [h] at h1
            exact absurd rfl h1
          · simp
          · exact deleteExtraNodes_no_panic _ _ _ _
        · exact deleteExtraNodes_no_panic _ _ _ _

theorem scale_never_panics_witness :
    1 ≤ testConfig.MinimumNode ∧
    (scale stdPlatform (persistentEnv mockResize mockDelete) testConfig ⟨scaleDownPool, []⟩).1
      ≠ Outcome.panic ∧
    minExtraNodes stdPlatform (newNode "test-node-0" (workloadPods 9))
        [⟨ResourceCPU, wrap64 (testConfig.PodCPURequest * wrap64 (14 - testConfig.BufferSlotSize))⟩] 0
      ≤ (NodeList.AvailableNodes ⟨scaleDownPool.nodes⟩).length :=
  ⟨by decide,
    (scale_never_panics stdPlatform mockResize mockDelete testConfig ⟨scaleDownPool, []⟩ 1000
      (by decide) (by decide) (by decide) (by decide) (by decide) (by decide) (by decide)
      (by decide) (by decide)).1,
    ((scale_never_panics stdPlatform mockResize mockDelete testConfig ⟨scaleDownPool, []⟩ 1000
      (by decide) (by decide) (by decide) (by decide) (by decide) (by decide) (by decide)
      (by decide) (by decide)).2.2 14 _ _ rfl (by decide) (by decide)).1⟩

/-- C26. Cordoning never eats into the buffer. Over an orchestrator that
stores what `UpdateNode` sends and lists it back, with distinct node names, the
same CPU capacity `cap > 0` on every node, pod limits that are not negative,
`PodCPURequest > 0`, `BufferSlotSize >= 0` and at least `MinimumNode` nodes
(total capacity and total limits below 2^53 milli-units, where the arithmetic
is exact): when the slot count is above the buffer, the slot count of the
stored nodes is at least `BufferSlotSize` right after the call of
`checkForUnscheduling` that `scale()` makes for the excess
`PodCPURequest * (availableSlot - BufferSlotSize)`, however that call ends, and
again at the end of `scale()` when the provider removes the nodes it is asked
to delete or none. -/
theorem cordoning_keeps_buffer (P : Platform)
    (resize : Int → List Node → Option Error × List Node)
    (delete : List String → List Node → Option Error × List Node) (cfg : Config) (s : Sys Pool)
    (cap a : Int)
    (hnames : (s.st.nodes.map (fun n => n.Name)).Nodup)
    (hcap : ∀ n ∈ s.st.nodes, n.ResourceCapacity ResourceCPU = cap) (hcap0 : 0 < cap)
    (hlim : ∀ n ∈ s.st.nodes, ∀ pod ∈ n.Pods, ∀ c ∈ pod.Containers,
      0 ≤ (mapGet c.Limits ResourceCPU).getD 0)
    (hreq : 0 < cfg.PodCPURequest) (hbuf : 0 ≤ cfg.BufferSlotSize)
    (hsize : (s.st.nodes.length : Int) * cap < f64Exact)
    (huse : (s.st.nodes.map (fun n => specUsingResources n ResourceCPU)).sum < f64Exact)
    (hmin : cfg.MinimumNode ≤ s.st.nodes.length)
    (hslot : NodeList.AvailableSlot ⟨s.st.nodes⟩ ⟨ResourceCPU, cfg.PodCPURequest⟩ = some a)
    (hgt : cfg.BufferSlotSize < a)
    (hdel : ∀ ids l, (delete ids l).2 = l ∨ (delete ids l).2 = l.filter (fun n => n.Name ∉ ids)) :
    (∃ a2, NodeList.AvailableSlot
        ⟨(checkForUnscheduling P (persistentEnv resize delete) ⟨s.st.nodes⟩
            [⟨ResourceCPU, wrap64 (cfg.PodCPURequest * wrap64 (a - cfg.BufferSlotSize))⟩]
            (callNodes (persistentEnv resize delete) cfg.NodeSelector s).2).2.st.nodes⟩
        ⟨ResourceCPU, cfg.PodCPURequest⟩ = some a2 ∧ cfg.BufferSlotSize ≤ a2) ∧
    ∃ a3, NodeList.AvailableSlot ⟨(scale P (persistentEnv resize delete) cfg s).2.st.nodes⟩
        ⟨ResourceCPU, cfg.PodCPURequest⟩ = some a3 ∧ cfg.BufferSlotSize ≤ a3 := by
  have hread : callNodes (persistentEnv resize delete) cfg.NodeSelector s
      = (Except.ok ⟨s.st.nodes⟩, ⟨s.st, s.calls ++ [Call.Nodes cfg.NodeSelector]⟩) := rfl
  obtain ⟨h1, h2, h3⟩ := checkForUnscheduling_keeps_available P resize delete
    ⟨s.st, s.calls ++ [Call.Nodes cfg.NodeSelector]⟩ cap cfg.PodCPURequest cfg.BufferSlotSize a
    hnames hcap hcap0 hlim hreq hbuf hsize huse hslot hgt
  have hlen : ∀ l : List Node, l.map (fun n => n.Name) = s.st.nodes.map (fun n => n.Name) →
      l.length = s.st.nodes.length := by
    intro l hl
    have := congrArg List.length hl
    simpa using this
  rw [hread]
  simp only at h1 h2 h3 ⊢
  refine ⟨availableSlot_ge_buffer _ cap _ _ s.st.nodes.length h2 hcap0 hreq hbuf
    (le_of_eq (hlen _ h1)) hsize h3, ?_⟩
  unfold scale
  rw [hread]
  simp only
  rw [if_neg (by omega), hslot]
  simp only
  rw [if_neg (by omega), if_pos hgt]
  split
  · rename_i s2 h
    rw [h] at h1 h2 h3
    exact availableSlot_ge_buffer _ cap _ _ s.st.nodes.length h2 hcap0 hreq hbuf
      (le_of_eq (hlen _ h1)) hsize h3
  · rename_i err s2 h
    rw [h] at h1 h2 h3
    exact availableSlot_ge_buffer _ cap _ _ s.st.nodes.length h2 hcap0 hreq hbuf
      (le_of_eq (hlen _ h1)) hsize h3
  · rename_i s2 h
    rw [h] at h1 h2 h3
    simp only at h1 h2 h3
    obtain ⟨hsum, hsub⟩ := deleteExtraNodes_keeps_available P resize delete cfg s2 ResourceCPU
      (by rw [h1]; exact hnames) hdel
    refine availableSlot_ge_buffer _ cap _ _ s.st.nodes.length
      (fun m hm => h2 m (hsub.subset hm)) hcap0 hreq hbuf ?_ hsize (by rw [hsum]; exact h3)
    have := hsub.length_le
    have := hlen _ h1
    omega

theorem cordoning_keeps_buffer_witness :
    (∃ a2, NodeList.AvailableSlot
        ⟨(checkForUnscheduling stdPlatform (persistentEnv mockResize mockDelete)
            ⟨scaleDownPool.nodes⟩
            [⟨ResourceCPU, wrap64 (testConfig.PodCPURequest
              * wrap64 (14 - testConfig.BufferSlotSize))⟩]
            (callNodes (persistentEnv mockResize mockDelete) testConfig.NodeSelector
              ⟨scaleDownPool, []⟩).2).2.st.nodes⟩
        ⟨ResourceCPU, testConfig.PodCPURequest⟩ = some a2 ∧ testConfig.BufferSlotSize ≤ a2) ∧
    ∃ a3, NodeList.AvailableSlot
        ⟨(scale stdPlatform (persistentEnv mockResize mockDelete) testConfig
          ⟨scaleDownPool, []⟩).2.st.nodes⟩
        ⟨ResourceCPU, testConfig.PodCPURequest⟩ = some a3 ∧ testConfig.BufferSlotSize ≤ a3 :=
  cordoning_keeps_buffer stdPlatform mockResize mockDelete testConfig ⟨scaleDownPool, []⟩ 1000 14
    (by decide) (by decide) (by decide) (by decide) (by decide) (by decide) (by decide)
    (by decide) (by decide) (by decide) (by decide) (fun _ _ => Or.inr rfl)

/-- C24, as stated, fails: `sort.Slice` is not stable on more than 12 elements.
On fourteen nodes `test-node-0` to `test-node-13` with 2, 2, 1 (ten times), 0
and 0 pods, `SortNodesByPods` puts `test-node-6` before `test-node-3` and
`test-node-2` after `test-node-11`, though all ten have one pod; on the
mirrored pod counts `SortNodesByPodsDesc` does the same. The quicksort of the
Go standard library swaps the pivot `test-node-6` to the front of the slice
and `test-node-2` to its end. -/
theorem sortNodesByPods_not_stable :
    fourteenNodes.map (fun n => (n.Name, n.Pods.length))
      = [("test-node-0", 2), ("test-node-1", 2), ("test-node-2", 1), ("test-node-3", 1),
          ("test-node-4", 1), ("test-node-5", 1), ("test-node-6", 1), ("test-node-7", 1),
          ("test-node-8", 1), ("test-node-9", 1), ("test-node-10", 1), ("test-node-11", 1),
          ("test-node-12", 0), ("test-node-13", 0)] ∧
    (sort.Slice sort.xorshiftNext (fun a b => decide (a.Pods.length < b.Pods.length))
      fourteenNodes).map (fun n => n.Name)
      = ["test-node-12", "test-node-13", "test-node-6", "test-node-3", "test-node-4",
          "test-node-5", "test-node-7", "test-node-8", "test-node-9", "test-node-10",
          "test-node-11", "test-node-2", "test-node-0", "test-node-1"] ∧
    (SortNodesByPods goPlatform fourteenNodes).map (fun n => n.Name)
      = ["test-node-12", "test-node-13", "test-node-6", "test-node-3", "test-node-4",
          "test-node-5", "test-node-7", "test-node-8", "test-node-9", "test-node-10",
          "test-node-11", "test-node-2", "test-node-0", "test-node-1"] ∧
    (SortNodesByPodsDesc goPlatform fourteenNodesDesc).map (fun n => n.Name)
      = ["test-node-12", "test-node-13", "test-node-6", "test-node-3", "test-node-4",
          "test-node-5", "test-node-7", "test-node-8", "test-node-9", "test-node-10",
          "test-node-11", "test-node-2", "test-node-0", "test-node-1"] := by
  decide

/-- C17, amended. Over an orchestrator that stores what `UpdateNode` sends and
lists it back, with any provider: if the pool a first `scale()` leaves is
steady (below `MinimumNode` with a floor resize that changes nothing; or at
least `MinimumNode` nodes, the slot count at the buffer, or above it by less
than one whole node, or below it with no node cordoned and a resize request
that changes nothing, and no cordoned node without workload pods that expires
during the pass while the pool is above `MinimumNode`), then a second
`scale()` leaves the stored nodes, so the pool size and the set of cordoned
nodes, exactly as the first call left them. -/
theorem scale_idempotent_when_steady (P : Platform)
    (resize : Int → List Node → Option Error × List Node)
    (delete : List String → List Node → Option Error × List Node) (cfg : Config) (s : Sys Pool)
    (h : Steady P resize delete cfg (scale P (persistentEnv resize delete) cfg s).2.st) :
    (scale P (persistentEnv resize delete) cfg
        (scale P (persistentEnv resize delete) cfg s).2).2.st.nodes.length
      = (scale P (persistentEnv resize delete) cfg s).2.st.nodes.length ∧
    cordonedNames (scale P (persistentEnv resize delete) cfg
        (scale P (persistentEnv resize delete) cfg s).2).2.st
      = cordonedNames (scale P (persistentEnv resize delete) cfg s).2.st ∧
    (scale P (persistentEnv resize delete) cfg
        (scale P (persistentEnv resize delete) cfg s).2).2.st.nodes
      = (scale P (persistentEnv resize delete) cfg s).2.st.nodes := by
  have heq := scale_steady P resize delete cfg (scale P (persistentEnv resize delete) cfg s).2 h
  refine ⟨by rw [heq], ?_, heq⟩
  unfold cordonedNames
  rw [heq]

/-- Scenario `scale_down_unschedule`: the first pass cordons `test-node-2`,
which carries a workload pod, and leaves 5 slots for a buffer of 4; the second
pass reads the clock later and changes neither the pool size nor the cordoned
set. -/
theorem scale_idempotent_when_steady_witness :
    cordonedNames (scale stdPlatform (persistentEnv mockResize mockDelete) testConfig
        ⟨scaleDownUnschedulePool, []⟩).2.st = ["test-node-2"] ∧
    callsSince (scale stdPlatform (persistentEnv mockResize mockDelete) testConfig
        ⟨scaleDownUnschedulePool, []⟩).2
      (scale stdPlatform (persistentEnv mockResize mockDelete) testConfig
        (scale stdPlatform (persistentEnv mockResize mockDelete) testConfig
          ⟨scaleDownUnschedulePool, []⟩).2).2
      = [Call.Nodes "role=scalable", Call.Nodes "role=scalable", Call.Now 7,
          Call.DeleteNodes []] ∧
    cordonedNames (scale stdPlatform (persistentEnv mockResize mockDelete) testConfig
        (scale stdPlatform (persistentEnv mockResize mockDelete) testConfig
          ⟨scaleDownUnschedulePool, []⟩).2).2.st
      = cordonedNames (scale stdPlatform (persistentEnv mockResize mockDelete) testConfig
          ⟨scaleDownUnschedulePool, []⟩).2.st :=
  ⟨by decide, by decide,
    (scale_idempotent_when_steady stdPlatform mockResize mockDelete testConfig
      ⟨scaleDownUnschedulePool, []⟩
      (by
        have hl : (scale stdPlatform (persistentEnv mockResize mockDelete) testConfig
            ⟨scaleDownUnschedulePool, []⟩).2.st
            = ⟨[newNode "test-node-0" (workloadPods 8), newNode "test-node-1" (workloadPods 7),
                Node.withMark (newNode "test-node-2" (workloadPods 1)) true [] "5"], 7⟩ := by
          decide
        rw [hl]
        have hs : NodeList.AvailableSlot
            ⟨[newNode "test-node-0" (workloadPods 8), newNode "test-node-1" (workloadPods 7),
              Node.withMark (newNode "test-node-2" (workloadPods 1)) true [] "5"]⟩
            ⟨ResourceCPU, testConfig.PodCPURequest⟩ = some 5 := by decide
        have hw : ∀ m ∈ [newNode "test-node-0" (workloadPods 8),
              newNode "test-node-1" (workloadPods 7),
              Node.withMark (newNode "test-node-2" (workloadPods 1)) true [] "5"],
            m.Unschedulable = true → (filterPods testConfig m.Pods).length ≠ 0 := by decide
        refine ⟨fun hlt => absurd hlt (by decide), fun _ => ⟨?_, Or.inr ⟨rfl, ?_⟩⟩⟩
        · intro a ha
          rw [hs] at ha
          have ha5 : a = 5 := (Option.some.inj ha).symm
          subst ha5
          refine ⟨fun hlt => absurd hlt (by decide), ?_⟩
          intro _ first rest hcons
          have hfirst : first = newNode "test-node-0" (workloadPods 8) :=
            (List.cons.inj hcons).1.symm
          subst hfirst
          decide
        · intro n hn hu
          exact Or.inl (hw n hn hu))).2.1⟩

end Kubescaler
